import Mathlib

/-!
# MCP smart-CV server: extraction pipeline

A shallow embedding of the field extractors, of the profile cache and of the
request handlers of `src/src/index.js`, of the standalone server
`src/mcp_cv_server.js` and of the configuration update of
`src/setup_script.js`, followed by the properties proved about them.

JavaScript strings are modelled as lists of characters (`Str`).  The regular
expressions of the source are written as terms of a small regular-expression
type and run by a backtracking matcher that returns, in priority order, every
way the pattern can match at a position; the first entry is the match the
JavaScript engine reports.
-/

namespace SmartCV

/-- A JavaScript string, as the list of its characters. -/
abbrev Str := List Char

/-! ## Character classes of the regular expressions -/

/-- The class `\d`, the decimal digits `0`..`9`. -/
def isDigit (c : Char) : Bool :=
  decide (48 ≤ c.toNat) && decide (c.toNat ≤ 57)

/-- The class `\w`: ASCII letters, digits and the underscore. -/
def isWordChar (c : Char) : Bool :=
  (decide (65 ≤ c.toNat) && decide (c.toNat ≤ 90))
    || (decide (97 ≤ c.toNat) && decide (c.toNat ≤ 122))
    || isDigit c || c == '_'

/-- The class `\s`, which is also the set of characters removed by
`String.prototype.trim`: the ECMAScript white space and line terminators. -/
def isWhiteSpace (c : Char) : Bool :=
  let n := c.toNat
  n == 0x09 || n == 0x0A || n == 0x0B || n == 0x0C || n == 0x0D || n == 0x20
    || n == 0xA0 || n == 0x1680 || (decide (0x2000 ≤ n) && decide (n ≤ 0x200A))
    || n == 0x2028 || n == 0x2029 || n == 0x202F || n == 0x205F || n == 0x3000
    || n == 0xFEFF

/-- Canonical form of a character under the `i` flag of a regular expression
without the `u` flag: the upper-case letter for `a`..`z` and for the Latin-1
letters `à`..`þ`, the character itself otherwise.  (A character outside ASCII
never canonicalises to an ASCII one, so for the pattern characters of this
program, all ASCII or `é`, comparing canonical forms through this function is
what the engine does.) -/
def canonicalize (c : Char) : Char :=
  if (97 ≤ c.toNat ∧ c.toNat ≤ 122) ∨ (0xE0 ≤ c.toNat ∧ c.toNat ≤ 0xFE ∧ c.toNat ≠ 0xF7) then
    Char.ofNat (c.toNat - 32)
  else c

/-- A pattern character `p` matched under the `i` flag. -/
def litI (p : Char) (c : Char) : Bool :=
  canonicalize c == canonicalize p

/-- A pattern character `p` matched exactly. -/
def lit (p : Char) (c : Char) : Bool :=
  c == p

/-! ## Regular expressions -/

/-- The fragment of regular expressions the source uses.  Every quantifier of
the source applies to a single-character class, which is what `rep` holds:
`rep p min max greedy` is `p{min,max}` (`max = none` for no upper bound),
greedy or lazy. -/
inductive Regex where
  | chr (p : Char → Bool)
  | rep (p : Char → Bool) (min : Nat) (max : Option Nat) (greedy : Bool)
  | seq (a b : Regex)
  | alt (a b : Regex)
  | look (a : Regex)
  | eoi
  | eps

/-- The suffixes left after consuming `0, 1, 2, ...` characters of class `p`
from the front of `s`, at most `max` of them, shortest consumption first. -/
def classRuns (p : Char → Bool) : Str → Option Nat → List Str
  | [], _ => [[]]
  | c :: cs, max =>
    (c :: cs) ::
      (if p c && !(max == some 0) then classRuns p cs (max.map (· - 1)) else [])

/-- The backtracking matcher: `matchR r s` lists the remainders of `s` after
each way `r` can match a prefix of `s`, in the order in which a backtracking
engine tries them. -/
def matchR : Regex → Str → List Str
  | .chr _, [] => []
  | .chr p, c :: cs => if p c then [cs] else []
  | .rep p min max greedy, s =>
    let rs := (classRuns p s max).drop min
    if greedy then rs.reverse else rs
  | .seq a b, s => (matchR a s).flatMap (fun s1 => matchR b s1)
  | .alt a b, s => matchR a s ++ matchR b s
  | .look a, s => if (matchR a s).isEmpty then [] else [s]
  | .eoi, s => if s.isEmpty then [s] else []
  | .eps, s => [s]

/-- A literal word of the pattern, read under the `i` flag. -/
def wordI : Str → Regex
  | [] => .eps
  | c :: cs => .seq (.chr (litI c)) (wordI cs)

/-- The method `text.match(r)` for a regular expression with the `g` flag (and
`|| []` for the `null` of no match): all matches, left to right.  `skip` is
the number of characters still covered by the previous match.  An empty match
is recorded and the search resumes one character further. -/
def matchAll (r : Regex) : Str → Nat → List Str
  | [], skip =>
    if skip = 0 then (if (matchR r []).isEmpty then [] else [[]]) else []
  | _ :: cs, skip + 1 => matchAll r cs skip
  | c :: cs, 0 =>
    match (matchR r (c :: cs)).head? with
    | some e =>
      let n := (c :: cs).length - e.length
      (c :: cs).take n :: matchAll r cs (n - 1)
    | none => matchAll r cs 0

/-! ## String helpers -/

/-- The method `String.prototype.trim`. -/
def trim (s : Str) : Str :=
  ((s.dropWhile isWhiteSpace).reverse.dropWhile isWhiteSpace).reverse

/-- The call `text.split('\n')`. -/
def splitLines : Str → List Str
  | [] => [[]]
  | c :: cs =>
    if c = '\n' then [] :: splitLines cs
    else
      match splitLines cs with
      | [] => [[c]]
      | l :: ls => (c :: l) :: ls

/-- The method `Array.prototype.join` on an array of strings. -/
def join (sep : Str) : List Str → Str
  | [] => []
  | [l] => l
  | l :: l2 :: ls => l ++ sep ++ join sep (l2 :: ls)

/-- Whether `pat` is a prefix of `s`. -/
def startsWith : Str → Str → Bool
  | _, [] => true
  | [], _ :: _ => false
  | c :: cs, p :: ps => c == p && startsWith cs ps

/-- The method `s.includes(pat)`: `pat` occurs in `s` as a substring. -/
def includes : Str → Str → Bool
  | [], pat => startsWith [] pat
  | c :: cs, pat => startsWith (c :: cs) pat || includes cs pat

/-- The function `parseInt` on a string that starts with decimal digits: the
value of the leading digits.  The program applies it only to matches of
`\d{4}`. -/
def parseInt (s : Str) : Int :=
  (s.takeWhile isDigit).foldl (fun n c => 10 * n + ((c.toNat : Int) - 48)) 0

/-- The expression `x || "Non trouvé"` for `x` a string or `undefined`. -/
def orElse (x : Option Str) (dflt : Str) : Str :=
  match x with
  | some s => if s.isEmpty then dflt else s
  | none => dflt

/-- The function `String.prototype.toLowerCase` restricted to texts whose
characters lie in U+0000..U+00FF, where it maps `A`..`Z` and the Latin-1
capitals `À`..`Þ` (but not `×`) to the letter 32 code points further.  The
extractors take the lower-casing function as a parameter; this instance serves
to run them on such texts. -/
def toLowerCaseLatin1 (s : Str) : Str :=
  s.map (fun c =>
    if (65 ≤ c.toNat ∧ c.toNat ≤ 90) ∨ (0xC0 ≤ c.toNat ∧ c.toNat ≤ 0xDE ∧ c.toNat ≠ 0xD7) then
      Char.ofNat (c.toNat + 32)
    else c)

/-! ## The profile -/

structure PersonalInfo where
  name : Str
  email : Str
  phone : Str
  rawPersonalSection : Str
  deriving DecidableEq

structure TechnicalSkills where
  identifiedSkills : List Str
  technicalSections : List Str
  skillsCount : Nat
  deriving DecidableEq

structure Experience where
  experiencePeriods : List Str
  experienceYears : Int
  deriving DecidableEq

structure Education where
  hasEducationSection : Bool
  educationMentioned : List Str
  deriving DecidableEq

structure Projects where
  hasProjectsSection : Bool
  projectKeywordsFound : List Str
  deriving DecidableEq

structure CVData where
  rawText : Str
  extractedAt : Str
  personalInfo : PersonalInfo
  technicalSkills : TechnicalSkills
  experience : Experience
  education : Education
  projects : Projects
  deriving DecidableEq

/-! ## extractPersonalInfo -/

/-- The string used for a field that was not found. -/
def notFound : Str := "Non trouvé".toList

/-- The class `[\w\.-]`. -/
def emailChar (c : Char) : Bool :=
  isWordChar c || c == '.' || c == '-'

/-- The pattern `/[\w\.-]+@[\w\.-]+\.\w+/g`. -/
def emailRegex : Regex :=
  .seq (.rep emailChar 1 none true)
    (.seq (.chr (lit '@'))
      (.seq (.rep emailChar 1 none true)
        (.seq (.chr (lit '.')) (.rep isWordChar 1 none true))))

/-- The class `[0-9\s\-\(\)]`. -/
def phoneChar (c : Char) : Bool :=
  isDigit c || isWhiteSpace c || c == '-' || c == '(' || c == ')'

/-- The pattern `/[\+]?[0-9\s\-\(\)]{10,}/g`. -/
def phoneRegex : Regex :=
  .seq (.rep (lit '+') 0 (some 1) true) (.rep phoneChar 10 none true)

def extractPersonalInfo (text : Str) : PersonalInfo :=
  let emails := matchAll emailRegex text 0
  let phones := matchAll phoneRegex text 0
  let lines := (splitLines text).filter (fun line => !(trim line).isEmpty)
  let name := orElse (lines.head?.map trim) notFound
  { name := name
    email := orElse emails.head? notFound
    phone := orElse phones.head? notFound
    rawPersonalSection := join ['\n'] (lines.take 5) }

/-! ## extractTechnicalSkills -/

/-- The array `skillsKeywords`. -/
def skillsKeywords : List Str :=
  ["JavaScript", "TypeScript", "Python", "Java", "C++", "C#", "Go", "Rust",
   "React", "Vue", "Angular", "Node.js", "Express", "Django", "Flask",
   "Docker", "Kubernetes", "AWS", "Azure", "GCP", "Git", "Linux",
   "MySQL", "PostgreSQL", "MongoDB", "Redis", "GraphQL", "REST API"].map String.toList

/-- The group `(compétences|skills|technologies|techniques?)` under the `i`
flag. -/
def sectionHeader : Regex :=
  .alt (wordI "compétences".toList)
    (.alt (wordI "skills".toList)
      (.alt (wordI "technologies".toList)
        (.seq (wordI "technique".toList) (.rep (litI 's') 0 (some 1) true))))

/-- The part `[:\s]*` of the section pattern. -/
def sectionSep : Regex :=
  .rep (fun c => c == ':' || isWhiteSpace c) 0 none true

/-- The group `(.*?)` under the `s` flag: any characters, as few as
possible. -/
def sectionBody : Regex :=
  .rep (fun _ => true) 0 none false

/-- The class `[A-Z]` under the `i` flag: a character whose canonical form is a
capital letter, that is an ASCII letter of either case. -/
def capitalI (c : Char) : Bool :=
  decide (65 ≤ (canonicalize c).toNat) && decide ((canonicalize c).toNat ≤ 90)

/-- The lookahead `(?=\n\n|\n[A-Z]|$)` under the `i` flag (`$` without the
`m` flag is the end of the text). -/
def sectionEnd : Regex :=
  .look (.alt (.seq (.chr (lit '\n')) (.chr (lit '\n')))
    (.alt (.seq (.chr (lit '\n')) (.chr capitalI)) .eoi))

/-- One match of
`/(compétences|skills|technologies|techniques?)[:\s]*(.*?)(?=\n\n|\n[A-Z]|$)/gis`
at the front of `s`: the text captured by group 2 and the remainder after the
match, for the first way the pattern matches. -/
def techSectionAt (s : Str) : Option (Str × Str) :=
  ((matchR (.seq sectionHeader sectionSep) s).flatMap (fun s1 =>
    (matchR sectionBody s1).flatMap (fun s2 =>
      (matchR sectionEnd s2).map (fun s3 => (s1.take (s1.length - s2.length), s3))))).head?

/-- The loop `while ((match = techSectionRegex.exec(text)) !== null)
techSections.push(match[2]?.trim())`.  `skip` is the number of characters
between the current position and `lastIndex`.  An empty match would leave
`lastIndex` in place and the loop would never end: that outcome is `none`. -/
def collectSections : Str → Nat → Option (List Str)
  | [], skip =>
    if skip = 0 then
      match techSectionAt [] with
      | some _ => none
      | none => some []
    else some []
  | _ :: cs, skip + 1 => collectSections cs skip
  | c :: cs, 0 =>
    match techSectionAt (c :: cs) with
    | some (cap, e) =>
      let n := (c :: cs).length - e.length
      if n = 0 then none else (collectSections cs (n - 1)).map (fun rest => trim cap :: rest)
    | none => collectSections cs 0

/-- The extractor `extractTechnicalSkills`; `none` stands for a call that does
not return. -/
def extractTechnicalSkills (toLowerCase : Str → Str) (text : Str) : Option TechnicalSkills :=
  let foundSkills := skillsKeywords.filter (fun skill =>
    includes (toLowerCase text) (toLowerCase skill))
  match collectSections text 0 with
  | none => none
  | some techSections =>
    some { identifiedSkills := foundSkills
           technicalSections := techSections
           skillsCount := foundSkills.length }

/-! ## extractExperience -/

/-- The part `\d{4}`. -/
def fourDigits : Regex :=
  .rep isDigit 4 (some 4) true

/-- The part `[\s\-]*`. -/
def yearSep : Regex :=
  .rep (fun c => isWhiteSpace c || c == '-') 0 none true

/-- The pattern
`/(\d{4}[\s\-]*\d{4}|\d{4}[\s\-]*présent|present|\d{4}[\s\-]*aujourd'hui)/gi`:
four alternatives, the third being the bare word `present`. -/
def expRegex : Regex :=
  .alt (.seq fourDigits (.seq yearSep fourDigits))
    (.alt (.seq fourDigits (.seq yearSep (wordI "présent".toList)))
      (.alt (wordI "present".toList)
        (.seq fourDigits (.seq yearSep (wordI "aujourd'hui".toList)))))

/-- The method `calculateExperienceYears`, with the calendar year read from
the clock as a parameter. -/
def calculateExperienceYears (currentYear : Int) (periods : List Str) : Int :=
  periods.foldl (fun totalYears period =>
    match matchAll fourDigits period 0 with
    | [] => totalYears
    | y0 :: rest =>
      let startYear := parseInt y0
      let endYear := match rest.head? with
        | some y1 => parseInt y1
        | none => currentYear
      totalYears + max 0 (endYear - startYear)) 0

def extractExperience (currentYear : Int) (text : Str) : Experience :=
  let experiences := matchAll expRegex text 0
  { experiencePeriods := experiences
    experienceYears := calculateExperienceYears currentYear experiences }

/-! ## extractEducation and extractProjects -/

/-- The array `educationKeywords`. -/
def educationKeywords : List Str :=
  ["université", "école", "master", "licence", "bac", "diplôme",
   "university", "college", "degree", "bachelor", "formation"].map String.toList

def extractEducation (toLowerCase : Str → Str) (text : Str) : Education :=
  let foundEducation := educationKeywords.any (fun keyword =>
    includes (toLowerCase text) keyword)
  { hasEducationSection := foundEducation
    educationMentioned := educationKeywords.filter (fun keyword =>
      includes (toLowerCase text) keyword) }

/-- The array `projectKeywords`. -/
def projectKeywords : List Str :=
  ["projet", "project", "réalisation", "développement"].map String.toList

def extractProjects (toLowerCase : Str → Str) (text : Str) : Projects :=
  let hasProjects := projectKeywords.any (fun keyword =>
    includes (toLowerCase text) keyword)
  { hasProjectsSection := hasProjects
    projectKeywordsFound := projectKeywords.filter (fun keyword =>
      includes (toLowerCase text) keyword) }

/-! ## The profile cache: extractCVData -/

/-- The contents of a file. -/
abbrev Buffer := List Nat

/-- What the environment answers during one call of `extractCVData`: the
outcome of `fs.readFile(this.cvPath)` (`none` when it rejects), the outcome of
`pdfParse` on a buffer (`none` when it rejects), and the two readings of the
clock, `new Date().toISOString()` and `new Date().getFullYear()`. -/
structure World where
  readFile : Option Buffer
  pdfParse : Buffer → Option Str
  isoNow : Str
  currentYear : Int

/-- The server object: the field `cvData` (`none` for `null`), and two
counters that record how many times the file was read and how many times a
buffer was handed to the PDF decoder. -/
structure Server where
  cvData : Option CVData
  fileReads : Nat
  pdfDecodes : Nat
  deriving DecidableEq

/-- The profile installed by the `catch` branch of `extractCVData`. -/
def fallbackProfile (isoNow : Str) : CVData :=
  { rawText := "CV non disponible - Erreur de lecture".toList
    extractedAt := isoNow
    personalInfo :=
      { name := "Non disponible".toList
        email := "Non disponible".toList
        phone := "Non disponible".toList
        rawPersonalSection := "Erreur de lecture du CV".toList }
    technicalSkills := { identifiedSkills := [], technicalSections := [], skillsCount := 0 }
    experience := { experiencePeriods := [], experienceYears := 0 }
    education := { hasEducationSection := false, educationMentioned := [] }
    projects := { hasProjectsSection := false, projectKeywordsFound := [] } }

/-- The method `extractCVData` of `src/src/index.js`, as a transition of the
server; `none` stands for a call that does not return. -/
def extractCVData (toLowerCase : Str → Str) (w : World) (st : Server) : Option Server :=
  match st.cvData with
  | some _ => some st
  | none =>
    match w.readFile with
    | none =>
      some { cvData := some (fallbackProfile w.isoNow)
             fileReads := st.fileReads + 1
             pdfDecodes := st.pdfDecodes }
    | some pdfBuffer =>
      match w.pdfParse pdfBuffer with
      | none =>
        some { cvData := some (fallbackProfile w.isoNow)
               fileReads := st.fileReads + 1
               pdfDecodes := st.pdfDecodes + 1 }
      | some text =>
        match extractTechnicalSkills toLowerCase text with
        | none => none
        | some technicalSkills =>
          some { cvData := some
                   { rawText := text
                     extractedAt := w.isoNow
                     personalInfo := extractPersonalInfo text
                     technicalSkills := technicalSkills
                     experience := extractExperience w.currentYear text
                     education := extractEducation toLowerCase text
                     projects := extractProjects toLowerCase text }
                 fileReads := st.fileReads + 1
                 pdfDecodes := st.pdfDecodes + 1 }

/-- A sequence of calls of `extractCVData`, one per element of `ws`. -/
def extractCVDataCalls (toLowerCase : Str → Str) : List World → Server → Option Server
  | [], st => some st
  | w :: ws, st =>
    match extractCVData toLowerCase w st with
    | none => none
    | some st1 => extractCVDataCalls toLowerCase ws st1

/-! ## JSON.stringify with an indentation of two spaces -/

/-- The escape of one character inside a JSON string (`QuoteJSONString`): the
short escapes, `\u00XX` for the other control characters, and the character
itself otherwise. -/
def quoteJSONChar (c : Char) : Str :=
  if c = '"' then ['\\', '"']
  else if c = '\\' then ['\\', '\\']
  else if c.toNat = 8 then ['\\', 'b']
  else if c.toNat = 12 then ['\\', 'f']
  else if c = '\n' then ['\\', 'n']
  else if c = '\r' then ['\\', 'r']
  else if c = '\t' then ['\\', 't']
  else if c.toNat < 32 then
    ['\\', 'u', '0', '0', Nat.digitChar (c.toNat / 16), Nat.digitChar (c.toNat % 16)]
  else [c]

/-- The serialization of a string: its characters escaped, between double
quotes. -/
def quoteJSONString (s : Str) : Str :=
  '"' :: (s.flatMap quoteJSONChar ++ ['"'])

/-- The serialization of an array whose elements are already serialized, at
the indentation `indent`, with a gap of two spaces. -/
def jsonArray (indent : Str) (items : List Str) : Str :=
  match items with
  | [] => "[]".toList
  | _ :: _ =>
    "[\n".toList ++ indent ++ "  ".toList ++
      join (",\n".toList ++ indent ++ "  ".toList) items ++ "\n".toList ++ indent ++ "]".toList

/-- The serialization of an object whose property values are already
serialized, at the indentation `indent`, with a gap of two spaces. -/
def jsonObject (indent : Str) (members : List (Str × Str)) : Str :=
  match members with
  | [] => "\x7b\x7d".toList
  | _ :: _ =>
    "\x7b\n".toList ++ indent ++ "  ".toList ++
      join (",\n".toList ++ indent ++ "  ".toList)
        (members.map (fun kv => quoteJSONString kv.1 ++ ": ".toList ++ kv.2)) ++
      "\n".toList ++ indent ++ "\x7d".toList

/-- The serialization of a boolean. -/
def jsonBool (b : Bool) : Str :=
  if b then "true".toList else "false".toList

/-- The serialization of an array of strings nested one level below
`indent`. -/
def jsonStrings (indent : Str) (xs : List Str) : Str :=
  jsonArray (indent ++ "  ".toList) (xs.map quoteJSONString)

def personalInfoJSON (indent : Str) (p : PersonalInfo) : Str :=
  jsonObject indent
    [("name".toList, quoteJSONString p.name),
     ("email".toList, quoteJSONString p.email),
     ("phone".toList, quoteJSONString p.phone),
     ("rawPersonalSection".toList, quoteJSONString p.rawPersonalSection)]

def technicalSkillsJSON (indent : Str) (t : TechnicalSkills) : Str :=
  jsonObject indent
    [("identifiedSkills".toList, jsonStrings indent t.identifiedSkills),
     ("technicalSections".toList, jsonStrings indent t.technicalSections),
     ("skillsCount".toList, (toString t.skillsCount).toList)]

def experienceJSON (indent : Str) (e : Experience) : Str :=
  jsonObject indent
    [("experiencePeriods".toList, jsonStrings indent e.experiencePeriods),
     ("experienceYears".toList, (toString e.experienceYears).toList)]

def educationJSON (indent : Str) (e : Education) : Str :=
  jsonObject indent
    [("hasEducationSection".toList, jsonBool e.hasEducationSection),
     ("educationMentioned".toList, jsonStrings indent e.educationMentioned)]

def projectsJSON (indent : Str) (p : Projects) : Str :=
  jsonObject indent
    [("hasProjectsSection".toList, jsonBool p.hasProjectsSection),
     ("projectKeywordsFound".toList, jsonStrings indent p.projectKeywordsFound)]

/-- The call `JSON.stringify(this.cvData, null, 2)` on a profile. -/
def cvDataJSON (cv : CVData) : Str :=
  jsonObject []
    [("rawText".toList, quoteJSONString cv.rawText),
     ("extractedAt".toList, quoteJSONString cv.extractedAt),
     ("personalInfo".toList, personalInfoJSON "  ".toList cv.personalInfo),
     ("technicalSkills".toList, technicalSkillsJSON "  ".toList cv.technicalSkills),
     ("experience".toList, experienceJSON "  ".toList cv.experience),
     ("education".toList, educationJSON "  ".toList cv.education),
     ("projects".toList, projectsJSON "  ".toList cv.projects)]

/-! ## JSON.parse -/

/-- The values `JSON.parse` builds.  A number is kept by its text. -/
inductive Json where
  | null
  | bool (b : Bool)
  | num (text : Str)
  | str (s : Str)
  | arr (items : List Json)
  | obj (members : List (Str × Json))

/-- The white space of the JSON grammar. -/
def jsonWs (c : Char) : Bool :=
  c == ' ' || c == '\t' || c == '\n' || c == '\r'

/-- The input without its leading white space. -/
def skipWs (s : Str) : Str :=
  s.dropWhile jsonWs

/-- The value of a hexadecimal digit. -/
def hexVal (c : Char) : Option Nat :=
  if 48 ≤ c.toNat ∧ c.toNat ≤ 57 then some (c.toNat - 48)
  else if 97 ≤ c.toNat ∧ c.toNat ≤ 102 then some (c.toNat - 87)
  else if 65 ≤ c.toNat ∧ c.toNat ≤ 70 then some (c.toNat - 55)
  else none

/-- The character of the escape `\uXXXX`.  An escape of a surrogate code unit,
which a `Str` cannot hold, is rejected. -/
def unicodeEscape (h1 h2 h3 h4 : Char) : Option Char :=
  match hexVal h1, hexVal h2, hexVal h3, hexVal h4 with
  | some a, some b, some c, some d =>
    let v := ((a * 16 + b) * 16 + c) * 16 + d
    if 0xD800 ≤ v ∧ v ≤ 0xDFFF then none else some (Char.ofNat v)
  | _, _, _, _ => none

/-- The character of a short escape `\c`. -/
def shortEscape (c : Char) : Option Char :=
  if c = '"' then some '"'
  else if c = '\\' then some '\\'
  else if c = '/' then some '/'
  else if c = 'b' then some (Char.ofNat 8)
  else if c = 'f' then some (Char.ofNat 12)
  else if c = 'n' then some '\n'
  else if c = 'r' then some '\r'
  else if c = 't' then some '\t'
  else none

/-- A JSON string read from just after its opening quote: its value and the
input after the closing quote.  A raw control character is an error. -/
def parseString : Str → Option (Str × Str)
  | [] => none
  | c :: rest =>
    if c = '"' then some ([], rest)
    else if c = '\\' then
      match rest with
      | [] => none
      | e :: rest2 =>
        if e = 'u' then
          match rest2 with
          | h1 :: h2 :: h3 :: h4 :: rest3 =>
            match unicodeEscape h1 h2 h3 h4 with
            | none => none
            | some x => (parseString rest3).map (fun q => (x :: q.1, q.2))
          | _ => none
        else
          match shortEscape e with
          | none => none
          | some x => (parseString rest2).map (fun q => (x :: q.1, q.2))
    else if c.toNat < 32 then none
    else (parseString rest).map (fun q => (c :: q.1, q.2))

/-- A JSON number read at the front of the input: its text and the input after
it.  The integer part has no leading zero; a number with a fraction or an
exponent, which the serialization of a profile never holds, is rejected. -/
def parseNumber (s : Str) : Option (Str × Str) :=
  let sign : Str := if s.head? = some '-' then ['-'] else []
  let s1 := if s.head? = some '-' then s.tail else s
  let ds := s1.takeWhile isDigit
  let rest := s1.dropWhile isDigit
  if ds = [] then none
  else if 1 < ds.length ∧ ds.head? = some '0' then none
  else if rest.head? = some '.' ∨ rest.head? = some 'e' ∨ rest.head? = some 'E' then none
  else some (sign ++ ds, rest)

/-- What the parser is reading: a value, the elements of an array after those
in `acc`, or the members of an object after those in `acc`. -/
inductive Mode where
  | value
  | elems (acc : List Json)
  | members (acc : List (Str × Json))

/-- The recursive-descent parser of JSON texts, with a bound on the number of
nested calls. -/
def parse : Nat → Mode → Str → Option (Json × Str)
  | 0, _, _ => none
  | fuel + 1, .value, s =>
    match skipWs s with
    | [] => none
    | c :: r =>
      if c = '"' then (parseString r).map (fun q => (.str q.1, q.2))
      else if c = '[' then
        match skipWs r with
        | [] => none
        | d :: r2 => if d = ']' then some (.arr [], r2) else parse fuel (.elems []) (d :: r2)
      else if c = '\x7b' then
        match skipWs r with
        | [] => none
        | d :: r2 =>
          if d = '\x7d' then some (.obj [], r2) else parse fuel (.members []) (d :: r2)
      else if startsWith (c :: r) "true".toList then some (.bool true, (c :: r).drop 4)
      else if startsWith (c :: r) "false".toList then some (.bool false, (c :: r).drop 5)
      else if startsWith (c :: r) "null".toList then some (.null, (c :: r).drop 4)
      else (parseNumber (c :: r)).map (fun q => (.num q.1, q.2))
  | fuel + 1, .elems acc, s =>
    match parse fuel .value s with
    | none => none
    | some (v, r) =>
      match skipWs r with
      | [] => none
      | c :: r2 =>
        if c = ',' then parse fuel (.elems (acc ++ [v])) r2
        else if c = ']' then some (.arr (acc ++ [v]), r2)
        else none
  | fuel + 1, .members acc, s =>
    match skipWs s with
    | [] => none
    | c :: r =>
      if c = '"' then
        match parseString r with
        | none => none
        | some (k, r1) =>
          match skipWs r1 with
          | [] => none
          | d :: r2 =>
            if d = ':' then
              match parse fuel .value r2 with
              | none => none
              | some (v, r3) =>
                match skipWs r3 with
                | [] => none
                | e :: r4 =>
                  if e = ',' then parse fuel (.members (acc ++ [(k, v)])) r4
                  else if e = '\x7d' then some (.obj (acc ++ [(k, v)]), r4)
                  else none
            else none
      else none

/-- The function `JSON.parse` on a text: the value of the text, when the text
is one JSON value with nothing but white space around it. -/
def jsonParse (text : Str) : Option Json :=
  match parse (text.length + 1) .value text with
  | none => none
  | some (v, rest) => if skipWs rest = [] then some v else none

/-- The property `key` of a parsed value: of an object, the value of the last
member with that key. -/
def Json.field (key : Str) : Json → Option Json
  | .obj members => members.reverse.lookup key
  | _ => none

/-- The string a parsed value is, if it is one. -/
def Json.asString : Json → Option Str
  | .str s => some s
  | _ => none

/-- The value `JSON.parse` builds from the serialization of a profile. -/
def cvDataTree (cv : CVData) : Json :=
  .obj
    [("rawText".toList, .str cv.rawText),
     ("extractedAt".toList, .str cv.extractedAt),
     ("personalInfo".toList, .obj
        [("name".toList, .str cv.personalInfo.name),
         ("email".toList, .str cv.personalInfo.email),
         ("phone".toList, .str cv.personalInfo.phone),
         ("rawPersonalSection".toList, .str cv.personalInfo.rawPersonalSection)]),
     ("technicalSkills".toList, .obj
        [("identifiedSkills".toList, .arr (cv.technicalSkills.identifiedSkills.map .str)),
         ("technicalSections".toList, .arr (cv.technicalSkills.technicalSections.map .str)),
         ("skillsCount".toList, .num (toString cv.technicalSkills.skillsCount).toList)]),
     ("experience".toList, .obj
        [("experiencePeriods".toList, .arr (cv.experience.experiencePeriods.map .str)),
         ("experienceYears".toList, .num (toString cv.experience.experienceYears).toList)]),
     ("education".toList, .obj
        [("hasEducationSection".toList, .bool cv.education.hasEducationSection),
         ("educationMentioned".toList, .arr (cv.education.educationMentioned.map .str))]),
     ("projects".toList, .obj
        [("hasProjectsSection".toList, .bool cv.projects.hasProjectsSection),
         ("projectKeywordsFound".toList, .arr (cv.projects.projectKeywordsFound.map .str))])]

/-! ## The prompt templates -/

/-- The template of `informations-personnelles`. -/
def personalInfoText (cv : CVData) : Str :=
  "Voici les informations personnelles extraites du CV :\n\n".toList ++
    "**Informations de contact :**\n- Nom : ".toList ++ cv.personalInfo.name ++
    "\n- Email : ".toList ++ cv.personalInfo.email ++ "\n- Téléphone : ".toList ++
    cv.personalInfo.phone ++ "\n\n**Section personnelle du CV :**\n".toList ++
    cv.personalInfo.rawPersonalSection ++ "\n\n".toList ++
    "Peux-tu présenter ces informations de manière claire et professionnelle ?".toList

/-- The template of `competences-techniques`. -/
def skillsText (cv : CVData) : Str :=
  "Voici les compétences techniques identifiées dans le CV :\n\n".toList ++
    "**Technologies identifiées automatiquement :**\n".toList ++
    join ", ".toList cv.technicalSkills.identifiedSkills ++
    "\n\n**Sections techniques extraites :**\n".toList ++
    join "\n\n".toList cv.technicalSkills.technicalSections ++
    "\n\n**Statistiques :**\n- Nombre de technologies identifiées : ".toList ++
    (toString cv.technicalSkills.skillsCount).toList ++ "\n\n".toList ++
    "Peux-tu organiser et présenter ces compétences par catégories (langages, frameworks, outils, etc.) ?".toList

/-- The template of `experience-professionnelle`. -/
def experienceText (cv : CVData) : Str :=
  "Voici l'analyse de l'expérience professionnelle :\n\n".toList ++
    "**Périodes d'expérience détectées :**\n".toList ++
    join "\n".toList cv.experience.experiencePeriods ++
    "\n\n**Années d'expérience calculées :** ".toList ++
    (toString cv.experience.experienceYears).toList ++ " ans\n\n".toList ++
    "Peux-tu analyser et présenter l'évolution de carrière de manière structurée ?".toList

/-- The template of `profil-complet`. -/
def fullProfileText (cv : CVData) : Str :=
  "Voici toutes les données extraites du CV pour générer un profil complet :\n".toList ++
    "\n**INFORMATIONS PERSONNELLES :**\n".toList ++ personalInfoJSON [] cv.personalInfo ++
    "\n\n**COMPÉTENCES TECHNIQUES :**\n".toList ++ technicalSkillsJSON [] cv.technicalSkills ++
    "\n\n**EXPÉRIENCE :**\n".toList ++ experienceJSON [] cv.experience ++
    "\n\n**FORMATION :**\n".toList ++ educationJSON [] cv.education ++ "\n\n".toList ++
    "Peux-tu créer un résumé professionnel complet et attractif basé sur ces données ?".toList

/-- The template of `lettre-motivation`, for the two interpolated values of
the role and the company. -/
def coverLetterText (poste entreprise : Str) (cv : CVData) : Str :=
  "Génère une lettre de motivation personnalisée avec ces informations :\n".toList ++
    "\n**Poste visé :** ".toList ++ poste ++ "\n**Entreprise :** ".toList ++ entreprise ++
    "\n\n**Profil du candidat :**\n- Nom : ".toList ++ cv.personalInfo.name ++
    "\n- Compétences : ".toList ++ join ", ".toList cv.technicalSkills.identifiedSkills ++
    "\n- Expérience : ".toList ++ (toString cv.experience.experienceYears).toList ++
    " ans\n\n".toList ++ "Crée une lettre de motivation convaincante et personnalisée.".toList

/-- The template of `analyse-compatibilite`, for the interpolated value of the
job description. -/
def compatibilityText (offre : Str) (cv : CVData) : Str :=
  "Analyse la compatibilité entre ce profil et cette offre d'emploi :\n".toList ++
    "\n**OFFRE D'EMPLOI :**\n".toList ++ offre ++
    "\n\n**PROFIL CANDIDAT :**\n- Compétences : ".toList ++
    join ", ".toList cv.technicalSkills.identifiedSkills ++ "\n- Expérience : ".toList ++
    (toString cv.experience.experienceYears).toList ++ " ans\n- Formation : ".toList ++
    join ", ".toList cv.education.educationMentioned ++ "\n\n".toList ++
    "Fournis une analyse détaillée de compatibilité avec un score et des recommandations.".toList

/-- The text returned by the `catch` branch of the GetPrompt handler. -/
def promptErrorText (name message : Str) : Str :=
  "Erreur lors du traitement du prompt \"".toList ++ name ++ "\": ".toList ++ message

/-- The text returned by the `catch` branch of the ReadResource handler. -/
def resourceErrorText (message : Str) : Str :=
  "Erreur: ".toList ++ message

/-! ## Requests, results and exceptions -/

/-- The field `request.params.arguments`: absent (`none`) or a record of
strings. -/
abbrev Args := Option (List (Str × Str))

/-- The property `key` of `args || {}`: `none` for `undefined`. -/
def argOf (args : Args) (key : Str) : Option Str :=
  match args with
  | none => none
  | some kvs => kvs.lookup key

/-- A value thrown inside a handler: an `Error` created by the code with its
message, or a `TypeError` raised by the engine on a property read of `null` or
`undefined`, with the message the engine gives it. -/
inductive Thrown where
  | error (message : Str)
  | typeError (message : Str)
  deriving DecidableEq

/-- The property `error.message`. -/
def Thrown.message : Thrown → Str
  | .error m => m
  | .typeError m => m

/-- The `TypeError` of reading property `prop` of `this.cvData` when it is
`null`. -/
def nullRead (prop : String) : Thrown :=
  .typeError ("Cannot read properties of null (reading '".toList ++ prop.toList ++ "')".toList)

/-- One element of `messages`. -/
structure PromptMessage where
  role : Str
  contentType : Str
  text : Str
  deriving DecidableEq

/-- The value returned by the GetPrompt handler. -/
structure GetPromptResult where
  messages : List PromptMessage
  deriving DecidableEq

/-- One element of `contents`. -/
structure ResourceContent where
  uri : Str
  mimeType : Str
  text : Str
  deriving DecidableEq

/-- The value returned by the ReadResource handler. -/
structure ReadResourceResult where
  contents : List ResourceContent
  deriving DecidableEq

/-- One element of the `arguments` of a prompt descriptor. -/
structure PromptArgument where
  name : Str
  description : Str
  required : Bool
  deriving DecidableEq

/-- One element of `prompts`. -/
structure PromptDescriptor where
  name : Str
  description : Str
  arguments : List PromptArgument
  deriving DecidableEq

/-- One element of `resources`. -/
structure ResourceDescriptor where
  uri : Str
  name : Str
  description : Str
  mimeType : Str
  deriving DecidableEq

/-! ## The handlers of `src/src/index.js` -/

/-- The array returned by the ListPrompts handler. -/
def listPrompts : List PromptDescriptor :=
  [{ name := "informations-personnelles".toList
     description := "Retourne les informations personnelles extraites du CV".toList
     arguments := [] },
   { name := "competences-techniques".toList
     description := "Retourne les compétences techniques et technologies maîtrisées".toList
     arguments := [] },
   { name := "experience-professionnelle".toList
     description :=
       "Analyse l'expérience professionnelle et calcule les années d'expérience".toList
     arguments := [] },
   { name := "profil-complet".toList
     description := "Génère un résumé complet du profil professionnel".toList
     arguments := [] },
   { name := "lettre-motivation".toList
     description := "Génère une lettre de motivation personnalisée".toList
     arguments :=
       [{ name := "poste".toList, description := "Le poste visé".toList, required := true },
        { name := "entreprise".toList, description := "Le nom de l'entreprise".toList,
          required := true }] },
   { name := "analyse-compatibilite".toList
     description := "Analyse la compatibilité avec une offre d'emploi".toList
     arguments :=
       [{ name := "offre".toList, description := "Description de l'offre d'emploi".toList,
          required := true }] }]

/-- The array returned by the ListResources handler. -/
def listResources : List ResourceDescriptor :=
  [{ uri := "cv://raw-text".toList
     name := "Texte brut du CV".toList
     description := "Le contenu textuel complet extrait du PDF".toList
     mimeType := "text/plain".toList },
   { uri := "cv://structured-data".toList
     name := "Données structurées du CV".toList
     description := "Les données extraites et organisées du CV".toList
     mimeType := "application/json".toList }]

/-- The statement `if (!this.cvData) await this.extractCVData()` that opens
every handler. -/
def ensureExtracted (toLowerCase : Str → Str) (w : World) (st : Server) : Option Server :=
  match st.cvData with
  | some _ => some st
  | none => extractCVData toLowerCase w st

/-- A template evaluated on `this.cvData`: when `this.cvData` is `null` the
first property read, of `prop`, raises a `TypeError`. -/
def onProfile (cvData : Option CVData) (prop : String) (f : CVData → Str) : Except Thrown Str :=
  match cvData with
  | none => .error (nullRead prop)
  | some cv => .ok (f cv)

/-- The `switch (name)` inside the `try` block of the GetPrompt handler: the
text of the message, or the value thrown. -/
def promptBody (cvData : Option CVData) (name : Str) (args : Args) : Except Thrown Str :=
  if name = "informations-personnelles".toList then
    onProfile cvData "personalInfo" personalInfoText
  else if name = "competences-techniques".toList then
    onProfile cvData "technicalSkills" skillsText
  else if name = "experience-professionnelle".toList then
    onProfile cvData "experience" experienceText
  else if name = "profil-complet".toList then
    onProfile cvData "personalInfo" fullProfileText
  else if name = "lettre-motivation".toList then
    onProfile cvData "personalInfo"
      (coverLetterText (orElse (argOf args "poste".toList) "Non spécifié".toList)
        (orElse (argOf args "entreprise".toList) "Non spécifiée".toList))
  else if name = "analyse-compatibilite".toList then
    onProfile cvData "technicalSkills"
      (compatibilityText (orElse (argOf args "offre".toList) "Aucune offre fournie".toList))
  else .error (.error ("Prompt inconnu: ".toList ++ name))

/-- The result of the GetPrompt handler once the profile is ensured: the
`try` block, and the `catch` branch that turns whatever was thrown into a
message. -/
def getPromptResponse (cvData : Option CVData) (name : Str) (args : Args) :
    Except Thrown GetPromptResult :=
  match promptBody cvData name args with
  | .ok text =>
    .ok { messages := [{ role := "user".toList, contentType := "text".toList, text := text }] }
  | .error e =>
    .ok { messages := [{ role := "user".toList, contentType := "text".toList,
                         text := promptErrorText name e.message }] }

/-- The GetPrompt handler: the new state of the server and what the handler
returns (`.ok`) or throws (`.error`); `none` stands for a call that does not
return. -/
def getPromptHandler (toLowerCase : Str → Str) (w : World) (st : Server) (name : Str)
    (args : Args) : Option (Server × Except Thrown GetPromptResult) :=
  match ensureExtracted toLowerCase w st with
  | none => none
  | some st1 => some (st1, getPromptResponse st1.cvData name args)

/-- The ListPrompts handler. -/
def listPromptsHandler (toLowerCase : Str → Str) (w : World) (st : Server) :
    Option (Server × List PromptDescriptor) :=
  match ensureExtracted toLowerCase w st with
  | none => none
  | some st1 => some (st1, listPrompts)

/-- The ListResources handler. -/
def listResourcesHandler (toLowerCase : Str → Str) (w : World) (st : Server) :
    Option (Server × List ResourceDescriptor) :=
  match ensureExtracted toLowerCase w st with
  | none => none
  | some st1 => some (st1, listResources)

/-- The `switch (uri)` inside the `try` block of the ReadResource handler: the
content item, or the value thrown.  `JSON.stringify(null, null, 2)` is the
string `null`. -/
def resourceBody (cvData : Option CVData) (uri : Str) : Except Thrown ResourceContent :=
  if uri = "cv://raw-text".toList then
    match cvData with
    | none => .error (nullRead "rawText")
    | some cv => .ok { uri := uri, mimeType := "text/plain".toList, text := cv.rawText }
  else if uri = "cv://structured-data".toList then
    .ok { uri := uri, mimeType := "application/json".toList
          text := match cvData with
            | none => "null".toList
            | some cv => cvDataJSON cv }
  else .error (.error ("Ressource inconnue: ".toList ++ uri))

/-- The result of the ReadResource handler once the profile is ensured. -/
def readResourceResponse (cvData : Option CVData) (uri : Str) :
    Except Thrown ReadResourceResult :=
  match resourceBody cvData uri with
  | .ok item => .ok { contents := [item] }
  | .error e =>
    .ok { contents := [{ uri := uri, mimeType := "text/plain".toList,
                         text := resourceErrorText e.message }] }

/-- The ReadResource handler. -/
def readResourceHandler (toLowerCase : Str → Str) (w : World) (st : Server) (uri : Str) :
    Option (Server × Except Thrown ReadResourceResult) :=
  match ensureExtracted toLowerCase w st with
  | none => none
  | some st1 => some (st1, readResourceResponse st1.cvData uri)

/-- The prompt names requested by `runTests` of the client `src/index.js`. -/
def runTestsPrompts : List Str :=
  ["informations-personnelles".toList, "competences-techniques".toList,
   "experience-professionnelle".toList, "lettre-motivation".toList]

/-! ## The standalone server `src/mcp_cv_server.js` -/

namespace Standalone

/-- The method `extractCVData` of `src/mcp_cv_server.js`: it has no guard on
`this.cvData`, and its `catch` branch sets `this.cvData` to `null`. -/
def extractCVData (toLowerCase : Str → Str) (w : World) (st : Server) : Option Server :=
  match w.readFile with
  | none =>
    some { cvData := none, fileReads := st.fileReads + 1, pdfDecodes := st.pdfDecodes }
  | some pdfBuffer =>
    match w.pdfParse pdfBuffer with
    | none =>
      some { cvData := none, fileReads := st.fileReads + 1, pdfDecodes := st.pdfDecodes + 1 }
    | some text =>
      match extractTechnicalSkills toLowerCase text with
      | none => none
      | some technicalSkills =>
        some { cvData := some
                 { rawText := text
                   extractedAt := w.isoNow
                   personalInfo := extractPersonalInfo text
                   technicalSkills := technicalSkills
                   experience := extractExperience w.currentYear text
                   education := extractEducation toLowerCase text
                   projects := extractProjects toLowerCase text }
               fileReads := st.fileReads + 1
               pdfDecodes := st.pdfDecodes + 1 }

/-- The statement `if (!this.cvData) await this.extractCVData()`. -/
def ensureExtracted (toLowerCase : Str → Str) (w : World) (st : Server) : Option Server :=
  match st.cvData with
  | some _ => some st
  | none => extractCVData toLowerCase w st

/-- The interpolation of a value that is a string or `undefined`. -/
def interpolate (x : Option Str) : Str :=
  match x with
  | some s => s
  | none => "undefined".toList

/-- The `TypeError` of `const { ... } = args` when `args` is
`undefined`. -/
def destructureUndefined (prop : String) : Thrown :=
  .typeError ("Cannot destructure property '".toList ++ prop.toList ++
    "' of 'args' as it is undefined.".toList)

/-- The `switch (name)` of the GetPrompt handler of `src/mcp_cv_server.js`:
the text of the message, or the value thrown. -/
def promptBody (cvData : Option CVData) (name : Str) (args : Args) : Except Thrown Str :=
  if name = "informations-personnelles".toList then
    onProfile cvData "personalInfo" personalInfoText
  else if name = "competences-techniques".toList then
    onProfile cvData "technicalSkills" skillsText
  else if name = "experience-professionnelle".toList then
    onProfile cvData "experience" experienceText
  else if name = "profil-complet".toList then
    onProfile cvData "personalInfo" fullProfileText
  else if name = "lettre-motivation".toList then
    match args with
    | none => .error (destructureUndefined "poste")
    | some kvs =>
      onProfile cvData "personalInfo"
        (coverLetterText (interpolate (kvs.lookup "poste".toList))
          (interpolate (kvs.lookup "entreprise".toList)))
  else if name = "analyse-compatibilite".toList then
    match args with
    | none => .error (destructureUndefined "offre")
    | some kvs =>
      onProfile cvData "technicalSkills"
        (compatibilityText (interpolate (kvs.lookup "offre".toList)))
  else .error (.error ("Prompt inconnu: ".toList ++ name))

/-- The GetPrompt handler of `src/mcp_cv_server.js`; it has no `try`, so what
the `switch` throws leaves the handler. -/
def getPromptHandler (toLowerCase : Str → Str) (w : World) (st : Server) (name : Str)
    (args : Args) : Option (Server × Except Thrown GetPromptResult) :=
  match ensureExtracted toLowerCase w st with
  | none => none
  | some st1 =>
    some (st1,
      match promptBody st1.cvData name args with
      | .ok text =>
        .ok { messages :=
          [{ role := "user".toList, contentType := "text".toList, text := text }] }
      | .error e => .error e)

/-- The ReadResource handler of `src/mcp_cv_server.js`; its `switch` is that
of `src/src/index.js`, without the `try`. -/
def readResourceHandler (toLowerCase : Str → Str) (w : World) (st : Server) (uri : Str) :
    Option (Server × Except Thrown ReadResourceResult) :=
  match ensureExtracted toLowerCase w st with
  | none => none
  | some st1 =>
    some (st1,
      match resourceBody st1.cvData uri with
      | .ok item => .ok { contents := [item] }
      | .error e => .error e)

end Standalone

/-! ## Requests that overlap in time -/

/-- Where a call of `extractCVData` of `src/src/index.js` is suspended: at
`await fs.readFile(...)`, or at `await pdfParse(pdfBuffer)` with the buffer it
read. -/
inductive Phase where
  | reading
  | decoding (pdfBuffer : Buffer)
  deriving DecidableEq

/-- What can happen next on the event loop: a request arrives and its handler
runs up to its first `await`; the file read of a suspended call settles; the
decoding of a suspended call settles.  The `World` of a settling event gives
the outcome and the clock at that moment. -/
inductive Event where
  | request (id : Nat)
  | readSettles (id : Nat) (w : World)
  | parseSettles (id : Nat) (w : World)

/-- The server, the calls of `extractCVData` that are suspended, and for each
request already answered the profile its handler read from `this.cvData`. -/
structure System where
  server : Server
  inFlight : List (Nat × Phase)
  served : List (Nat × CVData)

/-- The end of a call of `extractCVData` that stores `cv`: the call leaves the
suspended ones, and the handler that awaited it resumes and reads
`this.cvData`. -/
def System.finish (sys : System) (id : Nat) (cv : CVData) : System :=
  { server := { sys.server with cvData := some cv }
    inFlight := sys.inFlight.filter (fun q => q.1 != id)
    served := sys.served ++ [(id, cv)] }

/-- One turn of the event loop for a prompt or resource request handled by
`src/src/index.js`.  An event for a call that is not suspended in the matching
phase changes nothing; `none` stands for a turn that does not return. -/
def step (toLowerCase : Str → Str) (sys : System) : Event → Option System
  | .request id =>
    match sys.server.cvData with
    | some cv => some { sys with served := sys.served ++ [(id, cv)] }
    | none =>
      some { sys with
        server := { sys.server with fileReads := sys.server.fileReads + 1 }
        inFlight := sys.inFlight ++ [(id, .reading)] }
  | .readSettles id w =>
    match sys.inFlight.lookup id with
    | some .reading =>
      match w.readFile with
      | none => some (sys.finish id (fallbackProfile w.isoNow))
      | some pdfBuffer =>
        some { sys with
          server := { sys.server with pdfDecodes := sys.server.pdfDecodes + 1 }
          inFlight := sys.inFlight.map (fun q =>
            if q.1 = id then (id, .decoding pdfBuffer) else q) }
    | _ => some sys
  | .parseSettles id w =>
    match sys.inFlight.lookup id with
    | some (.decoding pdfBuffer) =>
      match w.pdfParse pdfBuffer with
      | none => some (sys.finish id (fallbackProfile w.isoNow))
      | some text =>
        match extractTechnicalSkills toLowerCase text with
        | none => none
        | some technicalSkills =>
          some (sys.finish id
            { rawText := text
              extractedAt := w.isoNow
              personalInfo := extractPersonalInfo text
              technicalSkills := technicalSkills
              experience := extractExperience w.currentYear text
              education := extractEducation toLowerCase text
              projects := extractProjects toLowerCase text })
    | _ => some sys

/-- A sequence of turns of the event loop. -/
def run (toLowerCase : Str → Str) : List Event → System → Option System
  | [], sys => some sys
  | e :: es, sys =>
    match step toLowerCase sys e with
    | none => none
    | some sys1 => run toLowerCase es sys1

/-! ## The setup script `src/setup_script.js` -/

/-- What the setup script takes from its platform: the directory `__dirname`
of the script, `path.join` on a directory and a file name, `JSON.parse`
(`none` when it throws) and `JSON.stringify(value, null, 2)`. -/
structure SetupEnv where
  dirname : Str
  pathJoin : Str → Str → Str
  jsonParse : Str → Option Json
  jsonStringify : Json → Str

/-- The method `generateMCPConfig`: the properties of the object it returns,
the one entry `mcp-cv-server`. -/
def generateMCPConfig (env : SetupEnv) : List (Str × Json) :=
  let projectPath := env.dirname
  let cvPath := env.pathJoin projectPath "cv.pdf".toList
  let serverPath := env.pathJoin projectPath "index.js".toList
  [("mcp-cv-server".toList, .obj
      [("command".toList, .str "node".toList),
       ("args".toList, .arr [.str serverPath]),
       ("env".toList, .obj [("CV_PDF_PATH".toList, .str cvPath)])])]

/-- The method `readExistingConfig`, on the content of the configuration file
(`none` when the file cannot be read): the parsed content, or the empty object
when reading or parsing fails. -/
def readExistingConfig (env : SetupEnv) (file : Option Str) : Json :=
  match file with
  | none => .obj []
  | some content =>
    match env.jsonParse content with
    | none => .obj []
    | some config => config

/-- Whether the text of a JSON number denotes a number that is `0` as a
double: its digits are all zero, or its value `m * 10^e` is at most `2^-1075`
and rounds to zero. -/
def numberIsZero (text : Str) : Bool :=
  let unsigned := if text.head? = some '-' then text.tail else text
  let intPart := unsigned.takeWhile isDigit
  let afterInt := unsigned.dropWhile isDigit
  let fraction := if afterInt.head? = some '.' then afterInt.tail.takeWhile isDigit else []
  let afterFraction :=
    if afterInt.head? = some '.' then afterInt.tail.dropWhile isDigit else afterInt
  let exponent : Int :=
    match afterFraction with
    | [] => 0
    | _ :: '-' :: ds => - parseInt ds
    | _ :: '+' :: ds => parseInt ds
    | _ :: ds => parseInt ds
  let mantissa := (parseInt (intPart ++ fraction)).toNat
  let scale := exponent - fraction.length
  decide (mantissa = 0) ||
    (decide (scale < 0) && decide (mantissa * 2 ^ 1075 ≤ 10 ^ (-scale).toNat))

/-- The conversion of a value to a boolean, as the operator `!` applies it:
`null`, `false`, zero and the empty string are falsy. -/
def toBoolean : Json → Bool
  | .null => false
  | .bool b => b
  | .num text => !numberIsZero text
  | .str s => !s.isEmpty
  | .arr _ => true
  | .obj _ => true

/-- The assignment of a property of an object, on the list of its properties
in property order: the value is replaced where the key is, or the property is
added after the others. -/
def setProperty (members : List (Str × Json)) (key : Str) (value : Json) : List (Str × Json) :=
  match members with
  | [] => [(key, value)]
  | (k, v) :: rest =>
    if k = key then (key, value) :: rest else (k, v) :: setProperty rest key value

/-- The elements of an array or the characters of a string with their indices
as keys, from index `i` on. -/
def indexed (i : Nat) : List Json → List (Str × Json)
  | [] => []
  | x :: xs => ((toString i).toList, x) :: indexed (i + 1) xs

/-- The own enumerable properties that a spread `...value` copies: the
properties of an object, the elements of an array and the characters of a
string under their indices, none for the other values. -/
def ownProperties : Json → List (Str × Json)
  | .obj members => members
  | .arr items => indexed 0 items
  | .str s => indexed 0 (s.map (fun c => .str [c]))
  | _ => []

/-- One spread `...source` inside an object literal whose properties so far
are `target`: each property of the source is set in turn. -/
def objectSpread (target source : List (Str × Json)) : List (Str × Json) :=
  source.foldl (fun acc kv => setProperty acc kv.1 kv.2) target

/-- The statements of `updateClaudeConfig` between the read of the existing
configuration and the write, on the value read: the value that is serialized
afterwards, or `none` when the engine raises a `TypeError` (the read of
`mcpServers` on `null`, or, the body of a class being strict code, the
assignment of `mcpServers` on a boolean, a number or a string).  On an array
the assignments add a named property, which the serialization of an array
leaves out. -/
def updatedConfig (env : SetupEnv) (existingConfig : Json) : Option Json :=
  match existingConfig with
  | .null => none
  | .bool _ => none
  | .num _ => none
  | .str _ => none
  | .arr items => some (.arr items)
  | .obj members =>
    let withServers :=
      match (Json.obj members).field "mcpServers".toList with
      | none => setProperty members "mcpServers".toList (.obj [])
      | some servers =>
        if toBoolean servers then members
        else setProperty members "mcpServers".toList (.obj [])
    let mcpConfig := generateMCPConfig env
    let merged :=
      match (Json.obj withServers).field "mcpServers".toList with
      | none => objectSpread [] mcpConfig
      | some servers => objectSpread (objectSpread [] (ownProperties servers)) mcpConfig
    some (.obj (setProperty withServers "mcpServers".toList (.obj merged)))

/-- What a call of `updateClaudeConfig` ends in: the text it hands to
`fs.writeFile` for the configuration file, or a `TypeError` raised before
anything is written. -/
inductive Outcome where
  | written (text : Str)
  | typeError
  deriving DecidableEq

/-- The method `updateClaudeConfig`, on the content of the configuration file
(`none` when the file cannot be read); creating the directory and writing the
file are taken to succeed. -/
def updateClaudeConfig (env : SetupEnv) (file : Option Str) : Outcome :=
  let existingConfig := readExistingConfig env file
  match updatedConfig env existingConfig with
  | none => .typeError
  | some config => .written (env.jsonStringify config)

mutual
/-- The serialization `JSON.stringify(value, null, 2)` of a value at the
indentation `indent`, for values whose numbers are written in the form in
which they are printed. -/
def Json.stringify (indent : Str) : Json → Str
  | .null => "null".toList
  | .bool b => jsonBool b
  | .num text => text
  | .str s => quoteJSONString s
  | .arr items => jsonArray indent (Json.stringifyItems (indent ++ "  ".toList) items)
  | .obj members => jsonObject indent (Json.stringifyMembers (indent ++ "  ".toList) members)
/-- The serializations of the elements of an array. -/
def Json.stringifyItems (indent : Str) : List Json → List Str
  | [] => []
  | x :: xs => Json.stringify indent x :: Json.stringifyItems indent xs
/-- The serializations of the property values of an object. -/
def Json.stringifyMembers (indent : Str) : List (Str × Json) → List (Str × Str)
  | [] => []
  | (k, v) :: ms => (k, Json.stringify indent v) :: Json.stringifyMembers indent ms
end

/-- The platform of the examples: the script lies in `/opt/cv`, paths are
joined with `/`, and the JSON functions are the ones above. -/
def exampleEnv : SetupEnv :=
  { dirname := "/opt/cv".toList
    pathJoin := fun dir file => dir ++ '/' :: file
    jsonParse := jsonParse
    jsonStringify := Json.stringify [] }

/-! ## Auxiliary definitions for the statements -/

/-- The least number of characters a match of the pattern consumes. -/
def minLen : Regex → Nat
  | .chr _ => 1
  | .rep _ min _ _ => min
  | .seq a b => minLen a + minLen b
  | .alt a b => Nat.min (minLen a) (minLen b)
  | .look _ => 0
  | .eoi => 0
  | .eps => 0

/-- The token `a-b` of a year range. -/
def rangeToken (p : Nat × Nat) : Str :=
  (toString p.1).toList ++ '-' :: (toString p.2).toList

/-- The text `a1-b1 a2-b2 ... ak-bk`. -/
def rangeText (ps : List (Nat × Nat)) : Str :=
  join [' '] (ps.map rangeToken)

/-- The text the phone pattern matches at the front of `s`, if it matches
there: a `+` followed by the longest run of phone characters when that run has
at least 10 characters, or that run alone when `s` does not start with `+`. -/
def phoneAt : Str → Option Str
  | [] => none
  | c :: cs =>
    if c = '+' then
      (if 10 ≤ (cs.takeWhile phoneChar).length then some (c :: cs.takeWhile phoneChar)
       else none)
    else if 10 ≤ ((c :: cs).takeWhile phoneChar).length then
      some ((c :: cs).takeWhile phoneChar)
    else none

/-- The text matched at the leftmost position where the phone pattern
matches. -/
def firstPhone : Str → Option Str
  | [] => none
  | c :: cs =>
    match phoneAt (c :: cs) with
    | some m => some m
    | none => firstPhone cs

/-- The class of characters that claim C19 names: a digit, a space, `+`, `-`,
`(` or `)`. -/
def claimedPhoneChar (c : Char) : Bool :=
  isDigit c || c == ' ' || c == '+' || c == '-' || c == '(' || c == ')'

/-- A re-casing of a text: the function `String.prototype.toUpperCase`
restricted to texts whose characters lie in U+0000..U+00FF, where `a`..`z` and
the Latin-1 small letters `à`..`þ` (but not `÷`) go to the letter 32 code
points before, `ß` goes to `SS`, `µ` to U+039C and `ÿ` to U+0178. -/
def toUpperCaseLatin1 (s : Str) : Str :=
  s.flatMap (fun c =>
    if c.toNat = 0xDF then ['S', 'S']
    else if c.toNat = 0xB5 then [Char.ofNat 0x39C]
    else if c.toNat = 0xFF then [Char.ofNat 0x178]
    else if (97 ≤ c.toNat ∧ c.toNat ≤ 122) ∨ (0xE0 ≤ c.toNat ∧ c.toNat ≤ 0xFE ∧ c.toNat ≠ 0xF7)
      then [Char.ofNat (c.toNat - 32)]
    else [c])

/-- The letters `A`..`Z` and `a`..`z`. -/
def isASCIILetter (c : Char) : Bool :=
  (decide (65 ≤ c.toNat) && decide (c.toNat ≤ 90))
    || (decide (97 ≤ c.toNat) && decide (c.toNat ≤ 122))

/-- The two characters are equal, or they are the capital and the small form
of one ASCII letter. -/
def sameASCIILetter (a b : Char) : Bool :=
  a == b ||
    (isASCIILetter a && isASCIILetter b &&
      (a.toNat + 32 == b.toNat || b.toNat + 32 == a.toNat))

/-- The text `t2` is `t` with the case of some of its ASCII letters
changed. -/
def recasedASCII : Str → Str → Bool
  | [], [] => true
  | a :: t, b :: t2 => sameASCIILetter a b && recasedASCII t t2
  | _, _ => false

/-- An environment for the examples: the file is there and decodes to the
four lines of Jane Doe. -/
def exampleWorld : World :=
  { readFile := some [37, 80, 68, 70]
    pdfParse := fun _ => some "Jane Doe\njane@x.com\nGo:2018-2022.\nuniversity".toList
    isoNow := "2026-01-01T00:00:00.000Z".toList
    currentYear := 2026 }

/-- The profile extracted in that environment: Jane Doe, with the skill `Go`,
one period of 4 years and a university. -/
def exampleProfile : CVData :=
  { rawText := "Jane Doe\njane@x.com\nGo:2018-2022.\nuniversity".toList
    extractedAt := "2026-01-01T00:00:00.000Z".toList
    personalInfo :=
      { name := "Jane Doe".toList
        email := "jane@x.com".toList
        phone := "Non trouvé".toList
        rawPersonalSection := "Jane Doe\njane@x.com\nGo:2018-2022.\nuniversity".toList }
    technicalSkills :=
      { identifiedSkills := ["Go".toList], technicalSections := [], skillsCount := 1 }
    experience := { experiencePeriods := ["2018-2022".toList], experienceYears := 4 }
    education :=
      { hasEducationSection := true, educationMentioned := ["university".toList] }
    projects := { hasProjectsSection := false, projectKeywordsFound := [] } }

/-- The text `text` is read by the parser as the value `tree`: with any white
space before it and any remainder after it that starts with a comma or a
newline (or is empty), and with a bound of at least the length of the text. -/
def ReadsAs (text : Str) (tree : Json) : Prop :=
  ∀ (fuel : Nat) (ws rest : Str), text.length ≤ fuel → (∀ c ∈ ws, jsonWs c = true) →
    (∀ c, rest.head? = some c → c = ',' ∨ c = '\n') →
    parse fuel .value (ws ++ text ++ rest) = some (tree, rest)

/-- The content of a configuration file with a theme, another server, an
older entry `mcp-cv-server` and a number. -/
def exampleConfigText : Str :=
  "\x7b\"theme\":\"dark\",\"mcpServers\":\x7b\"other\":\x7b\"command\":\"x\"\x7d,\"mcp-cv-server\":\x7b\"command\":\"old\"\x7d\x7d,\"n\":3\x7d".toList

/-- The properties of the object that this content denotes. -/
def exampleConfig : List (Str × Json) :=
  [("theme".toList, .str "dark".toList),
   ("mcpServers".toList, .obj
     [("other".toList, .obj [("command".toList, .str "x".toList)]),
      ("mcp-cv-server".toList, .obj [("command".toList, .str "old".toList)])]),
   ("n".toList, .num "3".toList)]

/-- The properties of that object once updated on the example platform. -/
def exampleUpdated : List (Str × Json) :=
  [("theme".toList, .str "dark".toList),
   ("mcpServers".toList, .obj
     [("other".toList, .obj [("command".toList, .str "x".toList)]),
      ("mcp-cv-server".toList, .obj
        [("command".toList, .str "node".toList),
         ("args".toList, .arr [.str "/opt/cv/index.js".toList]),
         ("env".toList, .obj [("CV_PDF_PATH".toList, .str "/opt/cv/cv.pdf".toList)])])]),
   ("n".toList, .num "3".toList)]

/-! ## Lemmas on the matcher -/

theorem classRuns_drop_length (p : Char → Bool) :
    ∀ (s : Str) (max : Option Nat) (n : Nat) (e : Str),
      e ∈ (classRuns p s max).drop n → e.length + n ≤ s.length := by
  intro s
  induction s with
  | nil =>
    intro max n e h
    cases n with
    | zero => simp [classRuns] at h; simp [h]
    | succ n => simp [classRuns] at h
  | cons c cs ih =>
    intro max n e h
    cases n with
    | zero =>
      have h1 : e ∈ classRuns p (c :: cs) max := by simpa using h
      simp only [classRuns, List.mem_cons] at h1
      rcases h1 with h1 | h1
      · simp [h1]
      · split at h1
        · have := ih (max.map (· - 1)) 0 e (by simpa using h1)
          simp at this ⊢
          omega
        · simp at h1
    | succ n =>
      simp only [classRuns, List.drop_succ_cons] at h
      split at h
      · have := ih (max.map (· - 1)) n e h
        simp
        omega
      · simp at h

theorem matchR_length :
    ∀ (r : Regex) (s e : Str), e ∈ matchR r s → e.length + minLen r ≤ s.length := by
  intro r
  induction r with
  | chr p =>
    intro s e h
    cases s with
    | nil => simp [matchR] at h
    | cons c cs =>
      simp only [matchR] at h
      split at h
      · simp at h; simp [h, minLen]
      · simp at h
  | rep p min max greedy =>
    intro s e h
    simp only [matchR] at h
    have h1 : e ∈ (classRuns p s max).drop min := by
      cases greedy <;> simpa using h
    simpa [minLen] using classRuns_drop_length p s max min e h1
  | seq a b iha ihb =>
    intro s e h
    simp only [matchR, List.mem_flatMap] at h
    obtain ⟨s1, h1, h2⟩ := h
    have := iha s s1 h1
    have := ihb s1 e h2
    simp only [minLen]
    omega
  | alt a b iha ihb =>
    intro s e h
    simp only [matchR, List.mem_append] at h
    have hmin1 : Nat.min (minLen a) (minLen b) ≤ minLen a := Nat.min_le_left _ _
    have hmin2 : Nat.min (minLen a) (minLen b) ≤ minLen b := Nat.min_le_right _ _
    simp only [minLen]
    rcases h with h | h
    · have := iha s e h; omega
    · have := ihb s e h; omega
  | look a _ =>
    intro s e h
    simp only [matchR] at h
    split at h
    · simp at h
    · simp at h; simp [h, minLen]
  | eoi =>
    intro s e h
    simp only [matchR] at h
    split at h
    · simp at h; simp [h, minLen]
    · simp at h
  | eps =>
    intro s e h
    simp [matchR] at h
    simp [h, minLen]

theorem matchAll_length (r : Regex) :
    ∀ (s : Str) (skip : Nat) (m : Str), m ∈ matchAll r s skip → minLen r ≤ m.length := by
  intro s
  induction s with
  | nil =>
    intro skip m h
    simp only [matchAll] at h
    split at h
    · split at h
      · simp at h
      · rename_i hne
        simp at h
        subst h
        obtain ⟨e, he⟩ := List.exists_mem_of_ne_nil _ (by simpa using hne)
        have := matchR_length r [] e he
        simp at this ⊢
        omega
    · simp at h
  | cons c cs ih =>
    intro skip m h
    cases skip with
    | succ k => exact ih k m (by simpa [matchAll] using h)
    | zero =>
      simp only [matchAll] at h
      split at h
      · rename_i e he
        have hmem : e ∈ matchR r (c :: cs) := List.mem_of_mem_head? he
        have hl := matchR_length r (c :: cs) e hmem
        simp only [List.mem_cons] at h
        rcases h with h | h
        · subst h
          simp only [List.length_take]
          omega
        · exact ih _ m h
      · exact ih 0 m h

/-! ## The section loop returns -/

theorem minLen_header_sep : minLen (.seq sectionHeader sectionSep) = 6 := by
  decide

theorem techSectionAt_shorter (s cap e : Str) (h : techSectionAt s = some (cap, e)) :
    e.length + 6 ≤ s.length := by
  unfold techSectionAt at h
  have hmem := List.mem_of_mem_head? h
  simp only [List.mem_flatMap, List.mem_map] at hmem
  obtain ⟨s1, h1, s2, h2, s3, h3, heq⟩ := hmem
  have l1 := matchR_length _ s s1 h1
  have l2 := matchR_length _ s1 s2 h2
  have l3 := matchR_length _ s2 s3 h3
  rw [minLen_header_sep] at l1
  simp only [Prod.mk.injEq] at heq
  rw [← heq.2]
  omega

theorem collectSections_isSome :
    ∀ (s : Str) (skip : Nat), ∃ secs, collectSections s skip = some secs := by
  intro s
  induction s with
  | nil =>
    intro skip
    simp only [collectSections]
    split
    · split
      · rename_i x hx
        obtain ⟨cap, e⟩ := x
        have := techSectionAt_shorter [] cap e hx
        simp at this
      · exact ⟨[], rfl⟩
    · exact ⟨[], rfl⟩
  | cons c cs ih =>
    intro skip
    cases skip with
    | succ k => simpa [collectSections] using ih k
    | zero =>
      simp only [collectSections]
      split
      · rename_i cap e hx
        have hl := techSectionAt_shorter (c :: cs) cap e hx
        have hn : ¬ ((c :: cs).length - e.length = 0) := by omega
        obtain ⟨rest, hrest⟩ := ih ((c :: cs).length - e.length - 1)
        rw [if_neg hn, hrest]
        exact ⟨_, rfl⟩
      · exact ih 0

theorem extractTechnicalSkills_eq (toLowerCase : Str → Str) (text : Str) :
    ∃ secs, collectSections text 0 = some secs ∧
      extractTechnicalSkills toLowerCase text =
        some { identifiedSkills := skillsKeywords.filter (fun skill =>
                 includes (toLowerCase text) (toLowerCase skill))
               technicalSections := secs
               skillsCount := (skillsKeywords.filter (fun skill =>
                 includes (toLowerCase text) (toLowerCase skill))).length } := by
  obtain ⟨secs, hs⟩ := collectSections_isSome text 0
  exact ⟨secs, hs, by simp [extractTechnicalSkills, hs]⟩

/-! ## C1 -/

/-- C1: for every text (and every lower-casing function) `extractTechnicalSkills`
returns a fragment whose `skillsCount` is the length of its `identifiedSkills`;
the fallback profile satisfies the same equality; and a call of `extractCVData`
on a server whose `cvData` is `null` returns and leaves a profile that
satisfies it, whatever the environment answers. -/
theorem C1_skillsCount_eq_length :
    (∀ (toLowerCase : Str → Str) (t : Str), ∃ ts,
        extractTechnicalSkills toLowerCase t = some ts ∧
        ts.skillsCount = ts.identifiedSkills.length) ∧
    (∀ iso : Str, (fallbackProfile iso).technicalSkills.skillsCount =
        (fallbackProfile iso).technicalSkills.identifiedSkills.length) ∧
    (∀ (toLowerCase : Str → Str) (w : World) (reads decodes : Nat), ∃ st p,
        extractCVData toLowerCase w ⟨none, reads, decodes⟩ = some st ∧
        st.cvData = some p ∧
        p.technicalSkills.skillsCount = p.technicalSkills.identifiedSkills.length) := by
  refine ⟨?_, ?_, ?_⟩
  · intro lower t
    obtain ⟨secs, _, h⟩ := extractTechnicalSkills_eq lower t
    exact ⟨_, h, rfl⟩
  · intro iso
    rfl
  · intro lower w reads decodes
    cases hr : w.readFile with
    | none =>
      simp only [extractCVData, hr]
      exact ⟨_, _, rfl, rfl, rfl⟩
    | some buf =>
      cases hp : w.pdfParse buf with
      | none =>
        simp only [extractCVData, hr, hp]
        exact ⟨_, _, rfl, rfl, rfl⟩
      | some text =>
        obtain ⟨secs, _, h⟩ := extractTechnicalSkills_eq lower text
        simp only [extractCVData, hr, hp, h]
        exact ⟨_, _, rfl, rfl, rfl⟩

/-! ## C2 -/

theorem foldl_years_nonneg (currentYear : Int) (periods : List Str) :
    ∀ acc : Int, 0 ≤ acc →
      0 ≤ periods.foldl (fun totalYears period =>
        match matchAll fourDigits period 0 with
        | [] => totalYears
        | y0 :: rest =>
          let startYear := parseInt y0
          let endYear := match rest.head? with
            | some y1 => parseInt y1
            | none => currentYear
          totalYears + max 0 (endYear - startYear)) acc := by
  induction periods with
  | nil => intro acc h; simpa using h
  | cons p ps ih =>
    intro acc h
    simp only [List.foldl_cons]
    apply ih
    split
    · exact h
    · exact add_nonneg h (le_max_left _ _)

/-- C2: for every text and every current calendar year `experienceYears` is an
integer that is at least 0, and on the text `2022-2018`, whose second year
precedes the first, the single period contributes 0. -/
theorem C2_experienceYears_nonneg :
    (∀ (currentYear : Int) (t : Str), 0 ≤ (extractExperience currentYear t).experienceYears) ∧
    (∀ currentYear : Int, extractExperience currentYear "2022-2018".toList =
        { experiencePeriods := ["2022-2018".toList], experienceYears := 0 }) := by
  refine ⟨?_, ?_⟩
  · intro cy t
    exact foldl_years_nonneg cy _ 0 (le_refl 0)
  · intro cy
    rfl

/-! ## Year ranges -/

theorem toDigitsCore_step (fuel n : Nat) (ds : List Char) :
    Nat.toDigitsCore 10 (fuel + 1) n ds =
      if n / 10 = 0 then Nat.digitChar (n % 10) :: ds
      else Nat.toDigitsCore 10 fuel (n / 10) (Nat.digitChar (n % 10) :: ds) := rfl

/-- The decimal rendering of a number between 1000 and 9999 is its four
digits. -/
theorem toString_four (n : Nat) (h1 : 1000 ≤ n) (h2 : n ≤ 9999) :
    (toString n).toList =
      [Nat.digitChar (n / 1000), Nat.digitChar (n / 100 % 10), Nat.digitChar (n / 10 % 10),
        Nat.digitChar (n % 10)] := by
  have e1 : ¬ n / 10 = 0 := by omega
  have e2 : ¬ n / 10 / 10 = 0 := by omega
  have e3 : ¬ n / 10 / 10 / 10 = 0 := by omega
  have e4 : n / 10 / 10 / 10 / 10 = 0 := by omega
  have f1 : n / 10 / 10 / 10 % 10 = n / 1000 := by omega
  have f2 : n / 10 / 10 % 10 = n / 100 % 10 := by omega
  show (Nat.repr n).toList = _
  unfold Nat.repr Nat.toDigits
  rw [show n + 1 = (n - 3) + 1 + 1 + 1 + 1 by omega]
  rw [toDigitsCore_step, if_neg e1, toDigitsCore_step, if_neg e2, toDigitsCore_step, if_neg e3,
    toDigitsCore_step, if_pos e4, f1, f2]
  rfl

theorem digitChar_toNat (k : Nat) (h : k < 10) : (Nat.digitChar k).toNat = 48 + k := by
  interval_cases k <;> rfl

theorem isDigit_digitChar (k : Nat) (h : k < 10) : isDigit (Nat.digitChar k) = true := by
  simp [isDigit, digitChar_toNat k h]
  omega

theorem not_sep_of_isDigit (c : Char) (h : isDigit c = true) :
    (isWhiteSpace c || c == '-') = false := by
  have hne : c ≠ '-' := by
    intro hc
    subst hc
    simp [isDigit] at h
  simp only [isDigit, Bool.and_eq_true, decide_eq_true_eq] at h
  simp [isWhiteSpace, hne]
  omega

theorem fourDigits_match (d1 d2 d3 d4 : Char) (r : Str) (h1 : isDigit d1 = true)
    (h2 : isDigit d2 = true) (h3 : isDigit d3 = true) (h4 : isDigit d4 = true) :
    matchR fourDigits (d1 :: d2 :: d3 :: d4 :: r) = [r] := by
  cases r <;> simp [matchR, fourDigits, classRuns, h1, h2, h3, h4]

theorem fourDigits_fail (c : Char) (s : Str) (h : isDigit c = false) :
    matchR fourDigits (c :: s) = [] := by
  simp [matchR, fourDigits, classRuns, h]

theorem fourDigits_nil : matchR fourDigits [] = [] := by
  simp [matchR, fourDigits, classRuns]

theorem matchR_alt (a b : Regex) (s : Str) :
    matchR (.alt a b) s = matchR a s ++ matchR b s := by
  cases s <;> rfl

theorem matchR_seq (a b : Regex) (s : Str) :
    matchR (.seq a b) s = (matchR a s).flatMap (fun s1 => matchR b s1) := by
  cases s <;> rfl

theorem yearSep_dash_digit (e : Char) (r : Str) (he : isDigit e = true) :
    matchR yearSep ('-' :: e :: r) = [e :: r, '-' :: e :: r] := by
  have := not_sep_of_isDigit e he
  simp only [Bool.or_eq_false_iff] at this
  simp [matchR, yearSep, classRuns, this.1, this.2]

theorem range_alt_match (d1 d2 d3 d4 e1 e2 e3 e4 : Char) (r : Str)
    (h1 : isDigit d1 = true) (h2 : isDigit d2 = true) (h3 : isDigit d3 = true)
    (h4 : isDigit d4 = true) (k1 : isDigit e1 = true) (k2 : isDigit e2 = true)
    (k3 : isDigit e3 = true) (k4 : isDigit e4 = true) :
    matchR (.seq fourDigits (.seq yearSep fourDigits))
      (d1 :: d2 :: d3 :: d4 :: '-' :: e1 :: e2 :: e3 :: e4 :: r) = [r] := by
  have hdash : isDigit '-' = false := by decide
  rw [matchR_seq, fourDigits_match d1 d2 d3 d4 _ h1 h2 h3 h4]
  simp only [List.flatMap_cons, List.flatMap_nil, List.append_nil]
  rw [matchR_seq, yearSep_dash_digit e1 _ k1]
  simp only [List.flatMap_cons, List.flatMap_nil, List.append_nil]
  rw [fourDigits_match e1 e2 e3 e4 _ k1 k2 k3 k4, fourDigits_fail '-' _ hdash]
  rfl

theorem expRegex_range_head (d1 d2 d3 d4 e1 e2 e3 e4 : Char) (r : Str)
    (h1 : isDigit d1 = true) (h2 : isDigit d2 = true) (h3 : isDigit d3 = true)
    (h4 : isDigit d4 = true) (k1 : isDigit e1 = true) (k2 : isDigit e2 = true)
    (k3 : isDigit e3 = true) (k4 : isDigit e4 = true) :
    (matchR expRegex (d1 :: d2 :: d3 :: d4 :: '-' :: e1 :: e2 :: e3 :: e4 :: r)).head? =
      some r := by
  rw [expRegex, matchR_alt, range_alt_match d1 d2 d3 d4 e1 e2 e3 e4 r h1 h2 h3 h4 k1 k2 k3 k4]
  rfl

theorem matchR_seq_of_nil (a b : Regex) (s : Str) (h : matchR a s = []) :
    matchR (.seq a b) s = [] := by
  rw [matchR_seq, h]
  rfl

/-- At a character that is neither a digit nor a `p` of either case, the
experience pattern does not match. -/
theorem expRegex_fail (c : Char) (s : Str) (h1 : isDigit c = false)
    (h2 : litI 'p' c = false) : matchR expRegex (c :: s) = [] := by
  have hw : matchR (wordI "present".toList) (c :: s) = [] := by
    show matchR (.seq (.chr (litI 'p')) _) (c :: s) = []
    apply matchR_seq_of_nil
    simp [matchR, h2]
  have hf := fourDigits_fail c s h1
  rw [expRegex, matchR_alt, matchR_alt, matchR_alt, matchR_seq_of_nil _ _ _ hf,
    matchR_seq_of_nil _ _ _ hf, matchR_seq_of_nil _ _ _ hf, hw]
  rfl

theorem expRegex_nil : matchR expRegex [] = [] := by
  decide

theorem matchAll_skip (r : Regex) (xs s : Str) :
    matchAll r (xs ++ s) xs.length = matchAll r s 0 := by
  induction xs with
  | nil => rfl
  | cons x xs ih => simpa [matchAll] using ih

theorem matchAll_cons_some (r : Regex) (c : Char) (cs e : Str)
    (h : (matchR r (c :: cs)).head? = some e) :
    matchAll r (c :: cs) 0 =
      (c :: cs).take ((c :: cs).length - e.length) ::
        matchAll r cs ((c :: cs).length - e.length - 1) := by
  simp only [matchAll, h]

theorem matchAll_cons_none (r : Regex) (c : Char) (cs : Str) (h : matchR r (c :: cs) = []) :
    matchAll r (c :: cs) 0 = matchAll r cs 0 := by
  simp only [matchAll, h, List.head?_nil]

theorem matchAll_leading (r : Regex) (c : Char) (xs s : Str)
    (h : (matchR r (c :: (xs ++ s))).head? = some s) :
    matchAll r (c :: (xs ++ s)) 0 = (c :: xs) :: matchAll r s 0 := by
  rw [matchAll_cons_some _ _ _ s h]
  have hn : (c :: (xs ++ s)).length - s.length = xs.length + 1 := by
    simp only [List.length_cons, List.length_append]
    omega
  rw [hn, Nat.add_sub_cancel, matchAll_skip, List.take_succ_cons, List.take_left']
  rfl

theorem matchAll_exp_token (d1 d2 d3 d4 e1 e2 e3 e4 : Char) (r : Str)
    (h1 : isDigit d1 = true) (h2 : isDigit d2 = true) (h3 : isDigit d3 = true)
    (h4 : isDigit d4 = true) (k1 : isDigit e1 = true) (k2 : isDigit e2 = true)
    (k3 : isDigit e3 = true) (k4 : isDigit e4 = true) :
    matchAll expRegex (d1 :: d2 :: d3 :: d4 :: '-' :: e1 :: e2 :: e3 :: e4 :: r) 0 =
      [d1, d2, d3, d4, '-', e1, e2, e3, e4] :: matchAll expRegex r 0 :=
  matchAll_leading expRegex d1 [d2, d3, d4, '-', e1, e2, e3, e4] r
    (expRegex_range_head d1 d2 d3 d4 e1 e2 e3 e4 r h1 h2 h3 h4 k1 k2 k3 k4)

theorem matchAll_four_token (d1 d2 d3 d4 e1 e2 e3 e4 : Char)
    (h1 : isDigit d1 = true) (h2 : isDigit d2 = true) (h3 : isDigit d3 = true)
    (h4 : isDigit d4 = true) (k1 : isDigit e1 = true) (k2 : isDigit e2 = true)
    (k3 : isDigit e3 = true) (k4 : isDigit e4 = true) :
    matchAll fourDigits [d1, d2, d3, d4, '-', e1, e2, e3, e4] 0 =
      [[d1, d2, d3, d4], [e1, e2, e3, e4]] := by
  have hdash : isDigit '-' = false := by decide
  have m1 : (matchR fourDigits (d1 :: ([d2, d3, d4] ++ ['-', e1, e2, e3, e4]))).head? =
      some ['-', e1, e2, e3, e4] := by
    show (matchR fourDigits (d1 :: d2 :: d3 :: d4 :: ['-', e1, e2, e3, e4])).head? = _
    rw [fourDigits_match d1 d2 d3 d4 _ h1 h2 h3 h4]; rfl
  have m2 : (matchR fourDigits (e1 :: ([e2, e3, e4] ++ []))).head? = some [] := by
    show (matchR fourDigits (e1 :: e2 :: e3 :: e4 :: [])).head? = _
    rw [fourDigits_match e1 e2 e3 e4 _ k1 k2 k3 k4]; rfl
  have s1 := matchAll_leading fourDigits d1 [d2, d3, d4] ['-', e1, e2, e3, e4] m1
  have s2 := matchAll_leading fourDigits e1 [e2, e3, e4] [] m2
  have s3 : matchAll fourDigits [] 0 = [] := by
    simp [matchAll, fourDigits_nil]
  simp only [List.cons_append, List.nil_append] at s1 s2
  rw [s1, matchAll_cons_none _ _ _ (fourDigits_fail '-' _ hdash), s2, s3]

theorem parseInt_four (d1 d2 d3 d4 : Char)
    (h1 : isDigit d1 = true) (h2 : isDigit d2 = true) (h3 : isDigit d3 = true)
    (h4 : isDigit d4 = true) :
    parseInt [d1, d2, d3, d4] =
      1000 * ((d1.toNat : Int) - 48) + 100 * ((d2.toNat : Int) - 48)
        + 10 * ((d3.toNat : Int) - 48) + ((d4.toNat : Int) - 48) := by
  simp only [parseInt, List.takeWhile, h1, h2, h3, h4, List.foldl]
  ring

theorem parseInt_toString (n : Nat) (h1 : 1000 ≤ n) (h2 : n ≤ 9999) :
    parseInt (toString n).toList = (n : Int) := by
  have a1 : n / 1000 < 10 := by omega
  have a2 : n / 100 % 10 < 10 := by omega
  have a3 : n / 10 % 10 < 10 := by omega
  have a4 : n % 10 < 10 := by omega
  rw [toString_four n h1 h2, parseInt_four _ _ _ _ (isDigit_digitChar _ a1)
    (isDigit_digitChar _ a2) (isDigit_digitChar _ a3) (isDigit_digitChar _ a4),
    digitChar_toNat _ a1, digitChar_toNat _ a2, digitChar_toNat _ a3, digitChar_toNat _ a4]
  push_cast
  omega

theorem exp_token_cons (p : Nat × Nat) (r : Str)
    (hp : 1000 ≤ p.1 ∧ p.1 ≤ 9999 ∧ 1000 ≤ p.2 ∧ p.2 ≤ 9999) :
    matchAll expRegex (rangeToken p ++ r) 0 = rangeToken p :: matchAll expRegex r 0 := by
  obtain ⟨h1, h2, h3, h4⟩ := hp
  rw [rangeToken, toString_four p.1 h1 h2, toString_four p.2 h3 h4]
  exact matchAll_exp_token _ _ _ _ _ _ _ _ r
    (isDigit_digitChar _ (by omega)) (isDigit_digitChar _ (by omega))
    (isDigit_digitChar _ (by omega)) (isDigit_digitChar _ (by omega))
    (isDigit_digitChar _ (by omega)) (isDigit_digitChar _ (by omega))
    (isDigit_digitChar _ (by omega)) (isDigit_digitChar _ (by omega))

theorem exp_space (s : Str) : matchAll expRegex (' ' :: s) 0 = matchAll expRegex s 0 :=
  matchAll_cons_none _ _ _ (expRegex_fail ' ' s (by decide) (by decide))

theorem exp_nil : matchAll expRegex [] 0 = [] := by
  simp [matchAll, expRegex_nil]

theorem matchAll_rangeText (ps : List (Nat × Nat))
    (h : ∀ p ∈ ps, 1000 ≤ p.1 ∧ p.1 ≤ 9999 ∧ 1000 ≤ p.2 ∧ p.2 ≤ 9999) :
    matchAll expRegex (rangeText ps) 0 = ps.map rangeToken := by
  induction ps with
  | nil => exact exp_nil
  | cons p ps ih =>
    have hp := h p (List.mem_cons_self _ _)
    have ih1 := ih (fun q hq => h q (List.mem_cons_of_mem _ hq))
    cases ps with
    | nil =>
      have := exp_token_cons p [] hp
      rw [List.append_nil, exp_nil] at this
      simpa [rangeText, join] using this
    | cons q qs =>
      have e : rangeText (p :: q :: qs) = rangeToken p ++ (' ' :: rangeText (q :: qs)) := by
        simp [rangeText, join]
      rw [e, exp_token_cons p _ hp, exp_space, ih1]
      rfl

theorem years_of_token (p : Nat × Nat)
    (hp : 1000 ≤ p.1 ∧ p.1 ≤ 9999 ∧ 1000 ≤ p.2 ∧ p.2 ≤ 9999) :
    matchAll fourDigits (rangeToken p) 0 = [(toString p.1).toList, (toString p.2).toList] := by
  obtain ⟨h1, h2, h3, h4⟩ := hp
  rw [rangeToken, toString_four p.1 h1 h2, toString_four p.2 h3 h4]
  exact matchAll_four_token _ _ _ _ _ _ _ _
    (isDigit_digitChar _ (by omega)) (isDigit_digitChar _ (by omega))
    (isDigit_digitChar _ (by omega)) (isDigit_digitChar _ (by omega))
    (isDigit_digitChar _ (by omega)) (isDigit_digitChar _ (by omega))
    (isDigit_digitChar _ (by omega)) (isDigit_digitChar _ (by omega))

theorem foldl_years_tokens (currentYear : Int) (ps : List (Nat × Nat))
    (h : ∀ p ∈ ps, 1000 ≤ p.1 ∧ p.1 ≤ 9999 ∧ 1000 ≤ p.2 ∧ p.2 ≤ 9999) :
    ∀ acc : Int,
      (ps.map rangeToken).foldl (fun totalYears period =>
        match matchAll fourDigits period 0 with
        | [] => totalYears
        | y0 :: rest =>
          let startYear := parseInt y0
          let endYear := match rest.head? with
            | some y1 => parseInt y1
            | none => currentYear
          totalYears + max 0 (endYear - startYear)) acc
        = acc + (ps.map (fun p => max 0 ((p.2 : Int) - (p.1 : Int)))).sum := by
  induction ps with
  | nil => intro acc; simp
  | cons p ps ih =>
    intro acc
    have hp := h p (List.mem_cons_self _ _)
    simp only [List.map_cons, List.foldl_cons, List.sum_cons]
    rw [ih (fun q hq => h q (List.mem_cons_of_mem _ hq)), years_of_token p hp]
    simp only [List.head?_cons]
    rw [parseInt_toString p.1 hp.1 hp.2.1, parseInt_toString p.2 hp.2.2.1 hp.2.2.2]
    ring

/-! ## C3 -/

/-- C3: for every list of pairs of years between 1000 and 9999, on the text
`a1-b1 a2-b2 ... ak-bk` (tokens separated by single spaces) `extractExperience`
returns the tokens in document order as `experiencePeriods` and the sum of
`max(0, bi - ai)` as `experienceYears`, whatever the current year; on
`2018-2022` the years are 4 and on `2018-2022 2019-2021` they are 6. -/
theorem C3_year_ranges :
    (∀ (currentYear : Int) (ps : List (Nat × Nat)),
      (∀ p ∈ ps, 1000 ≤ p.1 ∧ p.1 ≤ 9999 ∧ 1000 ≤ p.2 ∧ p.2 ≤ 9999) →
      extractExperience currentYear (rangeText ps) =
        { experiencePeriods := ps.map rangeToken
          experienceYears := (ps.map (fun p => max 0 ((p.2 : Int) - (p.1 : Int)))).sum }) ∧
    (∀ currentYear : Int,
      (extractExperience currentYear "2018-2022".toList).experienceYears = 4) ∧
    (∀ currentYear : Int,
      (extractExperience currentYear "2018-2022 2019-2021".toList).experienceYears = 6) := by
  refine ⟨?_, fun _ => rfl, fun _ => rfl⟩
  intro cy ps h
  simp only [extractExperience, calculateExperienceYears, matchAll_rangeText ps h,
    foldl_years_tokens cy ps h 0, zero_add]

/-- C3 at the two ranges `2018-2022` and `2019-2021`: the text is
`2018-2022 2019-2021`, both tokens are reported and the years add up to 6. -/
theorem C3_year_ranges_witness :
    rangeText [(2018, 2022), (2019, 2021)] = "2018-2022 2019-2021".toList ∧
    extractExperience 2026 (rangeText [(2018, 2022), (2019, 2021)]) =
      { experiencePeriods := ["2018-2022".toList, "2019-2021".toList]
        experienceYears := 6 } := by
  refine ⟨by decide, ?_⟩
  have h := C3_year_ranges.1 2026 [(2018, 2022), (2019, 2021)] (by decide)
  rw [h]
  decide

/-! ## Open-ended periods -/

theorem litI_p_of_isDigit (c : Char) (h : isDigit c = true) : litI 'p' c = false := by
  simp only [isDigit, Bool.and_eq_true, decide_eq_true_eq] at h
  have hc : canonicalize c = c := by
    unfold canonicalize
    rw [if_neg (by omega)]
  have hp : canonicalize 'p' = 'P' := by decide
  have hne : c ≠ 'P' := by
    intro e
    subst e
    simp at h
  simp [litI, hc, hp, hne]

theorem wordI_present_fail (c : Char) (s : Str) (h : isDigit c = true) :
    matchR (wordI "present".toList) (c :: s) = [] := by
  show matchR (.seq (.chr (litI 'p')) _) (c :: s) = []
  apply matchR_seq_of_nil
  simp [matchR, litI_p_of_isDigit c h]

/-- After four digits, the experience pattern continues with the separator and
then four digits, `présent` or `aujourd'hui`; the bare `present` alternative
cannot start at a digit. -/
theorem expRegex_after_year (d1 d2 d3 d4 : Char) (tl : Str) (h1 : isDigit d1 = true)
    (h2 : isDigit d2 = true) (h3 : isDigit d3 = true) (h4 : isDigit d4 = true) :
    matchR expRegex (d1 :: d2 :: d3 :: d4 :: tl) =
      matchR (.seq yearSep fourDigits) tl ++
        (matchR (.seq yearSep (wordI "présent".toList)) tl ++
          matchR (.seq yearSep (wordI "aujourd'hui".toList)) tl) := by
  have hd := fourDigits_match d1 d2 d3 d4 tl h1 h2 h3 h4
  rw [expRegex, matchR_alt, matchR_alt, matchR_alt, wordI_present_fail d1 _ h1,
    matchR_seq fourDigits, matchR_seq fourDigits, matchR_seq fourDigits, hd]
  simp only [List.flatMap_cons, List.flatMap_nil, List.append_nil, List.nil_append]

theorem expRegex_fail_digit (c : Char) (s : Str) (h : isDigit c = true)
    (hf : matchR fourDigits (c :: s) = []) : matchR expRegex (c :: s) = [] := by
  rw [expRegex, matchR_alt, matchR_alt, matchR_alt, matchR_seq_of_nil _ _ _ hf,
    matchR_seq_of_nil _ _ _ hf, matchR_seq_of_nil _ _ _ hf, wordI_present_fail c s h]
  rfl

theorem fourDigits_fail_short (d2 d3 d4 : Char) (s : Str) (h2 : isDigit d2 = true)
    (h3 : isDigit d3 = true) (h4 : isDigit d4 = true) :
    matchR fourDigits (d2 :: d3 :: d4 :: '-' :: s) = [] ∧
    matchR fourDigits (d3 :: d4 :: '-' :: s) = [] ∧
    matchR fourDigits (d4 :: '-' :: s) = [] := by
  have hdash : isDigit '-' = false := by decide
  refine ⟨?_, ?_, ?_⟩ <;> simp [matchR, fourDigits, classRuns, h2, h3, h4, hdash]

/-- The periods found in four digits followed by `-` and a remainder: when the
pattern matches the whole text at its start, the text is the only period; when
it does not match at the start, the periods are those of the remainder after the
digits. -/
theorem matchAll_exp_year (d1 d2 d3 d4 : Char) (tl : Str) (h1 : isDigit d1 = true)
    (h2 : isDigit d2 = true) (h3 : isDigit d3 = true) (h4 : isDigit d4 = true) :
    ((matchR (.seq yearSep fourDigits) ('-' :: tl) ++
        (matchR (.seq yearSep (wordI "présent".toList)) ('-' :: tl) ++
          matchR (.seq yearSep (wordI "aujourd'hui".toList)) ('-' :: tl))).head? = some [] →
      matchAll expRegex (d1 :: d2 :: d3 :: d4 :: '-' :: tl) 0 =
        [d1 :: d2 :: d3 :: d4 :: '-' :: tl]) ∧
    ((matchR (.seq yearSep fourDigits) ('-' :: tl) ++
        (matchR (.seq yearSep (wordI "présent".toList)) ('-' :: tl) ++
          matchR (.seq yearSep (wordI "aujourd'hui".toList)) ('-' :: tl))) = [] →
      matchAll expRegex (d1 :: d2 :: d3 :: d4 :: '-' :: tl) 0 =
        matchAll expRegex ('-' :: tl) 0) := by
  have hy := expRegex_after_year d1 d2 d3 d4 ('-' :: tl) h1 h2 h3 h4
  constructor
  · intro h
    have hh : (matchR expRegex (d1 :: ([d2, d3, d4, '-'] ++ tl ++ []))).head? = some [] := by
      simp only [List.append_nil, List.cons_append, List.nil_append]
      rw [hy]
      exact h
    have := matchAll_leading expRegex d1 ([d2, d3, d4, '-'] ++ tl) [] hh
    simpa [exp_nil] using this
  · intro h
    obtain ⟨f2, f3, f4⟩ := fourDigits_fail_short d2 d3 d4 tl h2 h3 h4
    rw [matchAll_cons_none _ _ _ (by rw [hy]; exact h),
      matchAll_cons_none _ _ _ (expRegex_fail_digit d2 _ h2 f2),
      matchAll_cons_none _ _ _ (expRegex_fail_digit d3 _ h3 f3),
      matchAll_cons_none _ _ _ (expRegex_fail_digit d4 _ h4 f4)]

/-- The years found in a period made of four digits and a remainder. -/
theorem matchAll_four_year (d1 d2 d3 d4 : Char) (tl : Str) (h1 : isDigit d1 = true)
    (h2 : isDigit d2 = true) (h3 : isDigit d3 = true) (h4 : isDigit d4 = true) :
    matchAll fourDigits (d1 :: d2 :: d3 :: d4 :: tl) 0 =
      [d1, d2, d3, d4] :: matchAll fourDigits tl 0 := by
  have m1 : (matchR fourDigits (d1 :: ([d2, d3, d4] ++ tl))).head? = some tl := by
    show (matchR fourDigits (d1 :: d2 :: d3 :: d4 :: tl)).head? = _
    rw [fourDigits_match d1 d2 d3 d4 _ h1 h2 h3 h4]; rfl
  exact matchAll_leading fourDigits d1 [d2, d3, d4] tl m1

/-- For every year `y` between 1000 and 9999 and every current year `c`: on
`y-présent` and on `y-aujourd'hui` the whole text is the single period and the
years of experience are `max(0, c - y)`; on `y-present` the single period is
the bare word `present` and the years of experience are 0. -/
theorem open_period_markers (y : Nat) (h1 : 1000 ≤ y) (h2 : y ≤ 9999) (c : Int) :
    extractExperience c ((toString y).toList ++ "-présent".toList) =
      { experiencePeriods := [(toString y).toList ++ "-présent".toList]
        experienceYears := max 0 (c - (y : Int)) } ∧
    extractExperience c ((toString y).toList ++ "-aujourd'hui".toList) =
      { experiencePeriods := [(toString y).toList ++ "-aujourd'hui".toList]
        experienceYears := max 0 (c - (y : Int)) } ∧
    extractExperience c ((toString y).toList ++ "-present".toList) =
      { experiencePeriods := ["present".toList], experienceYears := 0 } := by
  have a1 : y / 1000 < 10 := by omega
  have a2 : y / 100 % 10 < 10 := by omega
  have a3 : y / 10 % 10 < 10 := by omega
  have a4 : y % 10 < 10 := by omega
  have g1 := isDigit_digitChar _ a1
  have g2 := isDigit_digitChar _ a2
  have g3 := isDigit_digitChar _ a3
  have g4 := isDigit_digitChar _ a4
  have hp := parseInt_toString y h1 h2
  rw [toString_four y h1 h2] at hp ⊢
  refine ⟨?_, ?_, ?_⟩
  · have hm := (matchAll_exp_year _ _ _ _ "présent".toList g1 g2 g3 g4).1 (by decide)
    have hyrs := matchAll_four_year _ _ _ _ "-présent".toList g1 g2 g3 g4
    have hrest : matchAll fourDigits "-présent".toList 0 = [] := by decide
    rw [hrest] at hyrs
    have e : "-présent".toList = '-' :: "présent".toList := rfl
    simp only [extractExperience, calculateExperienceYears, e, List.cons_append,
      List.nil_append] at hm hyrs ⊢
    rw [hm]
    simp only [List.foldl_cons, List.foldl_nil, hyrs, List.head?_nil, hp, zero_add]
  · have hm := (matchAll_exp_year _ _ _ _ "aujourd'hui".toList g1 g2 g3 g4).1 (by decide)
    have hyrs := matchAll_four_year _ _ _ _ "-aujourd'hui".toList g1 g2 g3 g4
    have hrest : matchAll fourDigits "-aujourd'hui".toList 0 = [] := by decide
    rw [hrest] at hyrs
    have e : "-aujourd'hui".toList = '-' :: "aujourd'hui".toList := rfl
    simp only [extractExperience, calculateExperienceYears, e, List.cons_append,
      List.nil_append] at hm hyrs ⊢
    rw [hm]
    simp only [List.foldl_cons, List.foldl_nil, hyrs, List.head?_nil, hp, zero_add]
  · have hm := (matchAll_exp_year _ _ _ _ "present".toList g1 g2 g3 g4).2 (by decide)
    have hrest : matchAll expRegex ('-' :: "present".toList) 0 = ["present".toList] := by
      decide
    rw [hrest] at hm
    have e : "-present".toList = '-' :: "present".toList := rfl
    simp only [extractExperience, calculateExperienceYears, e, List.cons_append,
      List.nil_append] at hm ⊢
    rw [hm]
    rfl

/-! ## C4 -/

/-- C4 at the marker `present`: on `2020-present` read in the year 2026 the
only period reported is the bare word `present`, which holds no year, and the
years of experience are 0; on `2020-présent` and on `2020-aujourd'hui` the
period holds the year and the years of experience are 6. -/
theorem C4_present_marker :
    extractExperience 2026 "2020-present".toList =
      { experiencePeriods := ["present".toList], experienceYears := 0 } ∧
    extractExperience 2026 "2020-présent".toList =
      { experiencePeriods := ["2020-présent".toList], experienceYears := 6 } ∧
    extractExperience 2026 "2020-aujourd'hui".toList =
      { experiencePeriods := ["2020-aujourd'hui".toList], experienceYears := 6 } := by
  refine ⟨?_, ?_, ?_⟩ <;> rfl

/-! ## C5 -/

/-- C5: on the text `Jane Doe\nEngineer\njane@x.com` the name is `Jane Doe`,
the email is `jane@x.com` and the phone is the string `Non trouvé`. -/
theorem C5_jane_doe :
    (extractPersonalInfo "Jane Doe\nEngineer\njane@x.com".toList).name = "Jane Doe".toList ∧
    (extractPersonalInfo "Jane Doe\nEngineer\njane@x.com".toList).email = "jane@x.com".toList ∧
    (extractPersonalInfo "Jane Doe\nEngineer\njane@x.com".toList).phone = "Non trouvé".toList := by
  refine ⟨?_, ?_, ?_⟩ <;> rfl

/-! ## C6 -/

theorem notFound_ne_nil : notFound ≠ [] := by
  decide

theorem orElse_ne_nil (x : Option Str) (d : Str) (hd : d ≠ []) : orElse x d ≠ [] := by
  unfold orElse
  split
  · split
    · exact hd
    · rename_i s hs
      intro h
      exact hs (by simp [h])
  · exact hd

/-- C6: for every text the name, the email and the phone returned by
`extractPersonalInfo` are non-empty strings; the name is `Non trouvé` when the
text has no non-blank line, the email is `Non trouvé` when the email pattern
has no match, the phone is `Non trouvé` when the phone pattern has no match
(and each is the first match when there is one); on the empty text all three
are `Non trouvé`. -/
theorem C6_fields_never_empty :
    (∀ t : Str, (extractPersonalInfo t).name ≠ [] ∧ (extractPersonalInfo t).email ≠ [] ∧
        (extractPersonalInfo t).phone ≠ []) ∧
    (∀ t : Str, (∀ l ∈ splitLines t, trim l = []) →
        (extractPersonalInfo t).name = "Non trouvé".toList) ∧
    (∀ t : Str, matchAll emailRegex t 0 = [] →
        (extractPersonalInfo t).email = "Non trouvé".toList) ∧
    (∀ t : Str, matchAll phoneRegex t 0 = [] →
        (extractPersonalInfo t).phone = "Non trouvé".toList) ∧
    (∀ (t m : Str) (ms : List Str), matchAll emailRegex t 0 = m :: ms →
        (extractPersonalInfo t).email = m) ∧
    (∀ (t m : Str) (ms : List Str), matchAll phoneRegex t 0 = m :: ms →
        (extractPersonalInfo t).phone = m) ∧
    ((extractPersonalInfo []).name = "Non trouvé".toList ∧
      (extractPersonalInfo []).email = "Non trouvé".toList ∧
      (extractPersonalInfo []).phone = "Non trouvé".toList) := by
  refine ⟨?_, ?_, ?_, ?_, ?_, ?_, ?_⟩
  · intro t
    exact ⟨orElse_ne_nil _ _ notFound_ne_nil, orElse_ne_nil _ _ notFound_ne_nil,
      orElse_ne_nil _ _ notFound_ne_nil⟩
  · intro t h
    have hnil : (splitLines t).filter (fun line => !(trim line).isEmpty) = [] := by
      rw [List.filter_eq_nil_iff]
      intro l hl
      simp [h l hl]
    simp only [extractPersonalInfo, hnil]
    rfl
  · intro t h
    simp only [extractPersonalInfo, h]
    rfl
  · intro t h
    simp only [extractPersonalInfo, h]
    rfl
  · intro t m ms h
    have hl := matchAll_length emailRegex t 0 m (by simp [h])
    have h5 : minLen emailRegex = 5 := by decide
    have hne : m.isEmpty = false := by
      cases m with
      | nil => simp [h5] at hl
      | cons _ _ => rfl
    simp [extractPersonalInfo, h, orElse, hne]
  · intro t m ms h
    have hl := matchAll_length phoneRegex t 0 m (by simp [h])
    have h10 : minLen phoneRegex = 10 := by decide
    have hne : m.isEmpty = false := by
      cases m with
      | nil => simp [h10] at hl
      | cons _ _ => rfl
    simp [extractPersonalInfo, h, orElse, hne]
  · exact ⟨rfl, rfl, rfl⟩

/-- C6 on the text made of two blank lines, ` ` and the empty line: no line is
non-blank and neither pattern matches, so the three fields are `Non trouvé`. -/
theorem C6_fields_never_empty_witness :
    (extractPersonalInfo " \n".toList).name = "Non trouvé".toList ∧
    (extractPersonalInfo " \n".toList).email = "Non trouvé".toList ∧
    (extractPersonalInfo " \n".toList).phone = "Non trouvé".toList :=
  ⟨C6_fields_never_empty.2.1 " \n".toList (by decide),
   C6_fields_never_empty.2.2.1 " \n".toList (by decide),
   C6_fields_never_empty.2.2.2.1 " \n".toList (by decide)⟩

/-! ## C7 -/

theorem splitLines_ne_nil (s : Str) : splitLines s ≠ [] := by
  induction s with
  | nil => simp [splitLines]
  | cons c cs ih =>
    simp only [splitLines]
    split
    · simp
    · split
      · simp
      · simp

theorem no_newline_of_mem_splitLines :
    ∀ (s l : Str), l ∈ splitLines s → '\n' ∉ l := by
  intro s
  induction s with
  | nil =>
    intro l h
    simp [splitLines] at h
    simp [h]
  | cons c cs ih =>
    intro l h
    simp only [splitLines] at h
    split at h
    · simp only [List.mem_cons] at h
      rcases h with h | h
      · simp [h]
      · exact ih l h
    · rename_i hc
      split at h
      · simp at h
        subst h
        simpa using Ne.symm hc
      · rename_i l0 ls heq
        simp only [List.mem_cons] at h
        rcases h with h | h
        · subst h
          have := ih l0 (by simp [heq])
          simp only [List.mem_cons, not_or]
          exact ⟨Ne.symm hc, this⟩
        · exact ih l (by simp [heq, h])

theorem splitLines_append_newline :
    ∀ (l r : Str), '\n' ∉ l → splitLines (l ++ '\n' :: r) = l :: splitLines r := by
  intro l
  induction l with
  | nil => intro r _; simp [splitLines]
  | cons c cs ih =>
    intro r h
    simp only [List.mem_cons, not_or] at h
    have hc : ¬ c = '\n' := fun e => h.1 e.symm
    show splitLines (c :: (cs ++ '\n' :: r)) = _
    simp only [splitLines, if_neg hc, ih r h.2]

theorem splitLines_of_no_newline : ∀ l : Str, '\n' ∉ l → splitLines l = [l] := by
  intro l
  induction l with
  | nil => intro _; rfl
  | cons c cs ih =>
    intro h
    simp only [List.mem_cons, not_or] at h
    have hc : ¬ c = '\n' := fun e => h.1 e.symm
    simp only [splitLines, if_neg hc, ih h.2]

theorem splitLines_join :
    ∀ ls : List Str, ls ≠ [] → (∀ l ∈ ls, '\n' ∉ l) → splitLines (join ['\n'] ls) = ls := by
  intro ls
  induction ls with
  | nil => intro h; exact absurd rfl h
  | cons l ls ih =>
    intro _ h
    cases ls with
    | nil => simpa [join] using splitLines_of_no_newline l (h l (by simp))
    | cons l2 ls =>
      have e : join ['\n'] (l :: l2 :: ls) = l ++ '\n' :: join ['\n'] (l2 :: ls) := by
        simp [join]
      rw [e, splitLines_append_newline l _ (h l (by simp)),
        ih (by simp) (fun x hx => h x (List.mem_cons_of_mem _ hx))]

/-- C7, the claim refuted at the empty text and at a text of blank lines: no
line has a non-empty trimmed form, the name is `Non trouvé` and
`rawPersonalSection` is the empty string, whose one line trimmed is the empty
string and not the name; so the first line of `rawPersonalSection` trimmed is
not the name for every text. -/
theorem C7_first_line_is_not_name_counterexample :
    (splitLines "".toList).filter (fun l => decide (trim l ≠ [])) = [] ∧
    (extractPersonalInfo "".toList).name = "Non trouvé".toList ∧
    (extractPersonalInfo "".toList).rawPersonalSection = "".toList ∧
    (splitLines (extractPersonalInfo "".toList).rawPersonalSection).head?.map trim =
      some "".toList ∧
    (splitLines " \n\t\n".toList).filter (fun l => decide (trim l ≠ [])) = [] ∧
    (extractPersonalInfo " \n\t\n".toList).name = "Non trouvé".toList ∧
    (extractPersonalInfo " \n\t\n".toList).rawPersonalSection = "".toList ∧
    (splitLines (extractPersonalInfo " \n\t\n".toList).rawPersonalSection).head?.map trim =
      some "".toList ∧
    ¬ ∀ t : Str,
      (splitLines (extractPersonalInfo t).rawPersonalSection).head?.map trim =
        some (extractPersonalInfo t).name := by
  refine ⟨by decide, by decide, by decide, by decide, by decide, by decide, by decide,
    by decide, ?_⟩
  intro h
  exact absurd (h "".toList) (by decide)

/-- C7 as amended: let `L` be the lines of the text (split on the newline) whose
trimmed form is non-empty, in document order.  The name is the trimmed first
element of `L`, or `Non trouvé` when `L` is empty; `rawPersonalSection` is the
first `min(5, |L|)` elements of `L`, untrimmed, joined by newlines (the empty
string when `L` is empty); so `rawPersonalSection` splits into at most five
lines, which are those elements of `L`, and its first line trimmed is the name
when `L` is not empty; when `L` is empty the name is `Non trouvé` while the one
line of `rawPersonalSection` is empty. -/
theorem C7_name_and_section (t : Str) :
    (extractPersonalInfo t).name =
      (match (splitLines t).filter (fun l => decide (trim l ≠ [])) with
        | [] => "Non trouvé".toList
        | l :: _ => trim l) ∧
    (extractPersonalInfo t).rawPersonalSection =
      join ['\n'] (((splitLines t).filter (fun l => decide (trim l ≠ []))).take 5) ∧
    (((splitLines t).filter (fun l => decide (trim l ≠ []))).take 5).length =
      min 5 ((splitLines t).filter (fun l => decide (trim l ≠ []))).length ∧
    ((splitLines t).filter (fun l => decide (trim l ≠ [])) = [] →
      (extractPersonalInfo t).rawPersonalSection = []) ∧
    ((splitLines t).filter (fun l => decide (trim l ≠ [])) ≠ [] →
      splitLines (extractPersonalInfo t).rawPersonalSection =
        ((splitLines t).filter (fun l => decide (trim l ≠ []))).take 5) ∧
    (splitLines (extractPersonalInfo t).rawPersonalSection).length ≤ 5 ∧
    ((splitLines t).filter (fun l => decide (trim l ≠ [])) ≠ [] →
      (splitLines (extractPersonalInfo t).rawPersonalSection).head?.map trim =
        some (extractPersonalInfo t).name) ∧
    ((splitLines t).filter (fun l => decide (trim l ≠ [])) = [] →
      (extractPersonalInfo t).name = "Non trouvé".toList ∧
      (splitLines (extractPersonalInfo t).rawPersonalSection).head?.map trim = some []) := by
  have hf : (fun line : Str => !(trim line).isEmpty) = (fun l => decide (trim l ≠ [])) := by
    funext l
    cases trim l <;> simp
  have hraw : (extractPersonalInfo t).rawPersonalSection =
      join ['\n'] (((splitLines t).filter (fun l => decide (trim l ≠ []))).take 5) := by
    simp only [extractPersonalInfo, hf]
  have hname : (extractPersonalInfo t).name =
      (match (splitLines t).filter (fun l => decide (trim l ≠ [])) with
        | [] => "Non trouvé".toList
        | l :: _ => trim l) := by
    simp only [extractPersonalInfo, hf]
    cases hL : (splitLines t).filter (fun l => decide (trim l ≠ [])) with
    | nil => rfl
    | cons l ls =>
      have hl : l ∈ (splitLines t).filter (fun l => decide (trim l ≠ [])) := by
        rw [hL]; exact List.mem_cons_self _ _
      have hne : trim l ≠ [] := by simpa using (List.mem_filter.mp hl).2
      have : (trim l).isEmpty = false := by
        cases h : trim l with
        | nil => exact absurd h hne
        | cons _ _ => rfl
      simp [orElse, this]
  have hsplit : (splitLines t).filter (fun l => decide (trim l ≠ [])) ≠ [] →
      splitLines (extractPersonalInfo t).rawPersonalSection =
        ((splitLines t).filter (fun l => decide (trim l ≠ []))).take 5 := by
    intro hne
    rw [hraw]
    apply splitLines_join
    · cases hL : (splitLines t).filter (fun l => decide (trim l ≠ [])) with
      | nil => exact absurd hL hne
      | cons l ls => simp
    · intro l hl
      exact no_newline_of_mem_splitLines t l (List.mem_filter.mp (List.mem_of_mem_take hl)).1
  refine ⟨hname, hraw, ?_, ?_, hsplit, ?_, ?_, ?_⟩
  · simp [List.length_take]
  · intro hnil
    rw [hraw, hnil]
    rfl
  · by_cases hne : (splitLines t).filter (fun l => decide (trim l ≠ [])) = []
    · rw [hraw, hne]
      decide
    · rw [hsplit hne, List.length_take]
      omega
  · intro hne
    rw [hsplit hne, hname]
    cases hL : (splitLines t).filter (fun l => decide (trim l ≠ [])) with
    | nil => exact absurd hL hne
    | cons l ls => simp
  · intro hnil
    refine ⟨?_, ?_⟩
    · rw [hname, hnil]
    · rw [hraw, hnil]
      decide

/-- C7 on a text with a leading blank line, six non-blank lines and a blank
line in between: the name is the second line trimmed and the section holds the
first five non-blank lines, untrimmed. -/
theorem C7_name_and_section_witness :
    splitLines (extractPersonalInfo " \n Jane Doe \nEngineer\n\na\nb\nc\nd".toList).rawPersonalSection
      = [" Jane Doe ".toList, "Engineer".toList, "a".toList, "b".toList, "c".toList] ∧
    (splitLines
      (extractPersonalInfo " \n Jane Doe \nEngineer\n\na\nb\nc\nd".toList).rawPersonalSection).head?.map
        trim = some "Jane Doe".toList :=
  ⟨((C7_name_and_section " \n Jane Doe \nEngineer\n\na\nb\nc\nd".toList).2.2.2.2.1
      (by decide)).trans (by decide),
   ((C7_name_and_section " \n Jane Doe \nEngineer\n\na\nb\nc\nd".toList).2.2.2.2.2.2.1
      (by decide)).trans (by decide)⟩

/-! ## Substring search -/

theorem startsWith_iff : ∀ (s pat : Str), startsWith s pat = true ↔ ∃ post, s = pat ++ post := by
  intro s
  induction s with
  | nil =>
    intro pat
    cases pat with
    | nil => simp [startsWith]
    | cons p ps => simp [startsWith]
  | cons c cs ih =>
    intro pat
    cases pat with
    | nil => simp [startsWith]
    | cons p ps =>
      simp only [startsWith, Bool.and_eq_true, beq_iff_eq, ih ps, List.cons_append,
        List.cons.injEq]
      constructor
      · rintro ⟨h1, post, h2⟩
        exact ⟨post, h1, h2⟩
      · rintro ⟨post, h1, h2⟩
        exact ⟨h1, post, h2⟩

theorem includes_iff :
    ∀ (s pat : Str), includes s pat = true ↔ ∃ pre post, s = pre ++ pat ++ post := by
  intro s
  induction s with
  | nil =>
    intro pat
    simp only [includes, startsWith_iff]
    constructor
    · rintro ⟨post, h⟩
      exact ⟨[], post, by simpa using h⟩
    · rintro ⟨pre, post, h⟩
      have h1 := congrArg List.length h
      simp only [List.length_nil, List.length_append] at h1
      have hpre : pre = [] := List.eq_nil_of_length_eq_zero (by omega)
      subst hpre
      exact ⟨post, by simpa using h⟩
  | cons c cs ih =>
    intro pat
    simp only [includes, Bool.or_eq_true, startsWith_iff, ih pat]
    constructor
    · rintro (⟨post, h⟩ | ⟨pre, post, h⟩)
      · exact ⟨[], post, by simpa using h⟩
      · exact ⟨c :: pre, post, by simp [h]⟩
    · rintro ⟨pre, post, h⟩
      cases pre with
      | nil => exact Or.inl ⟨post, by simpa using h⟩
      | cons x xs =>
        simp only [List.cons_append, List.cons.injEq] at h
        exact Or.inr ⟨xs, post, by simpa using h.2⟩

theorem any_iff_filter_ne_nil (l : List Str) (f : Str → Bool) :
    l.any f = true ↔ l.filter f ≠ [] := by
  induction l with
  | nil => simp
  | cons x xs ih =>
    by_cases hx : f x = true
    · simp [List.filter, hx]
    · simp only [Bool.not_eq_true] at hx
      simp [List.filter, hx, ih]

/-! ## C8 -/

theorem skillsKeywords_nodup : skillsKeywords.Nodup := by
  decide

theorem toLowerCaseLatin1_recased (a b : Char) (h : sameASCIILetter a b = true) :
    toLowerCaseLatin1 [b] = toLowerCaseLatin1 [a] := by
  simp only [sameASCIILetter, isASCIILetter, Bool.or_eq_true, Bool.and_eq_true, beq_iff_eq,
    decide_eq_true_eq] at h
  rcases h with h | ⟨⟨ha, hb⟩, hab⟩
  · rw [h]
  · have ea := Char.ofNat_toNat a
    have eb := Char.ofNat_toNat b
    simp only [toLowerCaseLatin1, List.map_cons, List.map_nil, List.cons.injEq, and_true]
    rcases hab with hab | hab
    · have hau : 65 ≤ a.toNat ∧ a.toNat ≤ 90 := by omega
      have hbl : ¬ ((65 ≤ b.toNat ∧ b.toNat ≤ 90) ∨
          (0xC0 ≤ b.toNat ∧ b.toNat ≤ 0xDE ∧ b.toNat ≠ 0xD7)) := by omega
      rw [if_neg hbl, if_pos (Or.inl hau), hab, eb]
    · have hbu : 65 ≤ b.toNat ∧ b.toNat ≤ 90 := by omega
      have hal : ¬ ((65 ≤ a.toNat ∧ a.toNat ≤ 90) ∨
          (0xC0 ≤ a.toNat ∧ a.toNat ≤ 0xDE ∧ a.toNat ≠ 0xD7)) := by omega
      rw [if_neg hal, if_pos (Or.inl hbu), hab, ea]

theorem toLowerCaseLatin1_recasedASCII :
    ∀ t t2 : Str, recasedASCII t t2 = true → toLowerCaseLatin1 t2 = toLowerCaseLatin1 t := by
  intro t
  induction t with
  | nil =>
    intro t2 h
    cases t2 with
    | nil => rfl
    | cons b t2 => simp [recasedASCII] at h
  | cons a t ih =>
    intro t2 h
    cases t2 with
    | nil => simp [recasedASCII] at h
    | cons b t2 =>
      simp only [recasedASCII, Bool.and_eq_true] at h
      have h1 := toLowerCaseLatin1_recased a b h.1
      have h2 := ih t2 h.2
      simp only [toLowerCaseLatin1, List.map_cons, List.map_nil, List.cons.injEq,
        and_true] at h1 h2 ⊢
      exact ⟨h1, h2⟩

/-- C8, the claim refuted at `expreß`: upper-casing is a re-casing of its
letters and gives `EXPRESS`; the lower-cased `expreß` is `expreß`, which holds
no term of the vocabulary, while the lower-cased `EXPRESS` holds `express`; so
`expreß` identifies nothing and its re-casing `EXPRESS` identifies
`Express`. -/
theorem C8_recasing_counterexample :
    toUpperCaseLatin1 "expreß".toList = "EXPRESS".toList ∧
    toLowerCaseLatin1 "expreß".toList = "expreß".toList ∧
    toLowerCaseLatin1 "EXPRESS".toList = "express".toList ∧
    (extractTechnicalSkills toLowerCaseLatin1 "expreß".toList).map
        (fun ts => (ts.identifiedSkills, ts.skillsCount)) = some ([], 0) ∧
    (extractTechnicalSkills toLowerCaseLatin1 (toUpperCaseLatin1 "expreß".toList)).map
        (fun ts => (ts.identifiedSkills, ts.skillsCount)) = some (["Express".toList], 1) := by
  refine ⟨by decide, by decide, by decide, by decide, by decide⟩

/-- C8 as amended: for every text `t` and every lower-casing function,
`extractTechnicalSkills` returns, and a term `s` of the 28-term vocabulary is in
`identifiedSkills` exactly when the lower-cased `t` contains the lower-cased `s`
as a substring; `identifiedSkills` is a sub-list of the vocabulary in vocabulary
order, has no duplicates, and `skillsCount` is at most 28; a text with the
same lower-casing as `t` gets the same `identifiedSkills` and `skillsCount`;
and, with the lower-casing of Latin-1 texts, so does every text that differs
from `t` only in the case of ASCII letters. -/
theorem C8_skills_by_substring (toLowerCase : Str → Str) (t : Str) :
    ∃ ts, extractTechnicalSkills toLowerCase t = some ts ∧
      (∀ s ∈ skillsKeywords,
        (s ∈ ts.identifiedSkills ↔ ∃ pre post, toLowerCase t = pre ++ toLowerCase s ++ post)) ∧
      ts.identifiedSkills.Sublist skillsKeywords ∧
      ts.identifiedSkills.Nodup ∧
      skillsKeywords.length = 28 ∧
      ts.skillsCount ≤ 28 ∧
      (∀ t2 : Str, toLowerCase t2 = toLowerCase t →
        ∃ ts2, extractTechnicalSkills toLowerCase t2 = some ts2 ∧
          ts2.identifiedSkills = ts.identifiedSkills ∧ ts2.skillsCount = ts.skillsCount) ∧
      (∀ t2 : Str, recasedASCII t t2 = true →
        ∃ ts1 ts2, extractTechnicalSkills toLowerCaseLatin1 t = some ts1 ∧
          extractTechnicalSkills toLowerCaseLatin1 t2 = some ts2 ∧
          ts2.identifiedSkills = ts1.identifiedSkills ∧ ts2.skillsCount = ts1.skillsCount) := by
  obtain ⟨secs, _, h⟩ := extractTechnicalSkills_eq toLowerCase t
  have hsub : (skillsKeywords.filter (fun skill =>
      includes (toLowerCase t) (toLowerCase skill))).Sublist skillsKeywords :=
    List.filter_sublist _
  refine ⟨_, h, ?_, hsub, hsub.nodup skillsKeywords_nodup, rfl, ?_, ?_, ?_⟩
  · intro s hs
    simp only [List.mem_filter, hs, true_and]
    exact includes_iff _ _
  · have := hsub.length_le
    simpa using this
  · intro t2 ht2
    obtain ⟨secs2, _, h2⟩ := extractTechnicalSkills_eq toLowerCase t2
    refine ⟨_, h2, ?_, ?_⟩ <;> simp only [ht2]
  · intro t2 hre
    have hlow := toLowerCaseLatin1_recasedASCII t t2 hre
    obtain ⟨secs1, _, h1⟩ := extractTechnicalSkills_eq toLowerCaseLatin1 t
    obtain ⟨secs2, _, h2⟩ := extractTechnicalSkills_eq toLowerCaseLatin1 t2
    refine ⟨_, _, h1, h2, ?_, ?_⟩ <;> simp only [hlow]

/-- C8 on `I know JAVA and javascript` and `i Know Java and JavaScript`, which
differ only in the case of ASCII letters, with the lower-casing of Latin-1
texts: both give `JavaScript` and `Java`, in vocabulary order, with
`skillsCount` 2. -/
theorem C8_skills_by_substring_witness :
    recasedASCII "I know JAVA and javascript".toList "i Know Java and JavaScript".toList = true ∧
    ∃ ts ts2, extractTechnicalSkills toLowerCaseLatin1 "I know JAVA and javascript".toList = some ts ∧
      extractTechnicalSkills toLowerCaseLatin1 "i Know Java and JavaScript".toList = some ts2 ∧
      ts2.identifiedSkills = ts.identifiedSkills ∧ ts2.skillsCount = ts.skillsCount ∧
      ts.identifiedSkills = ["JavaScript".toList, "Java".toList] ∧ ts.skillsCount = 2 := by
  refine ⟨by decide, ?_⟩
  obtain ⟨_, _, _, _, _, _, _, _, hre⟩ :=
    C8_skills_by_substring toLowerCaseLatin1 "I know JAVA and javascript".toList
  obtain ⟨ts, ts2, h, h2, e1, e2⟩ := hre "i Know Java and JavaScript".toList (by decide)
  refine ⟨ts, ts2, h, h2, e1, e2, ?_, ?_⟩
  · have hd : (extractTechnicalSkills toLowerCaseLatin1
        "I know JAVA and javascript".toList).map (fun x => x.identifiedSkills) =
        some ["JavaScript".toList, "Java".toList] := by decide
    rw [h] at hd
    simpa using hd
  · have hd : (extractTechnicalSkills toLowerCaseLatin1
        "I know JAVA and javascript".toList).map (fun x => x.skillsCount) = some 2 := by decide
    rw [h] at hd
    simpa using hd

/-! ## C9 -/

/-- C9: for every text and every lower-casing function,
`hasEducationSection` is true exactly when `educationMentioned` is non-empty,
and `educationMentioned` holds exactly the keywords of `educationKeywords` that
occur in the lower-cased text as substrings, in the order of
`educationKeywords`; the same holds of `hasProjectsSection` and
`projectKeywordsFound` with `projectKeywords`.  On `Bachelor, UNIVERSITÉ` the
keywords come out in list order, `université` first. -/
theorem C9_presence_detectors :
    (∀ (toLowerCase : Str → Str) (t : Str),
      ((extractEducation toLowerCase t).hasEducationSection = true ↔
        (extractEducation toLowerCase t).educationMentioned ≠ []) ∧
      (∀ k : Str, k ∈ (extractEducation toLowerCase t).educationMentioned ↔
        (k ∈ educationKeywords ∧ ∃ pre post, toLowerCase t = pre ++ k ++ post)) ∧
      (extractEducation toLowerCase t).educationMentioned.Sublist educationKeywords ∧
      ((extractProjects toLowerCase t).hasProjectsSection = true ↔
        (extractProjects toLowerCase t).projectKeywordsFound ≠ []) ∧
      (∀ k : Str, k ∈ (extractProjects toLowerCase t).projectKeywordsFound ↔
        (k ∈ projectKeywords ∧ ∃ pre post, toLowerCase t = pre ++ k ++ post)) ∧
      (extractProjects toLowerCase t).projectKeywordsFound.Sublist projectKeywords) ∧
    educationKeywords.Nodup ∧ projectKeywords.Nodup ∧
    (extractEducation toLowerCaseLatin1 "Bachelor, UNIVERSITÉ".toList).educationMentioned =
      ["université".toList, "bac".toList, "bachelor".toList] := by
  refine ⟨?_, by decide, by decide, by decide⟩
  intro lower t
  refine ⟨?_, ?_, List.filter_sublist _, ?_, ?_, List.filter_sublist _⟩
  · exact any_iff_filter_ne_nil _ _
  · intro k
    simp only [extractEducation, List.mem_filter, includes_iff]
  · exact any_iff_filter_ne_nil _ _
  · intro k
    simp only [extractProjects, List.mem_filter, includes_iff]

/-! ## C10 -/

theorem extractCVData_cached (toLowerCase : Str → Str) (w : World) (st : Server) (p : CVData)
    (h : st.cvData = some p) : extractCVData toLowerCase w st = some st := by
  simp only [extractCVData, h]

theorem extractCVDataCalls_cached (toLowerCase : Str → Str) (st : Server) (p : CVData)
    (h : st.cvData = some p) :
    ∀ ws : List World, extractCVDataCalls toLowerCase ws st = some st := by
  intro ws
  induction ws with
  | nil => rfl
  | cons w ws ih =>
    simp only [extractCVDataCalls, extractCVData_cached toLowerCase w st p h, ih]

theorem extractCVData_first (toLowerCase : Str → Str) (w : World) (reads decodes : Nat) :
    ∃ st p, extractCVData toLowerCase w ⟨none, reads, decodes⟩ = some st ∧
      st.cvData = some p ∧ p.extractedAt = w.isoNow ∧
      (w.readFile = none → p = fallbackProfile w.isoNow) ∧
      (∀ buf, w.readFile = some buf → w.pdfParse buf = none → p = fallbackProfile w.isoNow) := by
  cases hr : w.readFile with
  | none =>
    simp only [extractCVData, hr]
    exact ⟨_, _, rfl, rfl, rfl, fun _ => rfl, fun _ hb => by simp at hb⟩
  | some buf =>
    cases hp : w.pdfParse buf with
    | none =>
      simp only [extractCVData, hr, hp]
      exact ⟨_, _, rfl, rfl, rfl, fun hb => by simp at hb, fun _ _ _ => rfl⟩
    | some text =>
      obtain ⟨secs, _, h⟩ := extractTechnicalSkills_eq toLowerCase text
      simp only [extractCVData, hr, hp, h]
      refine ⟨_, _, rfl, rfl, rfl, fun hb => by simp at hb, ?_⟩
      intro b hb hb2
      simp only [Option.some.injEq] at hb
      subst hb
      simp [hp] at hb2

/-- C10: a first call of `extractCVData` on a server whose `cvData` is `null`
returns and sets `cvData` to a profile stamped with the time of that call (the
fallback profile when reading or decoding failed); after it, any sequence of
later calls, whatever the file, the decoder and the clock answer at each of
them, returns the same server: `cvData` is the same profile and the counts of
file reads and of decodings have not moved.  More generally a call on any
server whose `cvData` is set changes nothing. -/
theorem C10_cache_is_sticky :
    (∀ (toLowerCase : Str → Str) (w : World) (reads decodes : Nat),
      ∃ st p, extractCVData toLowerCase w ⟨none, reads, decodes⟩ = some st ∧
        st.cvData = some p ∧ p.extractedAt = w.isoNow ∧
        (w.readFile = none → p = fallbackProfile w.isoNow) ∧
        (∀ buf, w.readFile = some buf → w.pdfParse buf = none →
          p = fallbackProfile w.isoNow) ∧
        ∀ ws : List World, extractCVDataCalls toLowerCase ws st = some st) ∧
    (∀ (toLowerCase : Str → Str) (w : World) (st : Server) (p : CVData),
      st.cvData = some p →
        extractCVData toLowerCase w st = some st ∧
        ∀ st2, extractCVData toLowerCase w st = some st2 →
          st2.cvData = some p ∧ st2.fileReads = st.fileReads ∧
            st2.pdfDecodes = st.pdfDecodes) := by
  refine ⟨?_, ?_⟩
  · intro lower w reads decodes
    obtain ⟨st, p, h1, h2, h3, h4, h5⟩ := extractCVData_first lower w reads decodes
    exact ⟨st, p, h1, h2, h3, h4, h5, extractCVDataCalls_cached lower st p h2⟩
  · intro lower w st p h
    have hc := extractCVData_cached lower w st p h
    refine ⟨hc, ?_⟩
    intro st2 h2
    rw [hc] at h2
    simp only [Option.some.injEq] at h2
    subst h2
    exact ⟨h, rfl, rfl⟩

/-- C10 after a first call that failed because the file is missing: the cached
value is the fallback profile, one file read is counted, and a later call made
when the file exists and decodes, at a later time, returns the same server. -/
theorem C10_cache_is_sticky_witness :
    ∃ st, extractCVData toLowerCaseLatin1
        ⟨none, fun _ => none, "2026-01-01T00:00:00.000Z".toList, 2026⟩ ⟨none, 0, 0⟩ = some st ∧
      st = ⟨some (fallbackProfile "2026-01-01T00:00:00.000Z".toList), 1, 0⟩ ∧
      extractCVData toLowerCaseLatin1
        ⟨some [37, 80, 68, 70], fun _ => some "Jane Doe".toList,
          "2027-02-02T00:00:00.000Z".toList, 2027⟩ st = some st :=
  ⟨⟨some (fallbackProfile "2026-01-01T00:00:00.000Z".toList), 1, 0⟩, rfl, rfl,
    (C10_cache_is_sticky.2 toLowerCaseLatin1
      ⟨some [37, 80, 68, 70], fun _ => some "Jane Doe".toList,
        "2027-02-02T00:00:00.000Z".toList, 2027⟩
      ⟨some (fallbackProfile "2026-01-01T00:00:00.000Z".toList), 1, 0⟩
      (fallbackProfile "2026-01-01T00:00:00.000Z".toList) rfl).1⟩

/-! ## C11 -/

theorem extractCVData_failure (toLowerCase : Str → Str) (w : World) (reads decodes : Nat)
    (hfail : w.readFile = none ∨ ∃ buf, w.readFile = some buf ∧ w.pdfParse buf = none) :
    ∃ st, extractCVData toLowerCase w ⟨none, reads, decodes⟩ = some st ∧
      st.cvData = some (fallbackProfile w.isoNow) := by
  rcases hfail with h | ⟨buf, h1, h2⟩
  · simp only [extractCVData, h]
    exact ⟨_, rfl, rfl⟩
  · simp only [extractCVData, h1, h2]
    exact ⟨_, rfl, rfl⟩

theorem extractCVData_sets (toLowerCase : Str → Str) (w : World) (st : Server) :
    ∃ st1 p, extractCVData toLowerCase w st = some st1 ∧ st1.cvData = some p := by
  cases hc : st.cvData with
  | some p => exact ⟨st, p, extractCVData_cached toLowerCase w st p hc, hc⟩
  | none =>
    obtain ⟨cv, reads, decodes⟩ := st
    simp only at hc
    subst hc
    obtain ⟨st1, p, h1, h2, _⟩ := extractCVData_first toLowerCase w reads decodes
    exact ⟨st1, p, h1, h2⟩

/-- C11: when reading the file fails, or decoding the buffer read fails, a
call of `extractCVData` on a server whose `cvData` is `null` returns and sets
`cvData` to the fallback profile, which is fixed but for `extractedAt`: its
five lists are empty, its two counts are 0, its two flags are false, and its
raw text, name, email, phone and personal section are non-empty placeholder
strings; and after any call of `extractCVData`, from any state and whatever
the environment answers, `cvData` is not `null`. -/
theorem C11_fallback_profile :
    (∀ (toLowerCase : Str → Str) (w : World) (reads decodes : Nat),
      (w.readFile = none ∨ ∃ buf, w.readFile = some buf ∧ w.pdfParse buf = none) →
      ∃ st, extractCVData toLowerCase w ⟨none, reads, decodes⟩ = some st ∧
        st.cvData = some (fallbackProfile w.isoNow)) ∧
    (∀ iso : Str,
      (fallbackProfile iso).technicalSkills.identifiedSkills = [] ∧
      (fallbackProfile iso).technicalSkills.technicalSections = [] ∧
      (fallbackProfile iso).experience.experiencePeriods = [] ∧
      (fallbackProfile iso).education.educationMentioned = [] ∧
      (fallbackProfile iso).projects.projectKeywordsFound = [] ∧
      (fallbackProfile iso).technicalSkills.skillsCount = 0 ∧
      (fallbackProfile iso).experience.experienceYears = 0 ∧
      (fallbackProfile iso).education.hasEducationSection = false ∧
      (fallbackProfile iso).projects.hasProjectsSection = false ∧
      (fallbackProfile iso).rawText = "CV non disponible - Erreur de lecture".toList ∧
      (fallbackProfile iso).personalInfo.name = "Non disponible".toList ∧
      (fallbackProfile iso).personalInfo.email = "Non disponible".toList ∧
      (fallbackProfile iso).personalInfo.phone = "Non disponible".toList ∧
      (fallbackProfile iso).personalInfo.rawPersonalSection = "Erreur de lecture du CV".toList ∧
      (fallbackProfile iso).rawText ≠ [] ∧
      (fallbackProfile iso).personalInfo.name ≠ [] ∧
      (fallbackProfile iso).personalInfo.email ≠ [] ∧
      (fallbackProfile iso).personalInfo.phone ≠ [] ∧
      (fallbackProfile iso).personalInfo.rawPersonalSection ≠ [] ∧
      (fallbackProfile iso).extractedAt = iso) ∧
    (∀ (toLowerCase : Str → Str) (w : World) (st : Server),
      ∃ st1 p, extractCVData toLowerCase w st = some st1 ∧ st1.cvData = some p) := by
  refine ⟨extractCVData_failure, ?_, extractCVData_sets⟩
  intro iso
  refine ⟨rfl, rfl, rfl, rfl, rfl, rfl, rfl, rfl, rfl, rfl, rfl, rfl, rfl, rfl, ?_, ?_, ?_, ?_,
    ?_, rfl⟩ <;> simp [fallbackProfile]

/-- C11 when the file is read but the decoder rejects it: the server holds the
fallback profile, one read and one decoding are counted. -/
theorem C11_fallback_profile_witness :
    ∃ st, extractCVData toLowerCaseLatin1
        ⟨some [37, 80, 68], fun _ => none, "2026-01-01T00:00:00.000Z".toList, 2026⟩
        ⟨none, 0, 0⟩ = some st ∧
      st.cvData = some (fallbackProfile "2026-01-01T00:00:00.000Z".toList) :=
  C11_fallback_profile.1 toLowerCaseLatin1
    ⟨some [37, 80, 68], fun _ => none, "2026-01-01T00:00:00.000Z".toList, 2026⟩ 0 0
    (Or.inr ⟨[37, 80, 68], rfl, rfl⟩)

/-! ## C12 -/

/-- The six branches of the `switch (name)` of `src/src/index.js` on a profile. -/
theorem promptBody_known (cv : CVData) (args : Args) :
    promptBody (some cv) "informations-personnelles".toList args = .ok (personalInfoText cv) ∧
    promptBody (some cv) "competences-techniques".toList args = .ok (skillsText cv) ∧
    promptBody (some cv) "experience-professionnelle".toList args = .ok (experienceText cv) ∧
    promptBody (some cv) "profil-complet".toList args = .ok (fullProfileText cv) ∧
    promptBody (some cv) "lettre-motivation".toList args =
      .ok (coverLetterText (orElse (argOf args "poste".toList) "Non spécifié".toList)
        (orElse (argOf args "entreprise".toList) "Non spécifiée".toList) cv) ∧
    promptBody (some cv) "analyse-compatibilite".toList args =
      .ok (compatibilityText
        (orElse (argOf args "offre".toList) "Aucune offre fournie".toList) cv) :=
  ⟨rfl, rfl, rfl, rfl, rfl, rfl⟩

theorem promptBody_listed (cv : CVData) (name : Str) (args : Args)
    (h : name ∈ listPrompts.map (fun d => d.name)) :
    ∃ text, promptBody (some cv) name args = .ok text := by
  obtain ⟨h1, h2, h3, h4, h5, h6⟩ := promptBody_known cv args
  simp only [listPrompts, List.map_cons, List.map_nil, List.mem_cons, List.mem_singleton,
    List.not_mem_nil, or_false] at h
  rcases h with h | h | h | h | h | h <;> subst h
  · exact ⟨_, h1⟩
  · exact ⟨_, h2⟩
  · exact ⟨_, h3⟩
  · exact ⟨_, h4⟩
  · exact ⟨_, h5⟩
  · exact ⟨_, h6⟩

theorem resourceBody_known (cv : CVData) :
    resourceBody (some cv) "cv://raw-text".toList =
      .ok { uri := "cv://raw-text".toList, mimeType := "text/plain".toList, text := cv.rawText } ∧
    resourceBody (some cv) "cv://structured-data".toList =
      .ok { uri := "cv://structured-data".toList, mimeType := "application/json".toList,
            text := cvDataJSON cv } :=
  ⟨rfl, rfl⟩

theorem ensureExtracted_failure (toLowerCase : Str → Str) (w : World) (reads decodes : Nat)
    (hfail : w.readFile = none ∨ ∃ buf, w.readFile = some buf ∧ w.pdfParse buf = none) :
    ∃ st, ensureExtracted toLowerCase w ⟨none, reads, decodes⟩ = some st ∧
      st.cvData = some (fallbackProfile w.isoNow) := by
  simpa only [ensureExtracted] using extractCVData_failure toLowerCase w reads decodes hfail

/-- C12: when reading or decoding fails during the extraction a handler
triggers, the GetPrompt handler, for each of the six listed names and any
arguments (absent included), returns one `user` text message whose text is the
`try` block's result on the fallback profile (the `catch` branch is not taken
and nothing is thrown), and the ReadResource handler, for each of the two
listed uris, returns the one content item the `try` block builds from the
fallback profile.  The six texts are the templates filled with the fields of
the fallback profile, all of which are strings, numbers or lists. -/
theorem C12_handlers_after_failure (toLowerCase : Str → Str) (w : World) (reads decodes : Nat)
    (hfail : w.readFile = none ∨ ∃ buf, w.readFile = some buf ∧ w.pdfParse buf = none) :
    (∀ name ∈ listPrompts.map (fun d => d.name), ∀ args : Args, ∃ st text,
      getPromptHandler toLowerCase w ⟨none, reads, decodes⟩ name args =
        some (st, .ok { messages :=
          [{ role := "user".toList, contentType := "text".toList, text := text }] }) ∧
      st.cvData = some (fallbackProfile w.isoNow) ∧
      promptBody (some (fallbackProfile w.isoNow)) name args = .ok text) ∧
    (∀ uri ∈ listResources.map (fun d => d.uri), ∃ st item,
      readResourceHandler toLowerCase w ⟨none, reads, decodes⟩ uri =
        some (st, .ok { contents := [item] }) ∧
      st.cvData = some (fallbackProfile w.isoNow) ∧
      resourceBody (some (fallbackProfile w.isoNow)) uri = .ok item) ∧
    (∀ args : Args,
      promptBody (some (fallbackProfile w.isoNow)) "informations-personnelles".toList args =
        .ok (personalInfoText (fallbackProfile w.isoNow)) ∧
      promptBody (some (fallbackProfile w.isoNow)) "competences-techniques".toList args =
        .ok (skillsText (fallbackProfile w.isoNow)) ∧
      promptBody (some (fallbackProfile w.isoNow)) "experience-professionnelle".toList args =
        .ok (experienceText (fallbackProfile w.isoNow)) ∧
      promptBody (some (fallbackProfile w.isoNow)) "profil-complet".toList args =
        .ok (fullProfileText (fallbackProfile w.isoNow)) ∧
      promptBody (some (fallbackProfile w.isoNow)) "lettre-motivation".toList args =
        .ok (coverLetterText (orElse (argOf args "poste".toList) "Non spécifié".toList)
          (orElse (argOf args "entreprise".toList) "Non spécifiée".toList)
          (fallbackProfile w.isoNow)) ∧
      promptBody (some (fallbackProfile w.isoNow)) "analyse-compatibilite".toList args =
        .ok (compatibilityText
          (orElse (argOf args "offre".toList) "Aucune offre fournie".toList)
          (fallbackProfile w.isoNow))) ∧
    resourceBody (some (fallbackProfile w.isoNow)) "cv://raw-text".toList =
      .ok { uri := "cv://raw-text".toList, mimeType := "text/plain".toList,
            text := "CV non disponible - Erreur de lecture".toList } ∧
    resourceBody (some (fallbackProfile w.isoNow)) "cv://structured-data".toList =
      .ok { uri := "cv://structured-data".toList, mimeType := "application/json".toList,
            text := cvDataJSON (fallbackProfile w.isoNow) } := by
  obtain ⟨st, hst, hcv⟩ := ensureExtracted_failure toLowerCase w reads decodes hfail
  refine ⟨?_, ?_, fun args => promptBody_known _ args, rfl, rfl⟩
  · intro name hname args
    obtain ⟨text, ht⟩ := promptBody_listed (fallbackProfile w.isoNow) name args hname
    refine ⟨st, text, ?_, hcv, ht⟩
    simp only [getPromptHandler, hst, getPromptResponse, hcv, ht]
  · intro uri huri
    simp only [listResources, List.map_cons, List.map_nil, List.mem_cons, List.mem_singleton,
      List.not_mem_nil, or_false] at huri
    obtain ⟨r1, r2⟩ := resourceBody_known (fallbackProfile w.isoNow)
    rcases huri with h | h <;> subst h
    · exact ⟨st, _, by simp only [readResourceHandler, hst, readResourceResponse, hcv, r1],
        hcv, r1⟩
    · exact ⟨st, _, by simp only [readResourceHandler, hst, readResourceResponse, hcv, r2],
        hcv, r2⟩

set_option maxRecDepth 100000 in
/-- C12 when the file is missing and the first request is for `profil-complet`
without arguments: the handler returns the template filled from the fallback
profile, whose text is given in full. -/
theorem C12_handlers_after_failure_witness :
    (∃ st text,
      getPromptHandler toLowerCaseLatin1
          ⟨none, fun _ => none, "2026-01-01T00:00:00.000Z".toList, 2026⟩ ⟨none, 0, 0⟩
          "profil-complet".toList none =
        some (st, .ok { messages :=
          [{ role := "user".toList, contentType := "text".toList, text := text }] }) ∧
      st.cvData = some (fallbackProfile "2026-01-01T00:00:00.000Z".toList) ∧
      promptBody (some (fallbackProfile "2026-01-01T00:00:00.000Z".toList))
        "profil-complet".toList none = .ok text) ∧
    fullProfileText (fallbackProfile "2026-01-01T00:00:00.000Z".toList) =
      ("Voici toutes les données extraites du CV pour générer un profil complet :\n".toList ++
        "\n**INFORMATIONS PERSONNELLES :**\n\x7b\n  \"name\": \"Non disponible\",\n".toList ++
        "  \"email\": \"Non disponible\",\n  \"phone\": \"Non disponible\",\n".toList ++
        "  \"rawPersonalSection\": \"Erreur de lecture du CV\"\n\x7d\n\n".toList ++
        "**COMPÉTENCES TECHNIQUES :**\n\x7b\n  \"identifiedSkills\": [],\n".toList ++
        "  \"technicalSections\": [],\n  \"skillsCount\": 0\n\x7d\n\n**EXPÉRIENCE :**\n\x7b\n".toList ++
        "  \"experiencePeriods\": [],\n  \"experienceYears\": 0\n\x7d\n\n**FORMATION :**\n".toList ++
        "\x7b\n  \"hasEducationSection\": false,\n  \"educationMentioned\": []\n\x7d\n\n".toList ++
        "Peux-tu créer un résumé professionnel complet et attractif basé sur ces données ?".toList) :=
  ⟨(C12_handlers_after_failure toLowerCaseLatin1
      ⟨none, fun _ => none, "2026-01-01T00:00:00.000Z".toList, 2026⟩ 0 0 (Or.inl rfl)).1
      "profil-complet".toList (by decide) none, rfl⟩

/-! ## C13 -/

/-- In `src/mcp_cv_server.js`, after an extraction that failed `this.cvData`
is still `null`: whatever the prompt name and the arguments, the GetPrompt
handler throws, and so does the ReadResource handler on `cv://raw-text`; on
`cv://structured-data` it returns the text `null`. -/
theorem standalone_after_failure (toLowerCase : Str → Str) (w : World) (reads decodes : Nat)
    (hfail : w.readFile = none ∨ ∃ buf, w.readFile = some buf ∧ w.pdfParse buf = none) :
    ∃ st, Standalone.ensureExtracted toLowerCase w ⟨none, reads, decodes⟩ = some st ∧
      st.cvData = none ∧
      (∀ (name : Str) (args : Args), ∃ e,
        Standalone.getPromptHandler toLowerCase w ⟨none, reads, decodes⟩ name args =
          some (st, .error e)) ∧
      (∃ e, Standalone.readResourceHandler toLowerCase w ⟨none, reads, decodes⟩
          "cv://raw-text".toList = some (st, .error e)) ∧
      Standalone.readResourceHandler toLowerCase w ⟨none, reads, decodes⟩
          "cv://structured-data".toList =
        some (st, .ok { contents := [{ uri := "cv://structured-data".toList,
                                       mimeType := "application/json".toList,
                                       text := "null".toList }] }) := by
  have hens : ∃ st, Standalone.ensureExtracted toLowerCase w ⟨none, reads, decodes⟩ = some st ∧
      st.cvData = none := by
    rcases hfail with h | ⟨buf, h1, h2⟩
    · simp only [Standalone.ensureExtracted, Standalone.extractCVData, h]
      exact ⟨_, rfl, rfl⟩
    · simp only [Standalone.ensureExtracted, Standalone.extractCVData, h1, h2]
      exact ⟨_, rfl, rfl⟩
  obtain ⟨st, hst, hcv⟩ := hens
  refine ⟨st, hst, hcv, ?_, ?_, ?_⟩
  · intro name args
    have hb : ∃ e, Standalone.promptBody none name args = .error e := by
      unfold Standalone.promptBody
      split
      · exact ⟨_, rfl⟩
      · split
        · exact ⟨_, rfl⟩
        · split
          · exact ⟨_, rfl⟩
          · split
            · exact ⟨_, rfl⟩
            · split
              · cases args <;> exact ⟨_, rfl⟩
              · split
                · cases args <;> exact ⟨_, rfl⟩
                · exact ⟨_, rfl⟩
    obtain ⟨e, he⟩ := hb
    exact ⟨e, by simp only [Standalone.getPromptHandler, hst, hcv, he]⟩
  · exact ⟨nullRead "rawText", by
      simp only [Standalone.readResourceHandler, hst, hcv]
      rfl⟩
  · simp only [Standalone.readResourceHandler, hst, hcv]
    rfl

/-- C13 at a missing file, in `src/mcp_cv_server.js`: the extraction leaves
`cvData` at `null`, and the GetPrompt handler throws a `TypeError` for each of
the six prompt names, as does the ReadResource handler for `cv://raw-text`; for
`cv://structured-data` the handler returns the text `null`.  No handler
returns a result rendered from an empty profile. -/
theorem C13_standalone_failure_propagates :
    (∀ name ∈ listPrompts.map (fun d => d.name), ∃ m,
      Standalone.getPromptHandler toLowerCaseLatin1
          ⟨none, fun _ => none, "2026-01-01T00:00:00.000Z".toList, 2026⟩ ⟨none, 0, 0⟩ name
          (some [("poste".toList, "Dev".toList), ("entreprise".toList, "ACME".toList),
            ("offre".toList, "Dev".toList)]) =
        some (⟨none, 1, 0⟩, .error (.typeError m))) ∧
    Standalone.getPromptHandler toLowerCaseLatin1
        ⟨none, fun _ => none, "2026-01-01T00:00:00.000Z".toList, 2026⟩ ⟨none, 0, 0⟩
        "informations-personnelles".toList none =
      some (⟨none, 1, 0⟩, .error (.typeError
        "Cannot read properties of null (reading 'personalInfo')".toList)) ∧
    Standalone.readResourceHandler toLowerCaseLatin1
        ⟨none, fun _ => none, "2026-01-01T00:00:00.000Z".toList, 2026⟩ ⟨none, 0, 0⟩
        "cv://raw-text".toList =
      some (⟨none, 1, 0⟩, .error (.typeError
        "Cannot read properties of null (reading 'rawText')".toList)) ∧
    Standalone.readResourceHandler toLowerCaseLatin1
        ⟨none, fun _ => none, "2026-01-01T00:00:00.000Z".toList, 2026⟩ ⟨none, 0, 0⟩
        "cv://structured-data".toList =
      some (⟨none, 1, 0⟩, .ok { contents := [{ uri := "cv://structured-data".toList,
                                               mimeType := "application/json".toList,
                                               text := "null".toList }] }) := by
  refine ⟨?_, rfl, rfl, rfl⟩
  intro name hname
  simp only [listPrompts, List.map_cons, List.map_nil, List.mem_cons, List.mem_singleton,
    List.not_mem_nil, or_false] at hname
  rcases hname with h | h | h | h | h | h <;> subst h <;> exact ⟨_, rfl⟩

/-! ## C14 -/

theorem orElse_cases (x : Option Str) (d : Str) :
    ((x = none ∨ x = some []) → orElse x d = d) ∧
    (∀ v, x = some v → v ≠ [] → orElse x d = v) := by
  constructor
  · rintro (h | h) <;> subst h <;> rfl
  · intro v h hv
    subst h
    cases v with
    | nil => exact absurd rfl hv
    | cons _ _ => rfl

theorem argOf_missing (args : Args) (k : Str)
    (h : args = none ∨
      ∃ kvs, args = some kvs ∧ (kvs.lookup k = none ∨ kvs.lookup k = some [])) :
    argOf args k = none ∨ argOf args k = some [] := by
  rcases h with h | ⟨kvs, h, hk⟩
  · subst h
    exact Or.inl rfl
  · subst h
    exact hk

theorem argOf_supplied (args : Args) (kvs : List (Str × Str)) (k v : Str)
    (h : args = some kvs) (hk : kvs.lookup k = some v) : argOf args k = some v := by
  subst h
  exact hk

/-- C14: for every profile held by the server and every argument set (absent,
empty, or lacking a key), the GetPrompt handler of `src/src/index.js` for
`lettre-motivation` returns, without throwing, one `user` text message whose
text holds the lines `**Poste visé :** r` and `**Entreprise :** c`, where `r`
is `Non spécifié` when the arguments are absent or `poste` is missing or empty
and the value of `poste` in the arguments otherwise, and `c` is `Non spécifiée`
when the arguments are absent or `entreprise` is missing or empty and the value
of `entreprise` otherwise; for `analyse-compatibilite` the text holds the line
`Aucune offre fournie` under the offer heading when the arguments are absent or
`offre` is missing or empty, and the value of `offre` otherwise.  In
particular, with the arguments `poste` and `entreprise` supplied and non-empty
the text is the template with the two values in place, with `poste` alone the
company is the placeholder, and with `offre` supplied and non-empty the text
is the template with the offer in place. -/
theorem C14_missing_arguments (toLowerCase : Str → Str) (w : World) (reads decodes : Nat)
    (cv : CVData) :
    (∀ args : Args, ∃ r c post,
      getPromptHandler toLowerCase w ⟨some cv, reads, decodes⟩ "lettre-motivation".toList args =
        some (⟨some cv, reads, decodes⟩, .ok { messages :=
          [{ role := "user".toList, contentType := "text".toList
             text := "Génère une lettre de motivation personnalisée avec ces informations :\n\n".toList
               ++ "**Poste visé :** ".toList ++ r ++ "\n**Entreprise :** ".toList ++ c
               ++ '\n' :: post }] }) ∧
      ((args = none ∨ ∃ kvs, args = some kvs ∧
          (kvs.lookup "poste".toList = none ∨ kvs.lookup "poste".toList = some [])) →
        r = "Non spécifié".toList) ∧
      (∀ kvs v, args = some kvs → kvs.lookup "poste".toList = some v → v ≠ [] → r = v) ∧
      ((args = none ∨ ∃ kvs, args = some kvs ∧
          (kvs.lookup "entreprise".toList = none ∨ kvs.lookup "entreprise".toList = some [])) →
        c = "Non spécifiée".toList) ∧
      (∀ kvs v, args = some kvs → kvs.lookup "entreprise".toList = some v → v ≠ [] → c = v)) ∧
    (∀ args : Args, ∃ o post,
      getPromptHandler toLowerCase w ⟨some cv, reads, decodes⟩ "analyse-compatibilite".toList
          args =
        some (⟨some cv, reads, decodes⟩, .ok { messages :=
          [{ role := "user".toList, contentType := "text".toList
             text := "Analyse la compatibilité entre ce profil et cette offre d'emploi :\n\n".toList
               ++ "**OFFRE D'EMPLOI :**\n".toList ++ o ++ '\n' :: post }] }) ∧
      ((args = none ∨ ∃ kvs, args = some kvs ∧
          (kvs.lookup "offre".toList = none ∨ kvs.lookup "offre".toList = some [])) →
        o = "Aucune offre fournie".toList) ∧
      (∀ kvs v, args = some kvs → kvs.lookup "offre".toList = some v → v ≠ [] → o = v)) ∧
    (∀ poste entreprise : Str, poste ≠ [] → entreprise ≠ [] →
      getPromptHandler toLowerCase w ⟨some cv, reads, decodes⟩ "lettre-motivation".toList
          (some [("poste".toList, poste), ("entreprise".toList, entreprise)]) =
        some (⟨some cv, reads, decodes⟩, .ok { messages :=
          [{ role := "user".toList, contentType := "text".toList
             text := "Génère une lettre de motivation personnalisée avec ces informations :\n\n".toList
               ++ "**Poste visé :** ".toList ++ poste ++ "\n**Entreprise :** ".toList
               ++ entreprise ++ "\n\n**Profil du candidat :**\n- Nom : ".toList
               ++ cv.personalInfo.name ++ "\n- Compétences : ".toList
               ++ join ", ".toList cv.technicalSkills.identifiedSkills
               ++ "\n- Expérience : ".toList ++ (toString cv.experience.experienceYears).toList
               ++ " ans\n\n".toList
               ++ "Crée une lettre de motivation convaincante et personnalisée.".toList }] })) ∧
    (∀ poste : Str, poste ≠ [] →
      getPromptHandler toLowerCase w ⟨some cv, reads, decodes⟩ "lettre-motivation".toList
          (some [("poste".toList, poste)]) =
        some (⟨some cv, reads, decodes⟩, .ok { messages :=
          [{ role := "user".toList, contentType := "text".toList
             text := "Génère une lettre de motivation personnalisée avec ces informations :\n\n".toList
               ++ "**Poste visé :** ".toList ++ poste
               ++ "\n**Entreprise :** Non spécifiée".toList
               ++ "\n\n**Profil du candidat :**\n- Nom : ".toList
               ++ cv.personalInfo.name ++ "\n- Compétences : ".toList
               ++ join ", ".toList cv.technicalSkills.identifiedSkills
               ++ "\n- Expérience : ".toList ++ (toString cv.experience.experienceYears).toList
               ++ " ans\n\n".toList
               ++ "Crée une lettre de motivation convaincante et personnalisée.".toList }] })) ∧
    (∀ offre : Str, offre ≠ [] →
      getPromptHandler toLowerCase w ⟨some cv, reads, decodes⟩ "analyse-compatibilite".toList
          (some [("offre".toList, offre)]) =
        some (⟨some cv, reads, decodes⟩, .ok { messages :=
          [{ role := "user".toList, contentType := "text".toList
             text := "Analyse la compatibilité entre ce profil et cette offre d'emploi :\n\n".toList
               ++ "**OFFRE D'EMPLOI :**\n".toList ++ offre
               ++ "\n\n**PROFIL CANDIDAT :**\n- Compétences : ".toList
               ++ join ", ".toList cv.technicalSkills.identifiedSkills
               ++ "\n- Expérience : ".toList ++ (toString cv.experience.experienceYears).toList
               ++ " ans\n- Formation : ".toList
               ++ join ", ".toList cv.education.educationMentioned ++ "\n\n".toList
               ++ "Fournis une analyse détaillée de compatibilité avec un score et des recommandations.".toList }] })) := by
  refine ⟨?_, ?_, ?_, ?_, ?_⟩
  · intro args
    obtain ⟨_, _, _, _, h5, _⟩ := promptBody_known cv args
    refine ⟨orElse (argOf args "poste".toList) "Non spécifié".toList,
      orElse (argOf args "entreprise".toList) "Non spécifiée".toList,
      "\n**Profil du candidat :**\n- Nom : ".toList ++ cv.personalInfo.name ++
        "\n- Compétences : ".toList ++ join ", ".toList cv.technicalSkills.identifiedSkills ++
        "\n- Expérience : ".toList ++ (toString cv.experience.experienceYears).toList ++
        " ans\n\n".toList ++ "Crée une lettre de motivation convaincante et personnalisée.".toList,
      ?_, ?_, ?_, ?_, ?_⟩
    · simp only [getPromptHandler, ensureExtracted, getPromptResponse, h5, coverLetterText,
        List.append_assoc]
      rfl
    · exact fun h => (orElse_cases _ _).1 (argOf_missing args _ h)
    · exact fun kvs v h hk hv => (orElse_cases _ _).2 v (argOf_supplied args kvs _ v h hk) hv
    · exact fun h => (orElse_cases _ _).1 (argOf_missing args _ h)
    · exact fun kvs v h hk hv => (orElse_cases _ _).2 v (argOf_supplied args kvs _ v h hk) hv
  · intro args
    obtain ⟨_, _, _, _, _, h6⟩ := promptBody_known cv args
    refine ⟨orElse (argOf args "offre".toList) "Aucune offre fournie".toList,
      "\n**PROFIL CANDIDAT :**\n- Compétences : ".toList ++
        join ", ".toList cv.technicalSkills.identifiedSkills ++ "\n- Expérience : ".toList ++
        (toString cv.experience.experienceYears).toList ++ " ans\n- Formation : ".toList ++
        join ", ".toList cv.education.educationMentioned ++ "\n\n".toList ++
        "Fournis une analyse détaillée de compatibilité avec un score et des recommandations.".toList,
      ?_, ?_, ?_⟩
    · simp only [getPromptHandler, ensureExtracted, getPromptResponse, h6, compatibilityText,
        List.append_assoc]
      rfl
    · exact fun h => (orElse_cases _ _).1 (argOf_missing args _ h)
    · exact fun kvs v h hk hv => (orElse_cases _ _).2 v (argOf_supplied args kvs _ v h hk) hv
  · intro poste entreprise hp he
    obtain ⟨p0, ps, rfl⟩ := List.exists_cons_of_ne_nil hp
    obtain ⟨e0, es, rfl⟩ := List.exists_cons_of_ne_nil he
    simp only [getPromptHandler, ensureExtracted, getPromptResponse, promptBody, onProfile,
      coverLetterText, List.append_assoc]
    rfl
  · intro poste hp
    obtain ⟨p0, ps, rfl⟩ := List.exists_cons_of_ne_nil hp
    simp only [getPromptHandler, ensureExtracted, getPromptResponse, promptBody, onProfile,
      coverLetterText, List.append_assoc]
    rfl
  · intro offre ho
    obtain ⟨o0, os, rfl⟩ := List.exists_cons_of_ne_nil ho
    simp only [getPromptHandler, ensureExtracted, getPromptResponse, promptBody, onProfile,
      compatibilityText, List.append_assoc]
    rfl

set_option maxRecDepth 100000 in
/-- C14 on a server that holds the profile of Jane Doe, with the skill `Go` and
4 years: `getPrompt` for `lettre-motivation` with the arguments `poste`
"Développeur" and `entreprise` "ACME" renders both values, and with the empty
argument set it renders the two placeholders. -/
theorem C14_missing_arguments_witness :
    "Développeur".toList ≠ [] ∧ "ACME".toList ≠ [] ∧
    getPromptHandler toLowerCaseLatin1
        ⟨none, fun _ => none, "2026-01-01T00:00:00.000Z".toList, 2026⟩
        ⟨some exampleProfile, 1, 1⟩ "lettre-motivation".toList
        (some [("poste".toList, "Développeur".toList), ("entreprise".toList, "ACME".toList)]) =
      some (⟨some exampleProfile, 1, 1⟩, .ok { messages :=
        [{ role := "user".toList, contentType := "text".toList
           text := "Génère une lettre de motivation personnalisée avec ces informations :\n\n**Poste visé :** Développeur\n**Entreprise :** ACME\n\n**Profil du candidat :**\n- Nom : Jane Doe\n- Compétences : Go\n- Expérience : 4 ans\n\nCrée une lettre de motivation convaincante et personnalisée.".toList }] }) ∧
    ∃ post,
      getPromptHandler toLowerCaseLatin1
          ⟨none, fun _ => none, "2026-01-01T00:00:00.000Z".toList, 2026⟩
          ⟨some exampleProfile, 1, 1⟩ "lettre-motivation".toList (some []) =
        some (⟨some exampleProfile, 1, 1⟩, .ok { messages :=
          [{ role := "user".toList, contentType := "text".toList
             text := "Génère une lettre de motivation personnalisée avec ces informations :\n\n".toList
               ++ "**Poste visé :** Non spécifié\n**Entreprise :** Non spécifiée\n".toList
               ++ post }] }) := by
  have hthm := C14_missing_arguments toLowerCaseLatin1
    ⟨none, fun _ => none, "2026-01-01T00:00:00.000Z".toList, 2026⟩ 1 1 exampleProfile
  refine ⟨by decide, by decide, ?_, ?_⟩
  · rw [hthm.2.2.1 "Développeur".toList "ACME".toList (by decide) (by decide)]
    rfl
  · obtain ⟨r, c, post, h, hr, _, hc, _⟩ := hthm.1 (some [])
    have h1 := hr (Or.inr ⟨[], rfl, Or.inl rfl⟩)
    have h2 := hc (Or.inr ⟨[], rfl, Or.inl rfl⟩)
    subst h1 h2
    refine ⟨post, ?_⟩
    rw [h]
    simp only [List.append_assoc]
    rfl

/-! ## C15 -/

theorem promptBody_unknown (cvData : Option CVData) (name : Str) (args : Args)
    (h : name ∉ listPrompts.map (fun d => d.name)) :
    promptBody cvData name args = .error (.error ("Prompt inconnu: ".toList ++ name)) := by
  simp only [listPrompts, List.map_cons, List.map_nil, List.mem_cons, List.mem_singleton,
    List.not_mem_nil, or_false, not_or] at h
  obtain ⟨h1, h2, h3, h4, h5, h6⟩ := h
  simp only [promptBody, if_neg h1, if_neg h2, if_neg h3, if_neg h4, if_neg h5, if_neg h6]

theorem resourceBody_unknown (cvData : Option CVData) (uri : Str)
    (h : uri ∉ listResources.map (fun d => d.uri)) :
    resourceBody cvData uri = .error (.error ("Ressource inconnue: ".toList ++ uri)) := by
  simp only [listResources, List.map_cons, List.map_nil, List.mem_cons, List.mem_singleton,
    List.not_mem_nil, or_false, not_or] at h
  obtain ⟨h1, h2⟩ := h
  simp only [resourceBody, if_neg h1, if_neg h2]

theorem ensureExtracted_sets (toLowerCase : Str → Str) (w : World) (st : Server) :
    ∃ st1 p, ensureExtracted toLowerCase w st = some st1 ∧ st1.cvData = some p := by
  cases hc : st.cvData with
  | some p => exact ⟨st, p, by simp only [ensureExtracted, hc], hc⟩
  | none =>
    obtain ⟨st1, p, h1, h2⟩ := extractCVData_sets toLowerCase w st
    exact ⟨st1, p, by simp only [ensureExtracted, hc, h1], h2⟩

/-- C15, the claim refuted: on a server that holds a profile,
`getPrompt("unknown-id", {})` does not throw; it returns a result of the
normal shape, one `user` text message, whose text is the error text, and
`readResource("cv://unknown")` returns one `text/plain` content item whose
text is the error text. -/
theorem C15_unknown_is_rendered_counterexample :
    getPromptHandler toLowerCaseLatin1
        ⟨none, fun _ => none, "2026-01-01T00:00:00.000Z".toList, 2026⟩
        ⟨some (fallbackProfile "2026-01-01T00:00:00.000Z".toList), 1, 0⟩
        "unknown-id".toList (some []) =
      some (⟨some (fallbackProfile "2026-01-01T00:00:00.000Z".toList), 1, 0⟩, .ok { messages :=
        [{ role := "user".toList, contentType := "text".toList
           text := "Erreur lors du traitement du prompt \"unknown-id\": Prompt inconnu: unknown-id".toList }] }) ∧
    readResourceHandler toLowerCaseLatin1
        ⟨none, fun _ => none, "2026-01-01T00:00:00.000Z".toList, 2026⟩
        ⟨some (fallbackProfile "2026-01-01T00:00:00.000Z".toList), 1, 0⟩
        "cv://unknown".toList =
      some (⟨some (fallbackProfile "2026-01-01T00:00:00.000Z".toList), 1, 0⟩, .ok { contents :=
        [{ uri := "cv://unknown".toList, mimeType := "text/plain".toList
           text := "Erreur: Ressource inconnue: cv://unknown".toList }] }) ∧
    ¬ ∃ e st,
      getPromptHandler toLowerCaseLatin1
          ⟨none, fun _ => none, "2026-01-01T00:00:00.000Z".toList, 2026⟩
          ⟨some (fallbackProfile "2026-01-01T00:00:00.000Z".toList), 1, 0⟩
          "unknown-id".toList (some []) = some (st, .error e) := by
  refine ⟨rfl, rfl, ?_⟩
  rintro ⟨e, st, h⟩
  have h0 : getPromptHandler toLowerCaseLatin1
      ⟨none, fun _ => none, "2026-01-01T00:00:00.000Z".toList, 2026⟩
      ⟨some (fallbackProfile "2026-01-01T00:00:00.000Z".toList), 1, 0⟩
      "unknown-id".toList (some []) =
    some (⟨some (fallbackProfile "2026-01-01T00:00:00.000Z".toList), 1, 0⟩, .ok { messages :=
      [{ role := "user".toList, contentType := "text".toList
         text := "Erreur lors du traitement du prompt \"unknown-id\": Prompt inconnu: unknown-id".toList }] }) :=
    rfl
  rw [h0] at h
  simp at h

/-- C15 as amended: in `src/src/index.js`, for every prompt name outside the
six listed names the GetPrompt handler returns, from any state and for any
arguments, a result of the normal shape, one `user` text message whose text is
`Erreur lors du traitement du prompt "<name>": Prompt inconnu: <name>`; for
every uri outside the two listed uris the ReadResource handler returns one
content item that echoes the uri, has mimeType `text/plain` and the text
`Erreur: Ressource inconnue: <uri>`.  Neither handler throws. -/
theorem C15_unknown_is_rendered :
    (∀ (toLowerCase : Str → Str) (w : World) (st : Server) (name : Str) (args : Args),
      name ∉ listPrompts.map (fun d => d.name) →
      ∃ st1, getPromptHandler toLowerCase w st name args =
        some (st1, .ok { messages :=
          [{ role := "user".toList, contentType := "text".toList
             text := "Erreur lors du traitement du prompt \"".toList ++ name ++ "\": ".toList ++
               ("Prompt inconnu: ".toList ++ name) }] })) ∧
    (∀ (toLowerCase : Str → Str) (w : World) (st : Server) (uri : Str),
      uri ∉ listResources.map (fun d => d.uri) →
      ∃ st1, readResourceHandler toLowerCase w st uri =
        some (st1, .ok { contents :=
          [{ uri := uri, mimeType := "text/plain".toList
             text := "Erreur: ".toList ++ ("Ressource inconnue: ".toList ++ uri) }] })) := by
  constructor
  · intro lower w st name args h
    obtain ⟨st1, p, h1, _⟩ := ensureExtracted_sets lower w st
    exact ⟨st1, by
      simp only [getPromptHandler, h1, getPromptResponse, promptBody_unknown _ name args h,
        promptErrorText, Thrown.message]⟩
  · intro lower w st uri h
    obtain ⟨st1, p, h1, _⟩ := ensureExtracted_sets lower w st
    exact ⟨st1, by
      simp only [readResourceHandler, h1, readResourceResponse, resourceBody_unknown _ uri h,
        resourceErrorText, Thrown.message]⟩

/-- C15 as amended, at the prompt name `resume` and the uri `cv://photo` on a
server that has not extracted yet and whose file is missing. -/
theorem C15_unknown_is_rendered_witness :
    (∃ st1, getPromptHandler toLowerCaseLatin1
        ⟨none, fun _ => none, "2026-01-01T00:00:00.000Z".toList, 2026⟩ ⟨none, 0, 0⟩
        "resume".toList none =
      some (st1, .ok { messages :=
        [{ role := "user".toList, contentType := "text".toList
           text := "Erreur lors du traitement du prompt \"".toList ++ "resume".toList ++
             "\": ".toList ++ ("Prompt inconnu: ".toList ++ "resume".toList) }] })) ∧
    (∃ st1, readResourceHandler toLowerCaseLatin1
        ⟨none, fun _ => none, "2026-01-01T00:00:00.000Z".toList, 2026⟩ ⟨none, 0, 0⟩
        "cv://photo".toList =
      some (st1, .ok { contents :=
        [{ uri := "cv://photo".toList, mimeType := "text/plain".toList
           text := "Erreur: ".toList ++ ("Ressource inconnue: ".toList ++ "cv://photo".toList) }] })) :=
  ⟨C15_unknown_is_rendered.1 toLowerCaseLatin1
      ⟨none, fun _ => none, "2026-01-01T00:00:00.000Z".toList, 2026⟩ ⟨none, 0, 0⟩
      "resume".toList none (by decide),
   C15_unknown_is_rendered.2 toLowerCaseLatin1
      ⟨none, fun _ => none, "2026-01-01T00:00:00.000Z".toList, 2026⟩ ⟨none, 0, 0⟩
      "cv://photo".toList (by decide)⟩

/-! ## C16 -/

/-- C16: the ListPrompts handler returns (from any state) the list of six
descriptors, whose names are pairwise distinct; the four profile prompts
declare no arguments, `lettre-motivation` declares the two required arguments
`poste` and `entreprise`, `analyse-compatibilite` the one required argument
`offre`; for every name, every profile and every arguments, the name is in the
list exactly when the `switch` of the GetPrompt handler returns a text, and it
is outside the list exactly when the `switch` throws `Prompt inconnu`; the
names requested by `runTests` of the client are all in the list. -/
theorem C16_prompt_catalogue :
    (∀ (toLowerCase : Str → Str) (w : World) (st : Server),
      ∃ st1, listPromptsHandler toLowerCase w st = some (st1, listPrompts)) ∧
    listPrompts.length = 6 ∧
    listPrompts.map (fun d => d.name) =
      ["informations-personnelles".toList, "competences-techniques".toList,
       "experience-professionnelle".toList, "profil-complet".toList,
       "lettre-motivation".toList, "analyse-compatibilite".toList] ∧
    (listPrompts.map (fun d => d.name)).Nodup ∧
    listPrompts.map (fun d => d.arguments.map (fun a => (a.name, a.required))) =
      [[], [], [], [], [("poste".toList, true), ("entreprise".toList, true)],
       [("offre".toList, true)]] ∧
    (∀ (name : Str) (cv : CVData) (args : Args),
      (name ∈ listPrompts.map (fun d => d.name) ↔
        ∃ text, promptBody (some cv) name args = .ok text) ∧
      (name ∉ listPrompts.map (fun d => d.name) ↔
        promptBody (some cv) name args = .error (.error ("Prompt inconnu: ".toList ++ name)))) ∧
    (∀ name ∈ runTestsPrompts, name ∈ listPrompts.map (fun d => d.name)) := by
  refine ⟨?_, rfl, rfl, by decide, rfl, ?_, by decide⟩
  · intro lower w st
    obtain ⟨st1, p, h1, _⟩ := ensureExtracted_sets lower w st
    exact ⟨st1, by simp only [listPromptsHandler, h1]⟩
  · intro name cv args
    by_cases h : name ∈ listPrompts.map (fun d => d.name)
    · obtain ⟨text, ht⟩ := promptBody_listed cv name args h
      refine ⟨⟨fun _ => ⟨text, ht⟩, fun _ => h⟩, ⟨fun hn => absurd h hn, fun he => ?_⟩⟩
      rw [ht] at he
      cases he
    · have hu := promptBody_unknown (some cv) name args h
      refine ⟨⟨fun hn => absurd hn h, fun he => ?_⟩, ⟨fun _ => hu, fun _ => h⟩⟩
      obtain ⟨text, ht⟩ := he
      rw [hu] at ht
      cases ht

/-- C16 at `lettre-motivation`, one of the names `runTests` requests: it is in
the list, so the `switch` returns a text for it. -/
theorem C16_prompt_catalogue_witness :
    ∃ text, promptBody (some (fallbackProfile "2026-01-01T00:00:00.000Z".toList))
      "lettre-motivation".toList none = .ok text :=
  (C16_prompt_catalogue.2.2.2.2.2.1 "lettre-motivation".toList
    (fallbackProfile "2026-01-01T00:00:00.000Z".toList) none).1.1
    (C16_prompt_catalogue.2.2.2.2.2.2 "lettre-motivation".toList (by decide))

/-! ## C17 -/

/-- What the ReadResource handler of `src/src/index.js` returns for the two
listed uris on a server that holds a profile. -/
theorem readResource_listed (toLowerCase : Str → Str) (w : World) (reads decodes : Nat)
    (cv : CVData) :
    readResourceHandler toLowerCase w ⟨some cv, reads, decodes⟩ "cv://raw-text".toList =
      some (⟨some cv, reads, decodes⟩, .ok { contents :=
        [{ uri := "cv://raw-text".toList, mimeType := "text/plain".toList,
           text := cv.rawText }] }) ∧
    readResourceHandler toLowerCase w ⟨some cv, reads, decodes⟩ "cv://structured-data".toList =
      some (⟨some cv, reads, decodes⟩, .ok { contents :=
        [{ uri := "cv://structured-data".toList, mimeType := "application/json".toList,
           text := cvDataJSON cv }] }) :=
  ⟨rfl, rfl⟩

theorem unicodeEscape_control (n : Nat) (h : n < 32) :
    unicodeEscape '0' '0' (Nat.digitChar (n / 16)) (Nat.digitChar (n % 16)) =
      some (Char.ofNat n) := by
  interval_cases n <;> rfl

theorem parseString_cons (c : Char) (rest : Str) :
    parseString (c :: rest) =
      if c = '"' then some ([], rest)
      else if c = '\\' then
        match rest with
        | [] => none
        | e :: rest2 =>
          if e = 'u' then
            match rest2 with
            | h1 :: h2 :: h3 :: h4 :: rest3 =>
              match unicodeEscape h1 h2 h3 h4 with
              | none => none
              | some x => (parseString rest3).map (fun q => (x :: q.1, q.2))
            | _ => none
          else
            match shortEscape e with
            | none => none
            | some x => (parseString rest2).map (fun q => (x :: q.1, q.2))
      else if c.toNat < 32 then none
      else (parseString rest).map (fun q => (c :: q.1, q.2)) := by
  rw [parseString.eq_def]
  rfl

theorem parseString_short (e x : Char) (tl : Str) (hu : e ≠ 'u')
    (hs : shortEscape e = some x) :
    parseString ('\\' :: e :: tl) = (parseString tl).map (fun q => (x :: q.1, q.2)) := by
  have h1 : ¬ ('\\' = '"') := by decide
  rw [parseString_cons]
  simp only [if_neg h1, if_true, if_neg hu, hs]

theorem parseString_quoteJSONChar (c : Char) (tl : Str) :
    parseString (quoteJSONChar c ++ tl) = (parseString tl).map (fun q => (c :: q.1, q.2)) := by
  have hof : Char.ofNat c.toNat = c := Char.ofNat_toNat c
  unfold quoteJSONChar
  split
  · rename_i h
    subst h
    exact parseString_short '"' '"' tl (by decide) (by decide)
  · split
    · rename_i h
      subst h
      exact parseString_short '\\' '\\' tl (by decide) (by decide)
    · split
      · rename_i h
        rw [← hof, h]
        exact parseString_short 'b' (Char.ofNat 8) tl (by decide) (by decide)
      · split
        · rename_i h
          rw [← hof, h]
          exact parseString_short 'f' (Char.ofNat 12) tl (by decide) (by decide)
        · split
          · rename_i h
            subst h
            exact parseString_short 'n' '\n' tl (by decide) (by decide)
          · split
            · rename_i h
              subst h
              exact parseString_short 'r' '\r' tl (by decide) (by decide)
            · split
              · rename_i h
                subst h
                exact parseString_short 't' '\t' tl (by decide) (by decide)
              · rename_i h1 h2 h3 h4 h5 h6 h7
                split
                · rename_i h8
                  have hu := unicodeEscape_control c.toNat h8
                  rw [hof] at hu
                  have hq : ¬ ('\\' = '"') := by decide
                  show parseString ('\\' :: 'u' :: '0' :: '0' :: Nat.digitChar (c.toNat / 16) ::
                    Nat.digitChar (c.toNat % 16) :: tl) = _
                  rw [parseString_cons]
                  simp only [if_neg hq, if_true, hu]
                · rename_i h8
                  show parseString (c :: tl) = _
                  rw [parseString_cons]
                  simp only [if_neg h1, if_neg h2, if_neg h8]

theorem parseString_flatMap :
    ∀ (s tl : Str), parseString (s.flatMap quoteJSONChar ++ tl) =
      (parseString tl).map (fun q => (s ++ q.1, q.2)) := by
  intro s
  induction s with
  | nil =>
    intro tl
    show parseString tl = _
    cases h : parseString tl with
    | none => rfl
    | some q => rfl
  | cons c cs ih =>
    intro tl
    rw [List.flatMap_cons, List.append_assoc, parseString_quoteJSONChar, ih]
    cases h : parseString tl with
    | none => rfl
    | some q => rfl

/-- Reading back a serialized string gives the string. -/
theorem parseString_quoted (s rest : Str) :
    parseString (s.flatMap quoteJSONChar ++ '"' :: rest) = some (s, rest) := by
  rw [parseString_flatMap, parseString_cons]
  simp

theorem skipWs_append (ws x : Str) (h : ∀ c ∈ ws, jsonWs c = true) :
    skipWs (ws ++ x) = skipWs x := by
  induction ws with
  | nil => rfl
  | cons c cs ih =>
    have hc : jsonWs c = true := h c (List.mem_cons_self _ _)
    show List.dropWhile jsonWs (c :: (cs ++ x)) = _
    rw [List.dropWhile_cons_of_pos hc]
    exact ih (fun d hd => h d (List.mem_cons_of_mem _ hd))

theorem skipWs_cons (c : Char) (x : Str) (h : jsonWs c = false) : skipWs (c :: x) = c :: x := by
  show List.dropWhile jsonWs (c :: x) = _
  rw [List.dropWhile_cons_of_neg (by simp [h])]

theorem parse_value (fuel : Nat) (s : Str) :
    parse (fuel + 1) .value s =
      match skipWs s with
      | [] => none
      | c :: r =>
        if c = '"' then (parseString r).map (fun q => (.str q.1, q.2))
        else if c = '[' then
          match skipWs r with
          | [] => none
          | d :: r2 => if d = ']' then some (.arr [], r2) else parse fuel (.elems []) (d :: r2)
        else if c = '\x7b' then
          match skipWs r with
          | [] => none
          | d :: r2 =>
            if d = '\x7d' then some (.obj [], r2) else parse fuel (.members []) (d :: r2)
        else if startsWith (c :: r) "true".toList then some (.bool true, (c :: r).drop 4)
        else if startsWith (c :: r) "false".toList then some (.bool false, (c :: r).drop 5)
        else if startsWith (c :: r) "null".toList then some (.null, (c :: r).drop 4)
        else (parseNumber (c :: r)).map (fun q => (.num q.1, q.2)) := by
  rw [parse.eq_def]

theorem parse_elems (fuel : Nat) (acc : List Json) (s : Str) :
    parse (fuel + 1) (.elems acc) s =
      match parse fuel .value s with
      | none => none
      | some (v, r) =>
        match skipWs r with
        | [] => none
        | c :: r2 =>
          if c = ',' then parse fuel (.elems (acc ++ [v])) r2
          else if c = ']' then some (.arr (acc ++ [v]), r2)
          else none := by
  rw [parse.eq_def]

theorem parse_members (fuel : Nat) (acc : List (Str × Json)) (s : Str) :
    parse (fuel + 1) (.members acc) s =
      match skipWs s with
      | [] => none
      | c :: r =>
        if c = '"' then
          match parseString r with
          | none => none
          | some (k, r1) =>
            match skipWs r1 with
            | [] => none
            | d :: r2 =>
              if d = ':' then
                match parse fuel .value r2 with
                | none => none
                | some (v, r3) =>
                  match skipWs r3 with
                  | [] => none
                  | e :: r4 =>
                    if e = ',' then parse fuel (.members (acc ++ [(k, v)])) r4
                    else if e = '\x7d' then some (.obj (acc ++ [(k, v)]), r4)
                    else none
              else none
        else none := by
  rw [parse.eq_def]

theorem length_quoteJSONString (s : Str) : 2 ≤ (quoteJSONString s).length := by
  simp [quoteJSONString]

theorem readsAs_string (s : Str) : ReadsAs (quoteJSONString s) (.str s) := by
  intro fuel ws rest hf hws _
  have h2 := length_quoteJSONString s
  obtain ⟨f, rfl⟩ : ∃ f, fuel = f + 1 := ⟨fuel - 1, by omega⟩
  have e : ws ++ quoteJSONString s ++ rest =
      ws ++ '"' :: (s.flatMap quoteJSONChar ++ '"' :: rest) := by
    simp [quoteJSONString]
  rw [parse_value, e, skipWs_append _ _ hws, skipWs_cons _ _ (by decide)]
  simp only [if_true, parseString_quoted, Option.map_some']

theorem readsAs_bool (b : Bool) : ReadsAs (jsonBool b) (.bool b) := by
  intro fuel ws rest hf hws _
  cases b with
  | true =>
    obtain ⟨f, rfl⟩ : ∃ f, fuel = f + 1 := ⟨fuel - 1, by
      have : (jsonBool true).length = 4 := rfl
      omega⟩
    have e : ws ++ jsonBool true ++ rest = ws ++ 't' :: 'r' :: 'u' :: 'e' :: rest := by
      rw [List.append_assoc]; rfl
    rw [parse_value, e, skipWs_append _ _ hws, skipWs_cons _ _ (by decide)]
    simp [startsWith]
  | false =>
    obtain ⟨f, rfl⟩ : ∃ f, fuel = f + 1 := ⟨fuel - 1, by
      have : (jsonBool false).length = 5 := rfl
      omega⟩
    have e : ws ++ jsonBool false ++ rest = ws ++ 'f' :: 'a' :: 'l' :: 's' :: 'e' :: rest := by
      rw [List.append_assoc]; rfl
    rw [parse_value, e, skipWs_append _ _ hws, skipWs_cons _ _ (by decide)]
    simp [startsWith]

theorem toString_nat_toList (n : Nat) : (toString n).toList = Nat.toDigits 10 n := rfl

theorem toDigitsCore_zero (n : Nat) (ds : List Char) : Nat.toDigitsCore 10 0 n ds = ds := rfl

theorem toDigitsCore_digits :
    ∀ (fuel n : Nat) (ds : List Char), (∀ c ∈ ds, isDigit c = true) →
      ∀ c ∈ Nat.toDigitsCore 10 fuel n ds, isDigit c = true := by
  intro fuel
  induction fuel with
  | zero => intro n ds h c hc; exact h c hc
  | succ f ih =>
    intro n ds h c hc
    rw [toDigitsCore_step] at hc
    have hd : isDigit (Nat.digitChar (n % 10)) = true := isDigit_digitChar _ (by omega)
    have hds : ∀ c ∈ Nat.digitChar (n % 10) :: ds, isDigit c = true := by
      intro x hx
      rcases List.mem_cons.mp hx with e | e
      · rw [e]; exact hd
      · exact h x e
    split at hc
    · exact hds c hc
    · exact ih _ _ hds c hc

theorem digitChar_ne_zero (k : Nat) (h0 : 0 < k) (h : k < 10) : Nat.digitChar k ≠ '0' := by
  interval_cases k <;> decide

theorem toDigitsCore_head :
    ∀ (fuel n : Nat) (ds : List Char), n < fuel → 0 < n →
      ∃ c tl, Nat.toDigitsCore 10 fuel n ds = c :: tl ∧ c ≠ '0' := by
  intro fuel
  induction fuel with
  | zero => intro n ds h; omega
  | succ f ih =>
    intro n ds h h0
    rw [toDigitsCore_step]
    split
    · rename_i hz
      have : n % 10 = n := by omega
      exact ⟨_, _, rfl, digitChar_ne_zero _ (by omega) (by omega)⟩
    · rename_i hz
      exact ih (n / 10) _ (by omega) (by omega)

/-- The decimal text of a natural number: digits only, at least one, and no
leading zero unless the text is `0`. -/
theorem toString_nat_shape (n : Nat) :
    (∀ c ∈ (toString n).toList, isDigit c = true) ∧
    (∃ c tl, (toString n).toList = c :: tl ∧ (tl ≠ [] → c ≠ '0')) := by
  rw [toString_nat_toList]
  constructor
  · exact toDigitsCore_digits _ _ _ (by simp)
  · by_cases h0 : n = 0
    · subst h0
      exact ⟨'0', [], rfl, fun h => absurd rfl h⟩
    · obtain ⟨c, tl, h, hc⟩ := toDigitsCore_head (n + 1) n [] (by omega) (by omega)
      exact ⟨c, tl, h, fun _ => hc⟩

theorem isDigit_ne (c : Char) (h : isDigit c = true) :
    c ≠ '"' ∧ c ≠ '[' ∧ c ≠ '\x7b' ∧ c ≠ 't' ∧ c ≠ 'f' ∧ c ≠ 'n' ∧ c ≠ '-' ∧
      jsonWs c = false := by
  simp only [isDigit, Bool.and_eq_true, decide_eq_true_eq] at h
  have key : ∀ d : Char, (d.toNat < 48 ∨ 57 < d.toNat) → c ≠ d := by
    intro d hd e
    subst e
    omega
  refine ⟨key _ (by decide), key _ (by decide), key _ (by decide), key _ (by decide),
    key _ (by decide), key _ (by decide), key _ (by decide), ?_⟩
  have h1 := key ' ' (by decide)
  have h2 := key '\t' (by decide)
  have h3 := key '\n' (by decide)
  have h4 := key '\r' (by decide)
  simp [jsonWs, h1, h2, h3, h4]

theorem takeWhile_digits (ds rest : Str) (h : ∀ c ∈ ds, isDigit c = true)
    (hr : ∀ c, rest.head? = some c → c = ',' ∨ c = '\n') :
    (ds ++ rest).takeWhile isDigit = ds ∧ (ds ++ rest).dropWhile isDigit = rest := by
  induction ds with
  | nil =>
    cases rest with
    | nil => exact ⟨rfl, rfl⟩
    | cons r rs =>
      have hd : isDigit r = false := by
        rcases hr r rfl with e | e <;> subst e <;> decide
      simp [List.takeWhile, List.dropWhile, hd]
  | cons d ds ih =>
    have hd : isDigit d = true := h d (List.mem_cons_self _ _)
    obtain ⟨i1, i2⟩ := ih (fun c hc => h c (List.mem_cons_of_mem _ hc))
    show (d :: (ds ++ rest)).takeWhile isDigit = d :: ds ∧
      (d :: (ds ++ rest)).dropWhile isDigit = rest
    rw [List.takeWhile_cons_of_pos hd, List.dropWhile_cons_of_pos hd, i1, i2]
    exact ⟨rfl, rfl⟩

/-- The parser on a run of digits without a leading zero. -/
theorem parseNumber_digits (c : Char) (tl rest : Str)
    (h : ∀ x ∈ c :: tl, isDigit x = true) (h0 : tl ≠ [] → c ≠ '0')
    (hr : ∀ x, rest.head? = some x → x = ',' ∨ x = '\n') :
    parseNumber (c :: tl ++ rest) = some (c :: tl, rest) ∧
    parseNumber ('-' :: (c :: tl ++ rest)) = some ('-' :: c :: tl, rest) := by
  obtain ⟨t1, t2⟩ := takeWhile_digits (c :: tl) rest h hr
  have hc := (isDigit_ne c (h c (List.mem_cons_self _ _))).2.2.2.2.2.2.1
  have hlead : ¬ (1 < (c :: tl).length ∧ (c :: tl).head? = some '0') := by
    rintro ⟨hl, hh⟩
    simp only [List.head?_cons, Option.some.injEq] at hh
    have : tl ≠ [] := by
      intro e
      subst e
      simp at hl
    exact h0 this hh
  have hrest : ¬ (rest.head? = some '.' ∨ rest.head? = some 'e' ∨ rest.head? = some 'E') := by
    rintro (e | e | e) <;> rcases hr _ e with x | x <;> revert x <;> decide
  constructor
  · have hh : ¬ ((c :: tl ++ rest).head? = some '-') := by
      simpa using hc
    simp only [parseNumber, if_neg hh, t1, t2, if_neg hlead, if_neg hrest]
    simp
  · have hh : ('-' :: (c :: tl ++ rest)).head? = some '-' := rfl
    simp only [parseNumber, if_pos hh, List.tail_cons, t1, t2, if_neg hlead, if_neg hrest]
    simp

theorem parse_value_number (fuel : Nat) (ws : Str) (c : Char) (r : Str)
    (hws : ∀ x ∈ ws, jsonWs x = true)
    (hc : c ≠ '"' ∧ c ≠ '[' ∧ c ≠ '\x7b' ∧ c ≠ 't' ∧ c ≠ 'f' ∧ c ≠ 'n' ∧ jsonWs c = false) :
    parse (fuel + 1) .value (ws ++ c :: r) =
      (parseNumber (c :: r)).map (fun q => (.num q.1, q.2)) := by
  obtain ⟨h1, h2, h3, h4, h5, h6, h7⟩ := hc
  rw [parse_value, skipWs_append _ _ hws, skipWs_cons _ _ h7]
  have s1 : startsWith (c :: r) "true".toList = false := by
    show (c == 't' && _) = false
    simp [h4]
  have s2 : startsWith (c :: r) "false".toList = false := by
    show (c == 'f' && _) = false
    simp [h5]
  have s3 : startsWith (c :: r) "null".toList = false := by
    show (c == 'n' && _) = false
    simp [h6]
  simp only [if_neg h1, if_neg h2, if_neg h3, s1, s2, s3, Bool.false_eq_true, if_false]

theorem readsAs_nat (n : Nat) : ReadsAs (toString n).toList (.num (toString n).toList) := by
  intro fuel ws rest hf hws hr
  obtain ⟨hall, c, tl, hct, h0⟩ := toString_nat_shape n
  rw [hct] at hall hf ⊢
  obtain ⟨f, rfl⟩ : ∃ f, fuel = f + 1 := ⟨fuel - 1, by simp at hf; omega⟩
  obtain ⟨d1, d2, d3, d4, d5, d6, _, d8⟩ := isDigit_ne c (hall c (List.mem_cons_self _ _))
  have e : ws ++ (c :: tl) ++ rest = ws ++ c :: (tl ++ rest) := by simp
  rw [e, parse_value_number f ws c _ hws ⟨d1, d2, d3, d4, d5, d6, d8⟩]
  have := (parseNumber_digits c tl rest hall h0 hr).1
  rw [List.cons_append] at this
  rw [this]
  rfl

theorem readsAs_int (i : Int) : ReadsAs (toString i).toList (.num (toString i).toList) := by
  cases i with
  | ofNat m => exact readsAs_nat m
  | negSucc m =>
    intro fuel ws rest hf hws hr
    obtain ⟨hall, c, tl, hct, h0⟩ := toString_nat_shape (m + 1)
    have ht : (toString (Int.negSucc m)).toList = '-' :: (toString (m + 1)).toList := rfl
    rw [ht, hct] at hf ⊢
    rw [hct] at hall
    obtain ⟨f, rfl⟩ : ∃ f, fuel = f + 1 := ⟨fuel - 1, by simp at hf; omega⟩
    have e : ws ++ ('-' :: c :: tl) ++ rest = ws ++ '-' :: (c :: tl ++ rest) := by simp
    rw [e, parse_value_number f ws '-' _ hws (by decide)]
    rw [(parseNumber_digits c tl rest hall h0 hr).2]
    rfl

theorem join_cons_cons (sep x y : Str) (ys : List Str) :
    join sep (x :: y :: ys) = x ++ sep ++ join sep (y :: ys) := rfl

theorem join_quoted_head (sep : Str) (x : Str) (xs : List Str) :
    ∃ tl, join sep ((x :: xs).map quoteJSONString) = '"' :: tl := by
  cases xs with
  | nil => exact ⟨_, rfl⟩
  | cons y ys => exact ⟨_, rfl⟩

/-- The elements of a serialized array of strings, read one by one. -/
theorem parse_elems_strings (wsSep wsEnd : Str) (hsep : ∀ c ∈ wsSep, jsonWs c = true)
    (hend : ∀ c ∈ wsEnd, jsonWs c = true) (hend0 : wsEnd.head? = some '\n') :
    ∀ (xs : List Str), xs ≠ [] → ∀ (acc : List Json) (fuel : Nat) (ws rest : Str),
      (∀ c ∈ ws, jsonWs c = true) →
      (join (',' :: wsSep) (xs.map quoteJSONString)).length + 1 ≤ fuel →
      parse fuel (.elems acc)
          (ws ++ (join (',' :: wsSep) (xs.map quoteJSONString) ++ (wsEnd ++ ']' :: rest))) =
        some (.arr (acc ++ xs.map .str), rest) := by
  intro xs
  induction xs with
  | nil => intro h; exact absurd rfl h
  | cons x more ih =>
    intro _ acc fuel ws rest hws hf
    have hq := length_quoteJSONString x
    cases more with
    | nil =>
      simp only [List.map_cons, List.map_nil, join] at hf ⊢
      obtain ⟨f, rfl⟩ : ∃ f, fuel = f + 1 := ⟨fuel - 1, by omega⟩
      have hv := readsAs_string x f ws (wsEnd ++ ']' :: rest) (by omega) hws (by
        intro c hc
        cases wsEnd with
        | nil => simp at hend0
        | cons e es =>
          simp only [List.head?_cons, Option.some.injEq] at hend0
          simp only [List.cons_append, List.head?_cons, Option.some.injEq] at hc
          right
          rw [← hc, hend0])
      rw [List.append_assoc] at hv
      rw [parse_elems, hv]
      simp only [skipWs_append _ _ hend, skipWs_cons ']' rest (by decide)]
      simp
    | cons y ys =>
      rw [List.map_cons, List.map_cons, join_cons_cons] at hf ⊢
      simp only [List.length_append, List.length_cons] at hf
      obtain ⟨f, rfl⟩ : ∃ f, fuel = f + 1 := ⟨fuel - 1, by omega⟩
      have hv := readsAs_string x f ws
        (',' :: (wsSep ++ (join (',' :: wsSep) ((y :: ys).map quoteJSONString) ++
          (wsEnd ++ ']' :: rest)))) (by omega) hws (by
        intro c hc
        simp only [List.head?_cons, Option.some.injEq] at hc
        left
        exact hc.symm)
      have e : ws ++ (quoteJSONString x ++ (',' :: wsSep) ++
            join (',' :: wsSep) (quoteJSONString y :: List.map quoteJSONString ys) ++
            (wsEnd ++ ']' :: rest)) =
          ws ++ quoteJSONString x ++ (',' :: (wsSep ++
            (join (',' :: wsSep) ((y :: ys).map quoteJSONString) ++ (wsEnd ++ ']' :: rest)))) := by
        simp [List.append_assoc]
      rw [e, parse_elems, hv]
      simp only [skipWs_cons ',' _ (by decide), if_true]
      have := ih (by simp) (acc ++ [.str x]) f wsSep rest hsep (by
        simp only [List.map_cons] at hf ⊢
        omega)
      rw [this]
      simp

theorem jsonWs_spaces (ind : Str) (h : ∀ c ∈ ind, jsonWs c = true) :
    (∀ c ∈ ind ++ "  ".toList, jsonWs c = true) ∧
    (∀ c ∈ "\n".toList ++ ind, jsonWs c = true) ∧
    (∀ c ∈ "\n".toList ++ ind ++ "  ".toList, jsonWs c = true) := by
  refine ⟨?_, ?_, ?_⟩ <;> intro c hc <;> simp only [List.mem_append] at hc
  · rcases hc with hc | hc
    · exact h c hc
    · revert c; decide
  · rcases hc with hc | hc
    · revert c; decide
    · exact h c hc
  · rcases hc with (hc | hc) | hc
    · revert c; decide
    · exact h c hc
    · revert c; decide

/-- A serialized array of strings is read as the array of those strings. -/
theorem readsAs_strings (ind : Str) (hind : ∀ c ∈ ind, jsonWs c = true) (xs : List Str) :
    ReadsAs (jsonArray ind (xs.map quoteJSONString)) (.arr (xs.map .str)) := by
  intro fuel ws rest hf hws _
  cases xs with
  | nil =>
    have hl : (jsonArray ind ([].map quoteJSONString)).length = 2 := rfl
    obtain ⟨f, rfl⟩ : ∃ f, fuel = f + 1 := ⟨fuel - 1, by omega⟩
    have e : ws ++ jsonArray ind ([].map quoteJSONString) ++ rest = ws ++ '[' :: ']' :: rest := by
      rw [List.append_assoc]; rfl
    rw [e, parse_value, skipWs_append _ _ hws, skipWs_cons _ _ (by decide)]
    simp only [skipWs_cons ']' rest (by decide)]
    simp
  | cons x more =>
    obtain ⟨h1, h2, h3⟩ := jsonWs_spaces ind hind
    obtain ⟨tl, htl⟩ := join_quoted_head (",\n".toList ++ ind ++ "  ".toList) x more
    have hsep : ",\n".toList ++ ind ++ "  ".toList = ',' :: ("\n".toList ++ ind ++ "  ".toList) :=
      rfl
    have e : ws ++ jsonArray ind ((x :: more).map quoteJSONString) ++ rest =
        ws ++ '[' :: (("\n".toList ++ ind ++ "  ".toList) ++
          (join (",\n".toList ++ ind ++ "  ".toList) ((x :: more).map quoteJSONString) ++
            (("\n".toList ++ ind) ++ ']' :: rest))) := by
      simp [jsonArray, List.append_assoc]
    have hlen : (join (",\n".toList ++ ind ++ "  ".toList)
        ((x :: more).map quoteJSONString)).length + 2 ≤ fuel := by
      have : (jsonArray ind ((x :: more).map quoteJSONString)).length =
          (join (",\n".toList ++ ind ++ "  ".toList) ((x :: more).map quoteJSONString)).length
            + (2 * ind.length + 6) := by
        simp [jsonArray, List.length_append]
        omega
      omega
    obtain ⟨f, rfl⟩ : ∃ f, fuel = f + 1 := ⟨fuel - 1, by omega⟩
    rw [e, parse_value, skipWs_append _ _ hws, skipWs_cons _ _ (by decide)]
    simp only [skipWs_append _ _ h3]
    rw [htl, List.cons_append, skipWs_cons '"' _ (by decide)]
    have hne : ¬ ('"' = ']') := by decide
    have hq : ¬ ('[' = '"') := by decide
    simp only [if_neg hq, if_true, if_neg hne]
    rw [← List.cons_append, ← htl, hsep]
    have := parse_elems_strings ("\n".toList ++ ind ++ "  ".toList) ("\n".toList ++ ind) h3 h2
      rfl (x :: more) (by simp) [] f [] rest (by simp) (by rw [← hsep]; omega)
    simpa using this

theorem member_text (k v : Str) :
    quoteJSONString k ++ ": ".toList ++ v =
      '"' :: (k.flatMap quoteJSONChar ++ '"' :: (':' :: ' ' :: v)) := by
  simp [quoteJSONString]

/-- The members of a serialized object, read one by one, when the text of each
value is read as its tree. -/
theorem parse_members_list (wsSep wsEnd : Str) (hsep : ∀ c ∈ wsSep, jsonWs c = true)
    (hend : ∀ c ∈ wsEnd, jsonWs c = true) (hend0 : wsEnd.head? = some '\n') :
    ∀ (ms : List (Str × Str × Json)), ms ≠ [] → (∀ m ∈ ms, ReadsAs m.2.1 m.2.2) →
      ∀ (acc : List (Str × Json)) (fuel : Nat) (ws rest : Str),
      (∀ c ∈ ws, jsonWs c = true) →
      (join (',' :: wsSep)
        (ms.map (fun m => quoteJSONString m.1 ++ ": ".toList ++ m.2.1))).length + 1 ≤ fuel →
      parse fuel (.members acc)
          (ws ++ (join (',' :: wsSep)
            (ms.map (fun m => quoteJSONString m.1 ++ ": ".toList ++ m.2.1)) ++
              (wsEnd ++ '\x7d' :: rest))) =
        some (.obj (acc ++ ms.map (fun m => (m.1, m.2.2))), rest) := by
  intro ms
  induction ms with
  | nil => intro h; exact absurd rfl h
  | cons m more ih =>
    intro _ hall acc fuel ws rest hws hf
    obtain ⟨k, v, t⟩ := m
    have hm : ReadsAs v t := hall (k, v, t) (List.mem_cons_self _ _)
    have hmore : ∀ m ∈ more, ReadsAs m.2.1 m.2.2 :=
      fun m hm => hall m (List.mem_cons_of_mem _ hm)
    have hsp : ∀ c ∈ [' '], jsonWs c = true := by decide
    have hq1 : ¬ (':' = '"') := by decide
    cases more with
    | nil =>
      simp only [List.map_cons, List.map_nil, join] at hf ⊢
      rw [member_text] at hf ⊢
      simp only [List.length_cons, List.length_append] at hf
      obtain ⟨f, rfl⟩ : ∃ f, fuel = f + 1 := ⟨fuel - 1, by omega⟩
      have hv := hm f [' '] (wsEnd ++ '\x7d' :: rest) (by omega) hsp (by
        intro c hc
        cases wsEnd with
        | nil => simp at hend0
        | cons e es =>
          simp only [List.head?_cons, Option.some.injEq] at hend0
          simp only [List.cons_append, List.head?_cons, Option.some.injEq] at hc
          right
          rw [← hc, hend0])
      have e : ws ++ ('"' :: (k.flatMap quoteJSONChar ++ '"' :: (':' :: ' ' :: v)) ++
            (wsEnd ++ '\x7d' :: rest)) =
          ws ++ '"' :: (k.flatMap quoteJSONChar ++ '"' :: (':' :: ([' '] ++ v ++
            (wsEnd ++ '\x7d' :: rest)))) := by
        simp [List.append_assoc]
      rw [e, parse_members, skipWs_append _ _ hws, skipWs_cons '"' _ (by decide)]
      simp only [if_true, parseString_quoted, skipWs_cons ':' _ (by decide), hv,
        skipWs_append _ _ hend, skipWs_cons '\x7d' rest (by decide)]
      simp
    | cons m2 ms2 =>
      rw [List.map_cons, List.map_cons, join_cons_cons] at hf ⊢
      rw [member_text] at hf ⊢
      simp only [List.length_cons, List.length_append] at hf
      obtain ⟨f, rfl⟩ : ∃ f, fuel = f + 1 := ⟨fuel - 1, by omega⟩
      have hv := hm f [' ']
        (',' :: (wsSep ++ (join (',' :: wsSep)
          ((m2 :: ms2).map (fun m => quoteJSONString m.1 ++ ": ".toList ++ m.2.1)) ++
            (wsEnd ++ '\x7d' :: rest)))) (by omega) hsp (by
        intro c hc
        simp only [List.head?_cons, Option.some.injEq] at hc
        left
        exact hc.symm)
      have e : ws ++ ('"' :: (k.flatMap quoteJSONChar ++ '"' :: (':' :: ' ' :: v)) ++
            (',' :: wsSep) ++
            join (',' :: wsSep)
              ((quoteJSONString m2.1 ++ ": ".toList ++ m2.2.1) ::
                List.map (fun m => quoteJSONString m.1 ++ ": ".toList ++ m.2.1) ms2) ++
            (wsEnd ++ '\x7d' :: rest)) =
          ws ++ '"' :: (k.flatMap quoteJSONChar ++ '"' :: (':' :: ([' '] ++ v ++
            (',' :: (wsSep ++ (join (',' :: wsSep)
              ((m2 :: ms2).map (fun m => quoteJSONString m.1 ++ ": ".toList ++ m.2.1)) ++
                (wsEnd ++ '\x7d' :: rest))))))) := by
        simp [List.append_assoc]
      rw [e, parse_members, skipWs_append _ _ hws, skipWs_cons '"' _ (by decide)]
      simp only [if_true, parseString_quoted, skipWs_cons ':' _ (by decide), hv,
        skipWs_cons ',' _ (by decide)]
      have := ih (by simp) hmore (acc ++ [(k, t)]) f wsSep rest hsep (by
        simp only [List.map_cons] at hf ⊢
        omega)
      rw [this]
      simp

theorem join_member_head (sep : Str) (m : Str × Str × Json) (ms : List (Str × Str × Json)) :
    ∃ tl, join sep ((m :: ms).map (fun m => quoteJSONString m.1 ++ ": ".toList ++ m.2.1)) =
      '"' :: tl := by
  cases ms with
  | nil =>
    show ∃ tl, quoteJSONString m.1 ++ ": ".toList ++ m.2.1 = '"' :: tl
    rw [member_text]
    exact ⟨_, rfl⟩
  | cons y ys =>
    show ∃ tl, quoteJSONString m.1 ++ ": ".toList ++ m.2.1 ++ sep ++ join sep _ = '"' :: tl
    rw [member_text]
    exact ⟨_, rfl⟩

theorem jsonObject_cons (ind : Str) (x : Str × Str × Json) (more : List (Str × Str × Json)) :
    jsonObject ind ((x :: more).map (fun m => (m.1, m.2.1))) =
      '\x7b' :: (("\n".toList ++ ind ++ "  ".toList) ++
        (join (',' :: ("\n".toList ++ ind ++ "  ".toList))
          ((x :: more).map (fun m => quoteJSONString m.1 ++ ": ".toList ++ m.2.1)) ++
          (("\n".toList ++ ind) ++ ['\x7d']))) := by
  have hmap : ((x :: more).map (fun m => (m.1, m.2.1))).map
      (fun kv => quoteJSONString kv.1 ++ ": ".toList ++ kv.2) =
      (x :: more).map (fun m => quoteJSONString m.1 ++ ": ".toList ++ m.2.1) := by
    rw [List.map_map]
    rfl
  show "\x7b\n".toList ++ ind ++ "  ".toList ++
      join (",\n".toList ++ ind ++ "  ".toList)
        (((x :: more).map (fun m => (m.1, m.2.1))).map
          (fun kv => quoteJSONString kv.1 ++ ": ".toList ++ kv.2)) ++
      "\n".toList ++ ind ++ "\x7d".toList = _
  rw [hmap]
  simp only [List.append_assoc]
  rfl

/-- A serialized object is read as the object of its members, when the text of
each value is read as its tree. -/
theorem readsAs_object (ind : Str) (hind : ∀ c ∈ ind, jsonWs c = true)
    (ms : List (Str × Str × Json)) (hne : ms ≠ []) (hall : ∀ m ∈ ms, ReadsAs m.2.1 m.2.2) :
    ReadsAs (jsonObject ind (ms.map (fun m => (m.1, m.2.1))))
      (.obj (ms.map (fun m => (m.1, m.2.2)))) := by
  intro fuel ws rest hf hws _
  cases ms with
  | nil => exact absurd rfl hne
  | cons x more =>
    obtain ⟨h1, h2, h3⟩ := jsonWs_spaces ind hind
    obtain ⟨tl, htl⟩ := join_member_head (',' :: ("\n".toList ++ ind ++ "  ".toList)) x more
    rw [jsonObject_cons] at hf ⊢
    simp only [List.length_cons, List.length_append] at hf
    obtain ⟨f, rfl⟩ : ∃ f, fuel = f + 1 := ⟨fuel - 1, by omega⟩
    have e : ws ++ '\x7b' :: (("\n".toList ++ ind ++ "  ".toList) ++
          (join (',' :: ("\n".toList ++ ind ++ "  ".toList))
            ((x :: more).map (fun m => quoteJSONString m.1 ++ ": ".toList ++ m.2.1)) ++
            (("\n".toList ++ ind) ++ ['\x7d']))) ++ rest =
        ws ++ '\x7b' :: (("\n".toList ++ ind ++ "  ".toList) ++
          (join (',' :: ("\n".toList ++ ind ++ "  ".toList))
            ((x :: more).map (fun m => quoteJSONString m.1 ++ ": ".toList ++ m.2.1)) ++
            (("\n".toList ++ ind) ++ '\x7d' :: rest))) := by
      simp [List.append_assoc]
    rw [e, parse_value, skipWs_append _ _ hws, skipWs_cons _ _ (by decide)]
    simp only [skipWs_append _ _ h3]
    rw [htl, List.cons_append, skipWs_cons '"' _ (by decide)]
    have hne1 : ¬ ('"' = '\x7d') := by decide
    have hq : ¬ ('\x7b' = '"') := by decide
    have hb : ¬ ('\x7b' = '[') := by decide
    simp only [if_neg hq, if_neg hb, if_true, if_neg hne1]
    rw [← List.cons_append, ← htl]
    have := parse_members_list ("\n".toList ++ ind ++ "  ".toList) ("\n".toList ++ ind) h3 h2
      rfl (x :: more) (by simp) hall [] f [] rest (by simp) (by omega)
    simpa using this

theorem jsonWs_indent : (∀ c ∈ ([] : Str), jsonWs c = true) ∧
    (∀ c ∈ "  ".toList, jsonWs c = true) ∧ (∀ c ∈ "  ".toList ++ "  ".toList, jsonWs c = true) := by
  refine ⟨?_, ?_, ?_⟩ <;> decide

theorem readsAs_personalInfo (p : PersonalInfo) :
    ReadsAs (personalInfoJSON "  ".toList p)
      (.obj [("name".toList, .str p.name), ("email".toList, .str p.email),
        ("phone".toList, .str p.phone),
        ("rawPersonalSection".toList, .str p.rawPersonalSection)]) := by
  have := readsAs_object "  ".toList jsonWs_indent.2.1
    [("name".toList, quoteJSONString p.name, .str p.name),
     ("email".toList, quoteJSONString p.email, .str p.email),
     ("phone".toList, quoteJSONString p.phone, .str p.phone),
     ("rawPersonalSection".toList, quoteJSONString p.rawPersonalSection,
       .str p.rawPersonalSection)] (by simp) (by
      intro m hm
      simp only [List.mem_cons, List.mem_singleton, List.not_mem_nil, or_false] at hm
      rcases hm with h | h | h | h <;> subst h <;> exact readsAs_string _)
  exact this

theorem readsAs_technicalSkills (t : TechnicalSkills) :
    ReadsAs (technicalSkillsJSON "  ".toList t)
      (.obj [("identifiedSkills".toList, .arr (t.identifiedSkills.map .str)),
        ("technicalSections".toList, .arr (t.technicalSections.map .str)),
        ("skillsCount".toList, .num (toString t.skillsCount).toList)]) := by
  have := readsAs_object "  ".toList jsonWs_indent.2.1
    [("identifiedSkills".toList, jsonStrings "  ".toList t.identifiedSkills,
       .arr (t.identifiedSkills.map .str)),
     ("technicalSections".toList, jsonStrings "  ".toList t.technicalSections,
       .arr (t.technicalSections.map .str)),
     ("skillsCount".toList, (toString t.skillsCount).toList,
       .num (toString t.skillsCount).toList)] (by simp) (by
      intro m hm
      simp only [List.mem_cons, List.mem_singleton, List.not_mem_nil, or_false] at hm
      rcases hm with h | h | h <;> subst h
      · exact readsAs_strings _ jsonWs_indent.2.2 _
      · exact readsAs_strings _ jsonWs_indent.2.2 _
      · exact readsAs_nat _)
  exact this

theorem readsAs_experience (x : Experience) :
    ReadsAs (experienceJSON "  ".toList x)
      (.obj [("experiencePeriods".toList, .arr (x.experiencePeriods.map .str)),
        ("experienceYears".toList, .num (toString x.experienceYears).toList)]) := by
  have := readsAs_object "  ".toList jsonWs_indent.2.1
    [("experiencePeriods".toList, jsonStrings "  ".toList x.experiencePeriods,
       .arr (x.experiencePeriods.map .str)),
     ("experienceYears".toList, (toString x.experienceYears).toList,
       .num (toString x.experienceYears).toList)] (by simp) (by
      intro m hm
      simp only [List.mem_cons, List.mem_singleton, List.not_mem_nil, or_false] at hm
      rcases hm with h | h <;> subst h
      · exact readsAs_strings _ jsonWs_indent.2.2 _
      · exact readsAs_int _)
  exact this

theorem readsAs_education (x : Education) :
    ReadsAs (educationJSON "  ".toList x)
      (.obj [("hasEducationSection".toList, .bool x.hasEducationSection),
        ("educationMentioned".toList, .arr (x.educationMentioned.map .str))]) := by
  have := readsAs_object "  ".toList jsonWs_indent.2.1
    [("hasEducationSection".toList, jsonBool x.hasEducationSection,
       .bool x.hasEducationSection),
     ("educationMentioned".toList, jsonStrings "  ".toList x.educationMentioned,
       .arr (x.educationMentioned.map .str))] (by simp) (by
      intro m hm
      simp only [List.mem_cons, List.mem_singleton, List.not_mem_nil, or_false] at hm
      rcases hm with h | h <;> subst h
      · exact readsAs_bool _
      · exact readsAs_strings _ jsonWs_indent.2.2 _)
  exact this

theorem readsAs_projects (x : Projects) :
    ReadsAs (projectsJSON "  ".toList x)
      (.obj [("hasProjectsSection".toList, .bool x.hasProjectsSection),
        ("projectKeywordsFound".toList, .arr (x.projectKeywordsFound.map .str))]) := by
  have := readsAs_object "  ".toList jsonWs_indent.2.1
    [("hasProjectsSection".toList, jsonBool x.hasProjectsSection,
       .bool x.hasProjectsSection),
     ("projectKeywordsFound".toList, jsonStrings "  ".toList x.projectKeywordsFound,
       .arr (x.projectKeywordsFound.map .str))] (by simp) (by
      intro m hm
      simp only [List.mem_cons, List.mem_singleton, List.not_mem_nil, or_false] at hm
      rcases hm with h | h <;> subst h
      · exact readsAs_bool _
      · exact readsAs_strings _ jsonWs_indent.2.2 _)
  exact this

theorem readsAs_cvData (cv : CVData) : ReadsAs (cvDataJSON cv) (cvDataTree cv) := by
  have := readsAs_object [] jsonWs_indent.1
    [("rawText".toList, quoteJSONString cv.rawText, .str cv.rawText),
     ("extractedAt".toList, quoteJSONString cv.extractedAt, .str cv.extractedAt),
     ("personalInfo".toList, personalInfoJSON "  ".toList cv.personalInfo,
       .obj [("name".toList, .str cv.personalInfo.name),
         ("email".toList, .str cv.personalInfo.email),
         ("phone".toList, .str cv.personalInfo.phone),
         ("rawPersonalSection".toList, .str cv.personalInfo.rawPersonalSection)]),
     ("technicalSkills".toList, technicalSkillsJSON "  ".toList cv.technicalSkills,
       .obj [("identifiedSkills".toList, .arr (cv.technicalSkills.identifiedSkills.map .str)),
         ("technicalSections".toList, .arr (cv.technicalSkills.technicalSections.map .str)),
         ("skillsCount".toList, .num (toString cv.technicalSkills.skillsCount).toList)]),
     ("experience".toList, experienceJSON "  ".toList cv.experience,
       .obj [("experiencePeriods".toList, .arr (cv.experience.experiencePeriods.map .str)),
         ("experienceYears".toList, .num (toString cv.experience.experienceYears).toList)]),
     ("education".toList, educationJSON "  ".toList cv.education,
       .obj [("hasEducationSection".toList, .bool cv.education.hasEducationSection),
         ("educationMentioned".toList, .arr (cv.education.educationMentioned.map .str))]),
     ("projects".toList, projectsJSON "  ".toList cv.projects,
       .obj [("hasProjectsSection".toList, .bool cv.projects.hasProjectsSection),
         ("projectKeywordsFound".toList,
           .arr (cv.projects.projectKeywordsFound.map .str))])] (by simp) (by
      intro m hm
      simp only [List.mem_cons, List.mem_singleton, List.not_mem_nil, or_false] at hm
      rcases hm with h | h | h | h | h | h | h <;> subst h
      · exact readsAs_string _
      · exact readsAs_string _
      · exact readsAs_personalInfo _
      · exact readsAs_technicalSkills _
      · exact readsAs_experience _
      · exact readsAs_education _
      · exact readsAs_projects _)
  exact this

/-- Parsing the serialization of a profile gives back the profile as a tree;
in particular its property `extractedAt` is the string `extractedAt` of the
profile, and its property `rawText` the raw text. -/
theorem jsonParse_cvDataJSON (cv : CVData) :
    jsonParse (cvDataJSON cv) = some (cvDataTree cv) ∧
    ((jsonParse (cvDataJSON cv)).bind (Json.field "extractedAt".toList)).bind Json.asString =
      some cv.extractedAt ∧
    ((jsonParse (cvDataJSON cv)).bind (Json.field "rawText".toList)).bind Json.asString =
      some cv.rawText := by
  have h := readsAs_cvData cv ((cvDataJSON cv).length + 1) [] [] (by omega) (by simp) (by simp)
  simp only [List.nil_append, List.append_nil] at h
  have hp : jsonParse (cvDataJSON cv) = some (cvDataTree cv) := by
    simp only [jsonParse, h]
    rfl
  refine ⟨hp, ?_, ?_⟩ <;> rw [hp] <;> rfl

/-- C17: from any state the ListResources handler of `src/src/index.js`
returns, and what it returns is the list `listResources` of exactly two
descriptors, `cv://raw-text` with mimeType `text/plain` and
`cv://structured-data` with mimeType `application/json`; from any state the
ReadResource handler returns for each listed uri, with the profile `cv` the
server holds by then (the one it held before, if it held one), exactly one
content item that echoes the uri and carries the advertised mimeType, whose
text is `cv.rawText` for `cv://raw-text` and the serialization of `cv` for
`cv://structured-data`; and `JSON.parse` of that serialization is the profile
as a tree, whose `extractedAt` is the profile's. -/
theorem C17_resources :
    listResources =
      [{ uri := "cv://raw-text".toList
         name := "Texte brut du CV".toList
         description := "Le contenu textuel complet extrait du PDF".toList
         mimeType := "text/plain".toList },
       { uri := "cv://structured-data".toList
         name := "Données structurées du CV".toList
         description := "Les données extraites et organisées du CV".toList
         mimeType := "application/json".toList }] ∧
    listResources.map (fun d => (d.uri, d.mimeType)) =
      [("cv://raw-text".toList, "text/plain".toList),
       ("cv://structured-data".toList, "application/json".toList)] ∧
    (∀ (toLowerCase : Str → Str) (w : World) (st : Server),
      ∃ st1 cv, ensureExtracted toLowerCase w st = some st1 ∧ st1.cvData = some cv ∧
        (∀ held, st.cvData = some held → st1 = st ∧ cv = held) ∧
        listResourcesHandler toLowerCase w st = some (st1, listResources) ∧
        ∀ d ∈ listResources,
          readResourceHandler toLowerCase w st d.uri =
            some (st1, .ok { contents :=
              [{ uri := d.uri, mimeType := d.mimeType,
                 text := if d.uri = "cv://raw-text".toList then cv.rawText
                         else cvDataJSON cv }] })) ∧
    (∀ cv : CVData,
      jsonParse (cvDataJSON cv) = some (cvDataTree cv) ∧
      ((jsonParse (cvDataJSON cv)).bind (Json.field "extractedAt".toList)).bind Json.asString =
        some cv.extractedAt) := by
  refine ⟨rfl, rfl, ?_, fun cv => ⟨(jsonParse_cvDataJSON cv).1, (jsonParse_cvDataJSON cv).2.1⟩⟩
  intro toLowerCase w st
  obtain ⟨st1, cv, h1, h2⟩ := ensureExtracted_sets toLowerCase w st
  refine ⟨st1, cv, h1, h2, ?_, ?_, ?_⟩
  · intro held hheld
    have h3 : ensureExtracted toLowerCase w st = some st := by
      simp only [ensureExtracted, hheld]
    have h4 : st1 = st := by
      rw [h1] at h3
      exact Option.some.inj h3
    subst h4
    rw [h2] at hheld
    exact ⟨rfl, Option.some.inj hheld⟩
  · simp only [listResourcesHandler, h1]
  · intro d hd
    simp only [listResources, List.mem_cons, List.mem_singleton, List.not_mem_nil,
      or_false] at hd
    rcases hd with h | h <;> subst h
    · simp only [readResourceHandler, h1, h2]
      rfl
    · simp only [readResourceHandler, h1, h2]
      rfl

set_option maxRecDepth 100000 in
/-- The profile of the examples is the one extracted in the environment of the
examples. -/
theorem exampleProfile_extracted :
    ensureExtracted toLowerCaseLatin1 exampleWorld ⟨none, 0, 0⟩ =
      some ⟨some exampleProfile, 1, 1⟩ := by
  rfl

set_option maxRecDepth 100000 in
/-- C17 on a server that holds the profile of Jane Doe, and on a fresh server
in the environment where that profile is extracted: the ListResources handler
returns the two descriptors, `cv://raw-text` is served with the four lines of
the text, `cv://structured-data` with the serialization of the profile, and
the serialization parses back with the `extractedAt` of the profile. -/
theorem C17_resources_witness :
    listResourcesHandler toLowerCaseLatin1 exampleWorld ⟨none, 0, 0⟩ =
      some (⟨some exampleProfile, 1, 1⟩, listResources) ∧
    readResourceHandler toLowerCaseLatin1 exampleWorld ⟨none, 0, 0⟩ "cv://raw-text".toList =
      some (⟨some exampleProfile, 1, 1⟩, .ok { contents :=
        [{ uri := "cv://raw-text".toList, mimeType := "text/plain".toList,
           text := "Jane Doe\njane@x.com\nGo:2018-2022.\nuniversity".toList }] }) ∧
    listResourcesHandler toLowerCaseLatin1 exampleWorld ⟨some exampleProfile, 1, 1⟩ =
      some (⟨some exampleProfile, 1, 1⟩, listResources) ∧
    readResourceHandler toLowerCaseLatin1 exampleWorld ⟨some exampleProfile, 1, 1⟩
        "cv://raw-text".toList =
      some (⟨some exampleProfile, 1, 1⟩, .ok { contents :=
        [{ uri := "cv://raw-text".toList, mimeType := "text/plain".toList,
           text := "Jane Doe\njane@x.com\nGo:2018-2022.\nuniversity".toList }] }) ∧
    readResourceHandler toLowerCaseLatin1 exampleWorld ⟨some exampleProfile, 1, 1⟩
        "cv://structured-data".toList =
      some (⟨some exampleProfile, 1, 1⟩, .ok { contents :=
        [{ uri := "cv://structured-data".toList, mimeType := "application/json".toList,
           text := cvDataJSON exampleProfile }] }) ∧
    ((jsonParse (cvDataJSON exampleProfile)).bind (Json.field "extractedAt".toList)).bind
        Json.asString = some "2026-01-01T00:00:00.000Z".toList := by
  obtain ⟨st0, cv0, k1, k2, _, k4, k5⟩ := C17_resources.2.2.1 toLowerCaseLatin1
    exampleWorld ⟨none, 0, 0⟩
  have f1 : st0 = ⟨some exampleProfile, 1, 1⟩ := by
    rw [exampleProfile_extracted] at k1
    exact (Option.some.inj k1).symm
  subst f1
  have f2 : cv0 = exampleProfile := (Option.some.inj k2).symm
  subst f2
  obtain ⟨st1, cv, _, _, h3, h4, h5⟩ := C17_resources.2.2.1 toLowerCaseLatin1
    exampleWorld ⟨some exampleProfile, 1, 1⟩
  obtain ⟨e1, e2⟩ := h3 exampleProfile rfl
  subst e1
  subst e2
  refine ⟨k4, ?_, h4, ?_, ?_, (C17_resources.2.2.2 exampleProfile).2⟩
  · rw [k5 _ (List.mem_cons_self _ _)]
    rfl
  · rw [h5 _ (List.mem_cons_self _ _)]
    rfl
  · rw [h5 _ (List.mem_cons_of_mem _ (List.mem_cons_self _ _))]
    rfl

/-! ## C18 -/

/-- With two requests in the event loop before any read has settled, two calls
of `extractCVData` are suspended and the file has been read twice; when both
calls finish, each request has been answered from the profile its own call
stored. -/
theorem overlapping_requests (toLowerCase : Str → Str) (w1 w2 : World) (reads decodes : Nat)
    (h1 : w1.readFile = none) (h2 : w2.readFile = none) :
    run toLowerCase [.request 1, .request 2] ⟨⟨none, reads, decodes⟩, [], []⟩ =
      some ⟨⟨none, reads + 2, decodes⟩, [(1, .reading), (2, .reading)], []⟩ ∧
    run toLowerCase [.request 1, .request 2, .readSettles 1 w1, .readSettles 2 w2]
        ⟨⟨none, reads, decodes⟩, [], []⟩ =
      some ⟨⟨some (fallbackProfile w2.isoNow), reads + 2, decodes⟩, [],
        [(1, fallbackProfile w1.isoNow), (2, fallbackProfile w2.isoNow)]⟩ := by
  constructor
  · rfl
  · simp only [run, step, List.nil_append, List.cons_append, List.lookup, h1, h2,
      System.finish]
    rfl

/-- C18 on two requests that arrive before the first extraction has completed,
for a file that exists and decodes to `Jane Doe`: after the two arrivals two
calls of `extractCVData` are suspended and the file has been read twice; once
both have settled the decoder has run twice, and request 1 was answered from a
profile extracted at `...T00:00:01` while request 2 was answered from another
profile, extracted at `...T00:00:02`. -/
theorem C18_two_extractions_in_flight :
    (run toLowerCaseLatin1 [.request 1, .request 2] ⟨⟨none, 0, 0⟩, [], []⟩).map
        (fun sys => (sys.server.fileReads, sys.inFlight)) =
      some (2, [(1, .reading), (2, .reading)]) ∧
    (run toLowerCaseLatin1
        [.request 1, .request 2,
         .readSettles 1 ⟨some [37, 80, 68, 70], fun _ => some "Jane Doe".toList,
            "2026-01-01T00:00:01.000Z".toList, 2026⟩,
         .readSettles 2 ⟨some [37, 80, 68, 70], fun _ => some "Jane Doe".toList,
            "2026-01-01T00:00:01.500Z".toList, 2026⟩,
         .parseSettles 1 ⟨some [37, 80, 68, 70], fun _ => some "Jane Doe".toList,
            "2026-01-01T00:00:01.000Z".toList, 2026⟩,
         .parseSettles 2 ⟨some [37, 80, 68, 70], fun _ => some "Jane Doe".toList,
            "2026-01-01T00:00:02.000Z".toList, 2026⟩]
        ⟨⟨none, 0, 0⟩, [], []⟩).map
        (fun sys => (sys.server.fileReads, sys.server.pdfDecodes, sys.inFlight,
          sys.served.map (fun q => (q.1, q.2.extractedAt)))) =
      some (2, 2, [], [(1, "2026-01-01T00:00:01.000Z".toList),
        (2, "2026-01-01T00:00:02.000Z".toList)]) := by
  constructor <;> rfl

/-! ## C20 -/

/-- C20 at `Skills: a\nb`: the pattern carries the `i` flag, under which
`[A-Z]` also matches `b`, so the newline followed by the lower-case `b` ends
the section and the single section is `a`, not `a\nb`.  A newline followed by
a capital letter or by a second newline ends the section as well, a newline
followed by a digit does not; the header is found in any letter case, and the
sections come in document order.  The collecting loop ends on every text. -/
theorem C20_lowercase_line_ends_section :
    (extractTechnicalSkills toLowerCaseLatin1 "Skills: a\nb".toList).map
        (fun ts => ts.technicalSections) = some ["a".toList] ∧
    (extractTechnicalSkills toLowerCaseLatin1 "Skills: a\nB".toList).map
        (fun ts => ts.technicalSections) = some ["a".toList] ∧
    (extractTechnicalSkills toLowerCaseLatin1 "Skills: a\n\nb".toList).map
        (fun ts => ts.technicalSections) = some ["a".toList] ∧
    (extractTechnicalSkills toLowerCaseLatin1 "Skills: a\n1".toList).map
        (fun ts => ts.technicalSections) = some ["a\n1".toList] ∧
    (extractTechnicalSkills toLowerCaseLatin1
        "COMPÉTENCES : x\n\nTechnologies: y".toList).map
        (fun ts => ts.technicalSections) = some ["x".toList, "y".toList] ∧
    (∀ t : Str, ∃ secs, collectSections t 0 = some secs) := by
  refine ⟨by decide, by decide, by decide, by decide, by decide, ?_⟩
  intro t
  exact collectSections_isSome t 0

/-! ## C19 -/

theorem length_classRuns_none (p : Char → Bool) :
    ∀ s : Str, (classRuns p s none).length = (s.takeWhile p).length + 1 := by
  intro s
  induction s with
  | nil => rfl
  | cons c cs ih =>
    by_cases hc : p c = true
    · simp [classRuns, List.takeWhile, hc, ih]
    · simp only [Bool.not_eq_true] at hc
      simp [classRuns, List.takeWhile, hc]

theorem getLast_classRuns_none (p : Char → Bool) :
    ∀ s : Str, (classRuns p s none).getLast? = some (s.dropWhile p) := by
  intro s
  induction s with
  | nil => rfl
  | cons c cs ih =>
    by_cases hc : p c = true
    · have hne : classRuns p cs none ≠ [] := by
        intro h
        have := length_classRuns_none p cs
        rw [h] at this
        simp at this
      simp only [classRuns, hc, List.dropWhile]
      obtain ⟨x, xs, hx⟩ := List.exists_cons_of_ne_nil hne
      have hm : (none : Option Nat).map (· - 1) = none := rfl
      have hb : (true && !((none : Option Nat) == some 0)) = true := rfl
      rw [hm, hb, if_pos rfl, hx, List.getLast?_cons_cons, ← hx, ih]
    · simp only [Bool.not_eq_true] at hc
      simp [classRuns, List.dropWhile, hc]

/-- The first way a greedy unbounded repetition of a class matches: the whole
run of characters of the class, provided the run has the required length. -/
theorem rep_greedy_head (p : Char → Bool) (m : Nat) (s : Str) :
    (matchR (.rep p m none true) s).head? =
      if m ≤ (s.takeWhile p).length then some (s.dropWhile p) else none := by
  simp only [matchR, if_true, List.head?_reverse]
  have hl := length_classRuns_none p s
  have hg := getLast_classRuns_none p s
  by_cases hm : m ≤ (s.takeWhile p).length
  · rw [if_pos hm, List.getLast?_drop, if_neg (by omega), hg]
  · rw [if_neg hm, List.getLast?_drop, if_pos (by omega)]

theorem rep_greedy_nil (p : Char → Bool) (m : Nat) (s : Str)
    (h : (s.takeWhile p).length < m) : matchR (.rep p m none true) s = [] := by
  have := rep_greedy_head p m s
  rw [if_neg (by omega)] at this
  simpa using this

theorem optional_plus (s : Str) :
    matchR (.rep (lit '+') 0 (some 1) true) s =
      match s with
      | [] => [[]]
      | c :: cs => if c = '+' then [cs, c :: cs] else [c :: cs] := by
  cases s with
  | nil => rfl
  | cons c cs =>
    by_cases hc : c = '+'
    · subst hc
      cases cs <;> simp [matchR, classRuns, lit]
    · simp [matchR, classRuns, lit, hc]

theorem drop_length_takeWhile (p : Char → Bool) :
    ∀ l : Str, l.drop (l.takeWhile p).length = l.dropWhile p := by
  intro l
  induction l with
  | nil => rfl
  | cons x xs ih =>
    by_cases hx : p x = true
    · simp [List.takeWhile, List.dropWhile, hx, ih]
    · simp only [Bool.not_eq_true] at hx
      simp [List.takeWhile, List.dropWhile, hx]

theorem phoneChar_plus : phoneChar '+' = false := by
  decide

/-- The first way the phone pattern matches at the front of `s` leaves what
follows the text `phoneAt s`. -/
theorem phoneRegex_head (s : Str) :
    (matchR phoneRegex s).head? = (phoneAt s).map (fun m => s.drop m.length) := by
  rw [phoneRegex, matchR_seq, optional_plus]
  cases s with
  | nil =>
    simp only [List.flatMap_cons, List.flatMap_nil, List.append_nil, rep_greedy_head]
    rfl
  | cons c cs =>
    by_cases hc : c = '+'
    · subst hc
      have hnil : matchR (.rep phoneChar 10 none true) ('+' :: cs) = [] := by
        apply rep_greedy_nil
        simp [List.takeWhile, phoneChar_plus]
      simp only [if_true, List.flatMap_cons, List.flatMap_nil, List.append_nil, hnil,
        rep_greedy_head, phoneAt]
      by_cases h10 : 10 ≤ (cs.takeWhile phoneChar).length
      · simp only [if_pos h10, Option.map_some', List.length_cons, List.drop_succ_cons]
        rw [drop_length_takeWhile]
      · simp only [if_neg h10, Option.map_none']
    · simp only [if_neg hc, List.flatMap_cons, List.flatMap_nil, List.append_nil,
        rep_greedy_head, phoneAt]
      by_cases h10 : 10 ≤ ((c :: cs).takeWhile phoneChar).length
      · simp only [if_pos h10, Option.map_some']
        rw [drop_length_takeWhile]
      · simp only [if_neg h10, Option.map_none']

theorem head_dropWhile_not (p : Char → Bool) :
    ∀ (l : Str) (c : Char), (l.dropWhile p).head? = some c → p c = false := by
  intro l
  induction l with
  | nil => intro c h; simp at h
  | cons x xs ih =>
    intro c h
    by_cases hx : p x = true
    · simp only [List.dropWhile, hx] at h
      exact ih c h
    · simp only [Bool.not_eq_true] at hx
      simp only [List.dropWhile, hx, List.head?_cons, Option.some.injEq] at h
      rw [← h]
      exact hx

theorem length_le_takeWhile (p : Char → Bool) :
    ∀ (run post : Str), (∀ c ∈ run, p c = true) →
      run.length ≤ ((run ++ post).takeWhile p).length := by
  intro run
  induction run with
  | nil => intro post _; simp
  | cons x xs ih =>
    intro post h
    have hx : p x = true := h x (List.mem_cons_self _ _)
    have := ih post (fun c hc => h c (List.mem_cons_of_mem _ hc))
    show (x :: xs).length ≤ ((x :: (xs ++ post)).takeWhile p).length
    rw [List.takeWhile_cons, if_pos hx]
    simp only [List.length_cons]
    omega

/-- What `phoneAt` returns: an optional `+`, then the longest run of phone
characters, which has at least 10 of them. -/
theorem phoneAt_some (s m : Str) (h : phoneAt s = some m) :
    ∃ plus run post, s = plus ++ run ++ post ∧ m = plus ++ run ∧
      (plus = [] ∨ plus = ['+']) ∧ 10 ≤ run.length ∧ (∀ c ∈ run, phoneChar c = true) ∧
      (∀ c, post.head? = some c → phoneChar c = false) := by
  cases s with
  | nil => simp [phoneAt] at h
  | cons c cs =>
    simp only [phoneAt] at h
    split at h
    · rename_i hc
      split at h
      · rename_i h10
        simp only [Option.some.injEq] at h
        refine ⟨['+'], cs.takeWhile phoneChar, cs.dropWhile phoneChar, ?_, ?_, Or.inr rfl, h10,
          fun x hx => (List.mem_takeWhile_imp hx), head_dropWhile_not phoneChar cs⟩
        · simp [hc, List.takeWhile_append_dropWhile]
        · rw [← h, hc]; rfl
      · simp at h
    · split at h
      · rename_i h10
        simp only [Option.some.injEq] at h
        refine ⟨[], (c :: cs).takeWhile phoneChar, (c :: cs).dropWhile phoneChar, ?_, ?_,
          Or.inl rfl, h10, fun x hx => (List.mem_takeWhile_imp hx),
          head_dropWhile_not phoneChar (c :: cs)⟩
        · simp only [List.nil_append, List.takeWhile_append_dropWhile]
        · rw [← h]; rfl
      · simp at h

/-- The phone pattern matches at the front of a run of at least 10 phone
characters, and at a `+` that stands before such a run. -/
theorem phoneAt_of_run (run post : Str) (h10 : 10 ≤ run.length)
    (hall : ∀ c ∈ run, phoneChar c = true) :
    (∃ m, phoneAt (run ++ post) = some m) ∧ (∃ m, phoneAt ('+' :: (run ++ post)) = some m) := by
  have hlen := length_le_takeWhile phoneChar run post hall
  constructor
  · cases run with
    | nil => simp at h10
    | cons c cs =>
      have hc : phoneChar c = true := hall c (List.mem_cons_self _ _)
      have hne : ¬ c = '+' := by
        intro e
        rw [e, phoneChar_plus] at hc
        cases hc
      simp only [List.cons_append] at hlen ⊢
      simp only [phoneAt, if_neg hne]
      rw [if_pos (by omega)]
      exact ⟨_, rfl⟩
  · simp only [phoneAt, if_true]
    rw [if_pos (by omega)]
    exact ⟨_, rfl⟩

theorem matchAll_phone_head :
    ∀ t : Str, (matchAll phoneRegex t 0).head? = firstPhone t := by
  intro t
  induction t with
  | nil =>
    have h := phoneRegex_head []
    simp only [phoneAt, Option.map_none', List.head?_eq_none_iff] at h
    simp [matchAll, h, firstPhone]
  | cons c cs ih =>
    have h := phoneRegex_head (c :: cs)
    cases hp : phoneAt (c :: cs) with
    | none =>
      rw [hp] at h
      simp only [Option.map_none', List.head?_eq_none_iff] at h
      rw [matchAll_cons_none _ _ _ h, ih]
      simp only [firstPhone, hp]
    | some m =>
      rw [hp] at h
      simp only [Option.map_some'] at h
      rw [matchAll_cons_some _ _ _ _ h]
      obtain ⟨plus, run, post, hs, hm, _⟩ := phoneAt_some (c :: cs) m hp
      have hpre : c :: cs = m ++ post := by rw [hs, hm]
      simp only [firstPhone, hp, List.head?_cons, Option.some.injEq]
      have hlen : (c :: cs).length - (List.drop m.length (c :: cs)).length = m.length := by
        rw [hpre]
        simp
      rw [hlen, hpre, List.take_left']
      rfl

theorem firstPhone_of_run :
    ∀ (pre run post : Str), 10 ≤ run.length → (∀ c ∈ run, phoneChar c = true) →
      ∃ m, firstPhone (pre ++ run ++ post) = some m := by
  intro pre
  induction pre with
  | nil =>
    intro run post h10 hall
    obtain ⟨⟨m, hm⟩, _⟩ := phoneAt_of_run run post h10 hall
    cases hr : run ++ post with
    | nil =>
      have := congrArg List.length hr
      simp only [List.length_append, List.length_nil] at this
      omega
    | cons c cs =>
      rw [hr] at hm
      exact ⟨m, by simp only [List.nil_append, hr, firstPhone, hm]⟩
  | cons x xs ih =>
    intro run post h10 hall
    obtain ⟨m, hm⟩ := ih run post h10 hall
    show ∃ m, firstPhone (x :: (xs ++ run ++ post)) = some m
    simp only [firstPhone]
    cases phoneAt (x :: (xs ++ run ++ post)) with
    | none => exact ⟨m, hm⟩
    | some m2 => exact ⟨m2, rfl⟩

/-- What `firstPhone` returns: the optional `+` and the longest run of phone
characters at the leftmost position where at least 10 phone characters start,
or start after a `+`. -/
theorem firstPhone_some :
    ∀ (t m : Str), firstPhone t = some m →
      ∃ pre plus run post, t = pre ++ plus ++ run ++ post ∧ m = plus ++ run ∧
        (plus = [] ∨ plus = ['+']) ∧ 10 ≤ run.length ∧ (∀ c ∈ run, phoneChar c = true) ∧
        (∀ c, post.head? = some c → phoneChar c = false) ∧
        (plus = [] → ∀ c, pre.getLast? = some c → c ≠ '+') ∧
        (∀ pre2 run2 post2, t = pre2 ++ run2 ++ post2 → 10 ≤ run2.length →
          (∀ c ∈ run2, phoneChar c = true) → (pre ++ plus).length ≤ pre2.length) := by
  intro t
  induction t with
  | nil => intro m h; simp [firstPhone] at h
  | cons x xs ih =>
    intro m h
    simp only [firstPhone] at h
    cases hp : phoneAt (x :: xs) with
    | some m2 =>
      rw [hp] at h
      simp only [Option.some.injEq] at h
      subst h
      obtain ⟨plus, run, post, hs, hm, hplus, h10, hall, hpost⟩ := phoneAt_some _ _ hp
      refine ⟨[], plus, run, post, by simpa using hs, hm, hplus, h10, hall, hpost, ?_, ?_⟩
      · intro _ c hc
        simp at hc
      · intro pre2 run2 post2 h2 h102 hall2
        rcases hplus with hpl | hpl
        · simp [hpl]
        · cases pre2 with
          | nil =>
            exfalso
            cases run2 with
            | nil => simp at h102
            | cons r rs =>
              rw [hs, hpl] at h2
              simp only [List.cons_append, List.nil_append, List.cons.injEq] at h2
              have := hall2 r (List.mem_cons_self _ _)
              rw [← h2.1, phoneChar_plus] at this
              cases this
          | cons _ _ => simp [hpl]
    | none =>
      rw [hp] at h
      obtain ⟨pre, plus, run, post, hs, hm, hplus, h10, hall, hpost, hlast, hleft⟩ := ih m h
      refine ⟨x :: pre, plus, run, post, by simp [hs], hm, hplus, h10, hall, hpost, ?_, ?_⟩
      · intro hpl c hc
        cases pre with
        | cons y ys =>
          rw [List.getLast?_cons_cons] at hc
          exact hlast hpl c hc
        | nil =>
          simp only [List.getLast?_singleton, Option.some.injEq] at hc
          subst hc
          intro hx
          have hxs : xs = run ++ post := by simpa [hpl] using hs
          obtain ⟨_, ⟨m3, hm3⟩⟩ := phoneAt_of_run run post h10 hall
          rw [hx, hxs, hm3] at hp
          cases hp
      · intro pre2 run2 post2 h2 h102 hall2
        cases pre2 with
        | nil =>
          exfalso
          obtain ⟨⟨m3, hm3⟩, _⟩ := phoneAt_of_run run2 post2 h102 hall2
          simp only [List.nil_append] at h2
          rw [h2, hm3] at hp
          cases hp
        | cons y ys =>
          simp only [List.cons_append, List.cons.injEq] at h2
          have := hleft ys run2 post2 h2.2 h102 hall2
          simp only [List.cons_append, List.length_cons]
          omega

theorem firstPhone_ne_notFound (t m : Str) (h : firstPhone t = some m) :
    m ≠ [] ∧ m ≠ notFound := by
  obtain ⟨pre, plus, run, post, _, hm, hplus, h10, hall, _⟩ := firstPhone_some t m h
  cases run with
  | nil => simp at h10
  | cons r rs =>
    have hr : phoneChar r = true := hall r (List.mem_cons_self _ _)
    rcases hplus with hpl | hpl
    · subst hpl
      simp only [List.nil_append] at hm
      subst hm
      refine ⟨by simp, ?_⟩
      intro e
      have e1 : r = 'N' := by
        have := congrArg List.head? e
        simpa [notFound] using this
      rw [e1] at hr
      revert hr
      decide
    · subst hpl
      subst hm
      refine ⟨by simp, ?_⟩
      intro e
      have := congrArg List.head? e
      simp [notFound] at this

theorem phone_eq (t : Str) :
    (extractPersonalInfo t).phone =
      match firstPhone t with
      | some m => m
      | none => notFound := by
  have h := matchAll_phone_head t
  simp only [extractPersonalInfo, h]
  cases hf : firstPhone t with
  | none => rfl
  | some m =>
    have hne := (firstPhone_ne_notFound t m hf).1
    cases m with
    | nil => exact absurd rfl hne
    | cons _ _ => rfl

/-- C19, the claim refuted: `12345+67890` is a run of 11 characters that are
each a digit, a space, `+`, `-`, `(` or `)`, yet the phone is `Non trouvé`,
because a `+` is accepted only in front of the run; and in `1+1234567890`,
which is such a run as a whole, the phone is `+1234567890`, not the run. -/
theorem C19_plus_inside_run_counterexample :
    (∃ pre run post, "12345+67890".toList = pre ++ run ++ post ∧ 10 ≤ run.length ∧
      ∀ c ∈ run, claimedPhoneChar c = true) ∧
    (extractPersonalInfo "12345+67890".toList).phone = "Non trouvé".toList ∧
    (∀ c ∈ "1+1234567890".toList, claimedPhoneChar c = true) ∧
    (extractPersonalInfo "1+1234567890".toList).phone = "+1234567890".toList := by
  refine ⟨⟨[], "12345+67890".toList, [], rfl, by decide, by decide⟩, rfl, by decide, rfl⟩

/-- C19 as amended: for every text, the phone differs from `Non trouvé` exactly
when the text holds a run of at least 10 consecutive characters each of which
is a digit, a white-space character, `-`, `(` or `)` (a `+` does not count);
and when it differs, the phone is such a run taken as long as possible, at the
leftmost place where one starts, together with the `+` right before it when
there is one, so it has at least 10 characters. -/
theorem C19_phone_is_first_run (t : Str) :
    ((extractPersonalInfo t).phone ≠ "Non trouvé".toList ↔
      ∃ pre run post, t = pre ++ run ++ post ∧ 10 ≤ run.length ∧
        ∀ c ∈ run, phoneChar c = true) ∧
    ((extractPersonalInfo t).phone ≠ "Non trouvé".toList →
      ∃ pre plus run post, t = pre ++ plus ++ run ++ post ∧
        (extractPersonalInfo t).phone = plus ++ run ∧
        (plus = [] ∨ plus = ['+']) ∧ 10 ≤ run.length ∧ (∀ c ∈ run, phoneChar c = true) ∧
        (∀ c, post.head? = some c → phoneChar c = false) ∧
        (plus = [] → ∀ c, pre.getLast? = some c → c ≠ '+') ∧
        (∀ pre2 run2 post2, t = pre2 ++ run2 ++ post2 → 10 ≤ run2.length →
          (∀ c ∈ run2, phoneChar c = true) → (pre ++ plus).length ≤ pre2.length) ∧
        10 ≤ (extractPersonalInfo t).phone.length) := by
  have hph := phone_eq t
  have hnf : notFound = "Non trouvé".toList := rfl
  cases hf : firstPhone t with
  | none =>
    rw [hf] at hph
    simp only at hph
    rw [hph, hnf]
    refine ⟨⟨fun h => absurd rfl h, ?_⟩, fun h => absurd rfl h⟩
    rintro ⟨pre, run, post, ht, h10, hall⟩
    obtain ⟨m, hm⟩ := firstPhone_of_run pre run post h10 hall
    rw [← ht, hf] at hm
    cases hm
  | some m =>
    rw [hf] at hph
    simp only at hph
    have hne := (firstPhone_ne_notFound t m hf).2
    rw [hnf] at hne
    obtain ⟨pre, plus, run, post, ht, hm, hplus, h10, hall, hpost, hlast, hleft⟩ :=
      firstPhone_some t m hf
    rw [hph]
    refine ⟨⟨fun _ => ⟨pre ++ plus, run, post, by rw [ht], h10, hall⟩, fun _ => hne⟩, fun _ =>
      ⟨pre, plus, run, post, ht, hm, hplus, h10, hall, hpost, hlast, hleft, ?_⟩⟩
    rw [hm, List.length_append]
    omega

/-- C19 as amended, on `Tel: +33 (0)6 12-34-56 78.`: the text holds a run of 19
phone characters, so the phone is found. -/
theorem C19_phone_is_first_run_witness :
    (extractPersonalInfo "Tel: +33 (0)6 12-34-56 78.".toList).phone ≠ "Non trouvé".toList ∧
    (extractPersonalInfo "Tel: +33 (0)6 12-34-56 78.".toList).phone =
      "+33 (0)6 12-34-56 78".toList :=
  ⟨(C19_phone_is_first_run "Tel: +33 (0)6 12-34-56 78.".toList).1.2
      ⟨"Tel: +".toList, "33 (0)6 12-34-56 78".toList, ".".toList, by decide, by decide,
        by decide⟩,
   by decide⟩

/-! ## C21 -/

theorem yearSep_digit (e : Char) (r : Str) (he : isDigit e = true) :
    matchR yearSep (e :: r) = [e :: r] := by
  have := not_sep_of_isDigit e he
  simp only [Bool.or_eq_false_iff] at this
  simp [matchR, yearSep, classRuns, this.1, this.2]

theorem eight_alt_match (d1 d2 d3 d4 e1 e2 e3 e4 : Char) (r : Str)
    (h1 : isDigit d1 = true) (h2 : isDigit d2 = true) (h3 : isDigit d3 = true)
    (h4 : isDigit d4 = true) (k1 : isDigit e1 = true) (k2 : isDigit e2 = true)
    (k3 : isDigit e3 = true) (k4 : isDigit e4 = true) :
    matchR (.seq fourDigits (.seq yearSep fourDigits))
      (d1 :: d2 :: d3 :: d4 :: e1 :: e2 :: e3 :: e4 :: r) = [r] := by
  rw [matchR_seq, fourDigits_match d1 d2 d3 d4 _ h1 h2 h3 h4]
  simp only [List.flatMap_cons, List.flatMap_nil, List.append_nil]
  rw [matchR_seq, yearSep_digit e1 _ k1]
  simp only [List.flatMap_cons, List.flatMap_nil, List.append_nil]
  rw [fourDigits_match e1 e2 e3 e4 _ k1 k2 k3 k4]

theorem matchAll_exp_eight (d1 d2 d3 d4 e1 e2 e3 e4 : Char) (r : Str)
    (h1 : isDigit d1 = true) (h2 : isDigit d2 = true) (h3 : isDigit d3 = true)
    (h4 : isDigit d4 = true) (k1 : isDigit e1 = true) (k2 : isDigit e2 = true)
    (k3 : isDigit e3 = true) (k4 : isDigit e4 = true) :
    matchAll expRegex (d1 :: d2 :: d3 :: d4 :: e1 :: e2 :: e3 :: e4 :: r) 0 =
      [d1, d2, d3, d4, e1, e2, e3, e4] :: matchAll expRegex r 0 := by
  have hhead : (matchR expRegex (d1 :: ([d2, d3, d4, e1, e2, e3, e4] ++ r))).head? = some r := by
    show (matchR expRegex (d1 :: d2 :: d3 :: d4 :: e1 :: e2 :: e3 :: e4 :: r)).head? = some r
    rw [expRegex, matchR_alt, eight_alt_match d1 d2 d3 d4 e1 e2 e3 e4 r h1 h2 h3 h4 k1 k2 k3 k4]
    rfl
  exact matchAll_leading expRegex d1 [d2, d3, d4, e1, e2, e3, e4] r hhead

theorem matchAll_four_eight (d1 d2 d3 d4 e1 e2 e3 e4 : Char)
    (h1 : isDigit d1 = true) (h2 : isDigit d2 = true) (h3 : isDigit d3 = true)
    (h4 : isDigit d4 = true) (k1 : isDigit e1 = true) (k2 : isDigit e2 = true)
    (k3 : isDigit e3 = true) (k4 : isDigit e4 = true) :
    matchAll fourDigits [d1, d2, d3, d4, e1, e2, e3, e4] 0 =
      [[d1, d2, d3, d4], [e1, e2, e3, e4]] := by
  have m1 : (matchR fourDigits (d1 :: ([d2, d3, d4] ++ [e1, e2, e3, e4]))).head? =
      some [e1, e2, e3, e4] := by
    show (matchR fourDigits (d1 :: d2 :: d3 :: d4 :: [e1, e2, e3, e4])).head? = _
    rw [fourDigits_match d1 d2 d3 d4 _ h1 h2 h3 h4]; rfl
  have m2 : (matchR fourDigits (e1 :: ([e2, e3, e4] ++ []))).head? = some [] := by
    show (matchR fourDigits (e1 :: e2 :: e3 :: e4 :: [])).head? = _
    rw [fourDigits_match e1 e2 e3 e4 _ k1 k2 k3 k4]; rfl
  have s1 := matchAll_leading fourDigits d1 [d2, d3, d4] [e1, e2, e3, e4] m1
  have s2 := matchAll_leading fourDigits e1 [e2, e3, e4] [] m2
  have s3 : matchAll fourDigits [] 0 = [] := by
    simp [matchAll, fourDigits_nil]
  simp only [List.cons_append, List.nil_append] at s1 s2
  rw [s1, s2, s3]

theorem extractExperience_eight (currentYear : Int) (d1 d2 d3 d4 e1 e2 e3 e4 : Char)
    (h1 : isDigit d1 = true) (h2 : isDigit d2 = true) (h3 : isDigit d3 = true)
    (h4 : isDigit d4 = true) (k1 : isDigit e1 = true) (k2 : isDigit e2 = true)
    (k3 : isDigit e3 = true) (k4 : isDigit e4 = true) :
    extractExperience currentYear [d1, d2, d3, d4, e1, e2, e3, e4] =
      { experiencePeriods := [[d1, d2, d3, d4, e1, e2, e3, e4]]
        experienceYears := max 0 (parseInt [e1, e2, e3, e4] - parseInt [d1, d2, d3, d4]) } := by
  have hm := matchAll_exp_eight d1 d2 d3 d4 e1 e2 e3 e4 [] h1 h2 h3 h4 k1 k2 k3 k4
  rw [exp_nil] at hm
  simp only [extractExperience, calculateExperienceYears, hm, List.foldl_cons, List.foldl_nil,
    matchAll_four_eight d1 d2 d3 d4 e1 e2 e3 e4 h1 h2 h3 h4 k1 k2 k3 k4, List.head?_cons,
    zero_add]

/-- C21: on every text of exactly eight decimal digits `extractExperience`
reports the whole text as the one period, and `experienceYears` is
`max(0, end - start)` with `start` the number written by the first four digits
and `end` the number written by the last four, whatever the current year; on
`12345678` the years are 4444, and on the ten digits `0612345678` of a phone
number the period is `06123456` and the years are 2844. -/
theorem C21_eight_digits :
    (∀ (currentYear : Int) (t : Str), t.length = 8 → (∀ c ∈ t, isDigit c = true) →
      extractExperience currentYear t =
        { experiencePeriods := [t]
          experienceYears := max 0 (parseInt (t.drop 4) - parseInt (t.take 4)) }) ∧
    (∀ d1 d2 d3 d4 : Char, isDigit d1 = true → isDigit d2 = true → isDigit d3 = true →
      isDigit d4 = true →
      parseInt [d1, d2, d3, d4] =
        1000 * ((d1.toNat : Int) - 48) + 100 * ((d2.toNat : Int) - 48)
          + 10 * ((d3.toNat : Int) - 48) + ((d4.toNat : Int) - 48)) ∧
    (∀ currentYear : Int,
      extractExperience currentYear "12345678".toList =
        { experiencePeriods := ["12345678".toList], experienceYears := 4444 }) ∧
    (∀ currentYear : Int,
      extractExperience currentYear "0612345678".toList =
        { experiencePeriods := ["06123456".toList], experienceYears := 2844 }) := by
  refine ⟨?_, parseInt_four, fun _ => rfl, fun _ => rfl⟩
  intro cy t hlen hdig
  match t, hlen, hdig with
  | [d1, d2, d3, d4, e1, e2, e3, e4], _, hdig =>
    have h : ∀ c ∈ [d1, d2, d3, d4, e1, e2, e3, e4], isDigit c = true := hdig
    simp only [List.mem_cons, List.mem_singleton, List.not_mem_nil, or_false, forall_eq_or_imp,
      forall_eq] at h
    obtain ⟨h1, h2, h3, h4, k1, k2, k3, k4⟩ := h
    exact extractExperience_eight cy d1 d2 d3 d4 e1 e2 e3 e4 h1 h2 h3 h4 k1 k2 k3 k4

/-- C21 at `20231999`, eight digits whose second half is the smaller number:
the one period is the whole text and the years are 0, with the current year
2026 as with any other. -/
theorem C21_eight_digits_witness :
    "20231999".toList.length = 8 ∧ (∀ c ∈ "20231999".toList, isDigit c = true) ∧
    extractExperience 2026 "20231999".toList =
      { experiencePeriods := ["20231999".toList], experienceYears := 0 } := by
  refine ⟨rfl, by decide, ?_⟩
  rw [C21_eight_digits.1 2026 "20231999".toList rfl (by decide)]
  rfl

/-! ## C22 -/

theorem includes_trans (s a b : Str) (hab : includes a b = true) (hsa : includes s a = true) :
    includes s b = true := by
  rw [includes_iff] at hab hsa ⊢
  obtain ⟨p, q, rfl⟩ := hab
  obtain ⟨pre, post, rfl⟩ := hsa
  exact ⟨pre ++ p, q ++ post, by simp only [List.append_assoc]⟩

/-- C22: for every text and every lower-casing function that maps the
vocabulary terms as the lower-casing of ASCII does, `extractTechnicalSkills`
returns and its `identifiedSkills` holds `Java` whenever it holds `JavaScript`,
and `Go` whenever it holds `Django` or `MongoDB`; and for every text and every
lower-casing function, `educationMentioned` holds `bac` whenever it holds
`bachelor`. -/
theorem C22_containment_closure :
    (∀ (toLowerCase : Str → Str) (t : Str),
      (∀ k ∈ skillsKeywords, toLowerCase k = toLowerCaseLatin1 k) →
      ∃ ts, extractTechnicalSkills toLowerCase t = some ts ∧
        ("JavaScript".toList ∈ ts.identifiedSkills → "Java".toList ∈ ts.identifiedSkills) ∧
        ("Django".toList ∈ ts.identifiedSkills → "Go".toList ∈ ts.identifiedSkills) ∧
        ("MongoDB".toList ∈ ts.identifiedSkills → "Go".toList ∈ ts.identifiedSkills)) ∧
    (∀ (toLowerCase : Str → Str) (t : Str),
      "bachelor".toList ∈ (extractEducation toLowerCase t).educationMentioned →
      "bac".toList ∈ (extractEducation toLowerCase t).educationMentioned) := by
  constructor
  · intro lower t hlow
    obtain ⟨secs, _, h⟩ := extractTechnicalSkills_eq lower t
    have key : ∀ a b : Str, a ∈ skillsKeywords → b ∈ skillsKeywords →
        includes (toLowerCaseLatin1 a) (toLowerCaseLatin1 b) = true →
        a ∈ (skillsKeywords.filter (fun skill => includes (lower t) (lower skill))) →
        b ∈ (skillsKeywords.filter (fun skill => includes (lower t) (lower skill))) := by
      intro a b ha hb hab hmem
      simp only [List.mem_filter] at hmem ⊢
      refine ⟨hb, ?_⟩
      rw [hlow b hb]
      have h2 := hmem.2
      rw [hlow a ha] at h2
      exact includes_trans _ _ _ hab h2
    refine ⟨_, h, ?_, ?_, ?_⟩
    · exact key _ _ (by decide) (by decide) (by decide)
    · exact key _ _ (by decide) (by decide) (by decide)
    · exact key _ _ (by decide) (by decide) (by decide)
  · intro lower t hmem
    simp only [extractEducation, List.mem_filter] at hmem ⊢
    exact ⟨by decide, includes_trans _ _ _ (by decide) hmem.2⟩

/-- C22 on `Django, MongoDB` and on `Bachelor`, with the lower-casing of
Latin-1 texts: the skills found are `Go`, `Django` and `MongoDB`, the
education keywords found are `bac` and `bachelor`. -/
theorem C22_containment_closure_witness :
    (∀ k ∈ skillsKeywords, toLowerCaseLatin1 k = toLowerCaseLatin1 k) ∧
    (∃ ts, extractTechnicalSkills toLowerCaseLatin1 "Django, MongoDB".toList = some ts ∧
      ts.identifiedSkills = ["Go".toList, "Django".toList, "MongoDB".toList] ∧
      ("Django".toList ∈ ts.identifiedSkills → "Go".toList ∈ ts.identifiedSkills)) ∧
    "bachelor".toList ∈ (extractEducation toLowerCaseLatin1 "Bachelor".toList).educationMentioned ∧
    "bac".toList ∈ (extractEducation toLowerCaseLatin1 "Bachelor".toList).educationMentioned := by
  refine ⟨fun _ _ => rfl, ?_, by decide,
    C22_containment_closure.2 toLowerCaseLatin1 "Bachelor".toList (by decide)⟩
  obtain ⟨ts, h, _, h2, _⟩ :=
    C22_containment_closure.1 toLowerCaseLatin1 "Django, MongoDB".toList (fun _ _ => rfl)
  refine ⟨ts, h, ?_, h2⟩
  have hd : (extractTechnicalSkills toLowerCaseLatin1 "Django, MongoDB".toList).map
      (fun x => x.identifiedSkills) = some ["Go".toList, "Django".toList, "MongoDB".toList] := by
    decide
  rw [h] at hd
  simpa using hd

/-! ## C23 -/

theorem lookup_setProperty_same (ms : List (Str × Json)) (k : Str) (v : Json) :
    (setProperty ms k v).lookup k = some v := by
  induction ms with
  | nil => simp [setProperty, List.lookup]
  | cons m rest ih =>
    obtain ⟨k1, v1⟩ := m
    by_cases h : k1 = k
    · simp [setProperty, h, List.lookup]
    · have h2 : (k == k1) = false := by
        simp only [beq_eq_false_iff_ne, ne_eq]
        exact fun e => h e.symm
      simp only [setProperty, if_neg h, List.lookup, h2, ih]

theorem lookup_setProperty_other (ms : List (Str × Json)) (k : Str) (v : Json) (k2 : Str)
    (hne : k2 ≠ k) : (setProperty ms k v).lookup k2 = ms.lookup k2 := by
  induction ms with
  | nil =>
    have h2 : (k2 == k) = false := by simpa using hne
    simp [setProperty, List.lookup, h2]
  | cons m rest ih =>
    obtain ⟨k1, v1⟩ := m
    by_cases h : k1 = k
    · subst h
      have h2 : (k2 == k1) = false := by simpa using hne
      simp only [setProperty, if_true, List.lookup, h2]
    · simp only [setProperty, if_neg h, List.lookup, ih]

theorem mem_keys_setProperty (ms : List (Str × Json)) (k : Str) (v : Json) (x : Str) :
    x ∈ (setProperty ms k v).map Prod.fst ↔ (x ∈ ms.map Prod.fst ∨ x = k) := by
  induction ms with
  | nil => simp [setProperty]
  | cons m rest ih =>
    obtain ⟨k1, v1⟩ := m
    by_cases h : k1 = k
    · subst h
      simp only [setProperty, if_true, List.map_cons, List.mem_cons]
      tauto
    · simp only [setProperty, if_neg h, List.map_cons, List.mem_cons, ih]
      tauto

theorem nodup_setProperty (ms : List (Str × Json)) (k : Str) (v : Json)
    (h : (ms.map Prod.fst).Nodup) : ((setProperty ms k v).map Prod.fst).Nodup := by
  induction ms with
  | nil => simp [setProperty]
  | cons m rest ih =>
    obtain ⟨k1, v1⟩ := m
    simp only [List.map_cons, List.nodup_cons] at h
    by_cases hk : k1 = k
    · subst hk
      simp only [setProperty, if_true, List.map_cons, List.nodup_cons]
      exact h
    · simp only [setProperty, if_neg hk, List.map_cons, List.nodup_cons, mem_keys_setProperty]
      refine ⟨?_, ih h.2⟩
      rintro (h1 | h1)
      · exact h.1 h1
      · exact hk h1

theorem reverse_lookup_of_nodup (ms : List (Str × Json)) (h : (ms.map Prod.fst).Nodup)
    (k : Str) : ms.reverse.lookup k = ms.lookup k := by
  induction ms with
  | nil => rfl
  | cons m rest ih =>
    obtain ⟨k1, v1⟩ := m
    simp only [List.map_cons, List.nodup_cons] at h
    rw [List.reverse_cons, List.lookup_append, ih h.2]
    by_cases hk : k = k1
    · subst hk
      have hnone : rest.lookup k = none := by
        rw [List.lookup_eq_none_iff]
        intro p hp
        simp only [bne_iff_ne, ne_eq]
        intro hpk
        apply h.1
        rw [hpk]
        exact List.mem_map_of_mem _ hp
      simp [hnone, List.lookup]
    · have h2 : (k == k1) = false := by simpa using hk
      simp only [List.lookup, h2]
      cases rest.lookup k <;> rfl

theorem setProperty_setProperty (ms : List (Str × Json)) (k : Str) (v w : Json) :
    setProperty (setProperty ms k v) k w = setProperty ms k w := by
  induction ms with
  | nil => simp [setProperty]
  | cons m rest ih =>
    obtain ⟨k1, v1⟩ := m
    by_cases hk : k1 = k
    · simp [setProperty, hk]
    · simp only [setProperty, if_neg hk, ih]

theorem setProperty_of_not_mem (ms : List (Str × Json)) (k : Str) (v : Json)
    (h : k ∉ ms.map Prod.fst) : setProperty ms k v = ms ++ [(k, v)] := by
  induction ms with
  | nil => rfl
  | cons m rest ih =>
    obtain ⟨k1, v1⟩ := m
    simp only [List.map_cons, List.mem_cons, not_or] at h
    have hk : ¬ k1 = k := fun e => h.1 e.symm
    simp only [setProperty, if_neg hk, ih h.2, List.cons_append]

theorem filter_setProperty (ms : List (Str × Json)) (k : Str) (v : Json) :
    (setProperty ms k v).filter (fun m => decide (m.1 ≠ k)) =
      ms.filter (fun m => decide (m.1 ≠ k)) := by
  induction ms with
  | nil => simp [setProperty]
  | cons m rest ih =>
    obtain ⟨k1, v1⟩ := m
    by_cases hk : k1 = k
    · simp [setProperty, hk]
    · simp only [setProperty, if_neg hk, List.filter_cons, ih]

theorem nodup_objectSpread (src acc : List (Str × Json)) (h : (acc.map Prod.fst).Nodup) :
    ((objectSpread acc src).map Prod.fst).Nodup := by
  induction src generalizing acc with
  | nil => exact h
  | cons m rest ih => exact ih _ (nodup_setProperty acc m.1 m.2 h)

theorem objectSpread_of_nodup (src acc : List (Str × Json))
    (h : ((acc ++ src).map Prod.fst).Nodup) : objectSpread acc src = acc ++ src := by
  induction src generalizing acc with
  | nil => simp [objectSpread]
  | cons m rest ih =>
    have hm : m.1 ∉ acc.map Prod.fst := by
      intro hmem
      simp only [List.map_append, List.map_cons] at h
      have := (List.nodup_append.1 h).2.2
      exact this hmem (List.mem_cons_self _ _)
    have e : setProperty acc m.1 m.2 = acc ++ [m] := setProperty_of_not_mem acc m.1 m.2 hm
    show objectSpread (setProperty acc m.1 m.2) rest = acc ++ m :: rest
    rw [e, ih (acc ++ [m]) (by simpa using h)]
    simp

theorem lookup_objectSpread (src acc : List (Str × Json)) (k : Str) :
    (objectSpread acc src).lookup k = (src.reverse.lookup k).or (acc.lookup k) := by
  induction src generalizing acc with
  | nil => simp [objectSpread]
  | cons m rest ih =>
    obtain ⟨k1, v1⟩ := m
    show (objectSpread (setProperty acc k1 v1) rest).lookup k = _
    rw [ih, List.reverse_cons, List.lookup_append]
    by_cases hk : k = k1
    · subst hk
      simp [lookup_setProperty_same, List.lookup]
      cases rest.reverse.lookup k <;> rfl
    · have h2 : (k == k1) = false := by simpa using hk
      rw [lookup_setProperty_other acc k1 v1 k hk]
      simp only [List.lookup, h2]
      cases rest.reverse.lookup k <;> rfl

theorem ownProperties_of_falsy (v : Json) (h : toBoolean v = false) : ownProperties v = [] := by
  cases v with
  | null => rfl
  | bool b => rfl
  | num t => rfl
  | str s =>
    cases s with
    | nil => rfl
    | cons c cs => simp [toBoolean] at h
  | arr items => simp [toBoolean] at h
  | obj members => simp [toBoolean] at h


theorem updatedConfig_object (env : SetupEnv) (members : List (Str × Json))
    (hnd : (members.map Prod.fst).Nodup) :
    updatedConfig env (.obj members) =
      some (.obj (setProperty members "mcpServers".toList
        (.obj (objectSpread
          (objectSpread []
            (match members.lookup "mcpServers".toList with
             | some v => ownProperties v
             | none => []))
          (generateMCPConfig env))))) := by
  have hempty : (setProperty members "mcpServers".toList (.obj [])).reverse.lookup
      "mcpServers".toList = some (.obj []) := by
    rw [reverse_lookup_of_nodup _ (nodup_setProperty _ _ _ hnd), lookup_setProperty_same]
  simp only [updatedConfig, Json.field, reverse_lookup_of_nodup members hnd]
  cases hl : members.lookup "mcpServers".toList with
  | none =>
    simp only [hempty, setProperty_setProperty]
    rfl
  | some v =>
    by_cases hv : toBoolean v = true
    · simp only [hv, if_true, reverse_lookup_of_nodup members hnd, hl]
    · simp only [Bool.not_eq_true] at hv
      simp only [hv, Bool.false_eq_true, if_false, hempty, setProperty_setProperty,
        ownProperties_of_falsy v hv]
      rfl

/-- C23: for every configuration object read from the file (the properties
`members` of the parsed content, each key once), `updateClaudeConfig` writes
the serialization of an object `written` such that: every property other than
`mcpServers` has the value it had, and those properties keep their order;
`mcpServers` is an object `servers` in which every key other than
`mcp-cv-server` has the value it had among the properties of the former
`mcpServers` (and which is the generated configuration alone when there was no
`mcpServers`); `mcp-cv-server` is the entry of `generateMCPConfig`, with
command `node`, the one argument `path.join(__dirname, "index.js")` and the
environment `CV_PDF_PATH` set to `path.join(__dirname, "cv.pdf")`; and the
update leaves `written` as it is, so that a second run, on a file that parses
back to `written`, writes the same text again. -/
theorem C23_update_frame (env : SetupEnv) (content : Str) (members : List (Str × Json))
    (hread : env.jsonParse content = some (.obj members))
    (hnd : (members.map Prod.fst).Nodup) :
    ∃ written servers : List (Str × Json),
      updatedConfig env (readExistingConfig env (some content)) = some (.obj written) ∧
      updateClaudeConfig env (some content) = .written (env.jsonStringify (.obj written)) ∧
      (∀ k : Str, k ≠ "mcpServers".toList →
        (Json.obj written).field k = (Json.obj members).field k) ∧
      written.filter (fun m => decide (m.1 ≠ "mcpServers".toList)) =
        members.filter (fun m => decide (m.1 ≠ "mcpServers".toList)) ∧
      (Json.obj written).field "mcpServers".toList = some (.obj servers) ∧
      (∀ old : Json, (Json.obj members).field "mcpServers".toList = some old →
        ∀ k : Str, k ≠ "mcp-cv-server".toList →
          (Json.obj servers).field k = (Json.obj (ownProperties old)).field k) ∧
      ((Json.obj members).field "mcpServers".toList = none →
        servers = generateMCPConfig env) ∧
      (Json.obj servers).field "mcp-cv-server".toList =
        (Json.obj (generateMCPConfig env)).field "mcp-cv-server".toList ∧
      (Json.obj (generateMCPConfig env)).field "mcp-cv-server".toList =
        some (.obj
          [("command".toList, .str "node".toList),
           ("args".toList, .arr [.str (env.pathJoin env.dirname "index.js".toList)]),
           ("env".toList, .obj
             [("CV_PDF_PATH".toList, .str (env.pathJoin env.dirname "cv.pdf".toList))])]) ∧
      updatedConfig env (.obj written) = some (.obj written) ∧
      (env.jsonParse (env.jsonStringify (.obj written)) = some (.obj written) →
        updateClaudeConfig env (some (env.jsonStringify (.obj written))) =
          .written (env.jsonStringify (.obj written))) := by
  have hclosed := updatedConfig_object env members hnd
  have hex : readExistingConfig env (some content) = .obj members := by
    simp only [readExistingConfig, hread]
  generalize hP : (match members.lookup "mcpServers".toList with
    | some v => ownProperties v
    | none => ([] : List (Str × Json))) = P at hclosed
  have hG : generateMCPConfig env = [("mcp-cv-server".toList,
      ((generateMCPConfig env).lookup "mcp-cv-server".toList).getD .null)] := rfl
  generalize hE : ((generateMCPConfig env).lookup "mcp-cv-server".toList).getD .null = E at hG
  have hS : objectSpread (objectSpread [] P) (generateMCPConfig env) =
      setProperty (objectSpread [] P) "mcp-cv-server".toList E := by
    rw [hG]
    rfl
  rw [hS] at hclosed
  have hndX : ((objectSpread [] P).map Prod.fst).Nodup := nodup_objectSpread P [] (by simp)
  have hndS := nodup_setProperty (objectSpread [] P) "mcp-cv-server".toList E hndX
  have hndW := nodup_setProperty members "mcpServers".toList
    (.obj (setProperty (objectSpread [] P) "mcp-cv-server".toList E)) hnd
  have hidem : updatedConfig env
      (.obj (setProperty members "mcpServers".toList
        (.obj (setProperty (objectSpread [] P) "mcp-cv-server".toList E)))) =
      some (.obj (setProperty members "mcpServers".toList
        (.obj (setProperty (objectSpread [] P) "mcp-cv-server".toList E)))) := by
    have e1 : objectSpread [] (setProperty (objectSpread [] P) "mcp-cv-server".toList E) =
        setProperty (objectSpread [] P) "mcp-cv-server".toList E := by
      have := objectSpread_of_nodup (setProperty (objectSpread [] P) "mcp-cv-server".toList E) []
        (by simpa using hndS)
      simpa using this
    have e2 : objectSpread (setProperty (objectSpread [] P) "mcp-cv-server".toList E)
        (generateMCPConfig env) =
        setProperty (setProperty (objectSpread [] P) "mcp-cv-server".toList E)
          "mcp-cv-server".toList E := by
      rw [hG]
      rfl
    rw [updatedConfig_object env _ hndW, lookup_setProperty_same]
    show some (Json.obj (setProperty (setProperty members "mcpServers".toList _)
      "mcpServers".toList (.obj (objectSpread (objectSpread []
        (setProperty (objectSpread [] P) "mcp-cv-server".toList E))
        (generateMCPConfig env))))) = _
    rw [e1, e2, setProperty_setProperty, setProperty_setProperty]
  refine ⟨_, setProperty (objectSpread [] P) "mcp-cv-server".toList E, ?_, ?_, ?_, ?_, ?_, ?_,
    ?_, ?_, rfl, hidem, ?_⟩
  · rw [hex, hclosed]
  · simp only [updateClaudeConfig, hex, hclosed]
  · intro k hk
    simp only [Json.field]
    rw [reverse_lookup_of_nodup _ hndW, reverse_lookup_of_nodup _ hnd,
      lookup_setProperty_other _ _ _ _ hk]
  · exact filter_setProperty _ _ _
  · simp only [Json.field]
    rw [reverse_lookup_of_nodup _ hndW, lookup_setProperty_same]
  · intro old hold k hk
    simp only [Json.field] at hold ⊢
    rw [reverse_lookup_of_nodup _ hnd] at hold
    rw [hold] at hP
    simp only at hP
    rw [reverse_lookup_of_nodup _ hndS, lookup_setProperty_other _ _ _ _ hk,
      lookup_objectSpread, hP]
    simp
  · intro hnone
    simp only [Json.field] at hnone
    rw [reverse_lookup_of_nodup _ hnd] at hnone
    rw [hnone] at hP
    simp only at hP
    rw [← hP, hG]
    rfl
  · simp only [Json.field]
    rw [reverse_lookup_of_nodup _ hndS, lookup_setProperty_same, hG]
    rfl
  · intro hround
    simp only [updateClaudeConfig, readExistingConfig, hround, hidem]


set_option maxRecDepth 100000 in
/-- C23 on a configuration with a theme, another server, an older entry
`mcp-cv-server` and a number: the theme, the other server and the number are
kept, the entry is replaced, and a second run writes the same text. -/
theorem C23_update_frame_witness :
    exampleEnv.jsonParse exampleConfigText = some (.obj exampleConfig) ∧
    (exampleConfig.map Prod.fst).Nodup ∧
    updateClaudeConfig exampleEnv (some exampleConfigText) =
      .written (Json.stringify [] (.obj exampleUpdated)) ∧
    exampleEnv.jsonParse (Json.stringify [] (.obj exampleUpdated)) =
      some (.obj exampleUpdated) ∧
    updateClaudeConfig exampleEnv (some (Json.stringify [] (.obj exampleUpdated))) =
      .written (Json.stringify [] (.obj exampleUpdated)) := by
  have hread : exampleEnv.jsonParse exampleConfigText = some (.obj exampleConfig) := rfl
  have hnd : (exampleConfig.map Prod.fst).Nodup := by decide
  obtain ⟨written, servers, h1, h2, _, _, _, _, _, _, _, _, h3⟩ :=
    C23_update_frame exampleEnv exampleConfigText exampleConfig hread hnd
  have hw : written = exampleUpdated := by
    have h4 : updatedConfig exampleEnv (readExistingConfig exampleEnv (some exampleConfigText)) =
        some (.obj exampleUpdated) := rfl
    rw [h1] at h4
    exact Json.obj.inj (Option.some.inj h4)
  subst hw
  exact ⟨hread, hnd, h2, rfl, h3 rfl⟩

end SmartCV
